import Mathlib

/-!
Verification of the schema2type engine (src/schema2type/__init__.py).

The development shallowly embeds the runtime model of the engine:

* `PyVal` is the tree of Python values the engine manipulates (parsed
  YAML scalars, lists, dicts, plus `SchemaBasedObject` instances, which
  appear as `PyVal.vobj cls props` where `props` mirrors `_properties`).
* `PyType` is the set of values `SchemaBasedTypeInfo.type_obj` can take:
  a dynamically created record class, or one of `dict`, `list`, `int`,
  `float`, `bool`, `str`, `object`.
* `CtorD` is a deep embedding of the constructor closures the six
  type-info factories build; `runCtor` evaluates one against a class
  environment `ClassEnv` that mirrors the class attributes that
  `CustomTypeInfoFactory.on_type_defined` installs after registration
  (`_legal_property_name_to_original`, `_property_name_to_type`,
  `_additional_properties_type`, `_additional_properties_allowed`).
* `runCtor` takes a fuel argument; `PyErr.fuelOut` marks exhaustion and
  is never produced by any embedded source operation.

The external document validator (`OAS30Validator`, an import from the
`openapi_schema_validator` package, not part of this repository) is an
external collaborator per the specification; it only accepts or rejects
a raw mapping and never transforms it, so the embedding models it as
accepting.  Every statement proved below therefore quantifies over a
superset of the inputs the real constructor accepts.

Mapping keys are modelled as strings (YAML/JSON object keys), so the
`str(key)` coercion in `DictTypeInfoFactory`'s constructor is the
identity here.
-/

/-- Python runtime values flowing through the engine: scalars, lists,
dicts and `SchemaBasedObject` instances (`vobj cls props` carries the
`_properties` bag of an instance of the dynamically created class
`cls`).  `vfloat` carries an abstract payload: no float arithmetic
occurs in the source. -/
inductive PyVal where
  | vnone : PyVal
  | vbool (b : Bool) : PyVal
  | vint (n : Int) : PyVal
  | vfloat (q : Int) : PyVal
  | vstr (s : String) : PyVal
  | vlist (xs : List PyVal) : PyVal
  | vdict (kvs : List (String × PyVal)) : PyVal
  | vobj (cls : String) (props : List (String × PyVal)) : PyVal

/-- Values `SchemaBasedTypeInfo.type_obj` takes in the source: a record
class created by `type(schema_name, (SchemaBasedObject,), ...)`, or one
of the builtin types `dict`, `list`, `int`, `float`, `bool`, `str`,
`object`. -/
inductive PyType where
  | record (cls : String) : PyType
  | tdict : PyType
  | tlist : PyType
  | tint : PyType
  | tfloat : PyType
  | tbool : PyType
  | tstr : PyType
  | tobj : PyType
deriving DecidableEq, Repr

/-- Python `isinstance`.  Everything is an instance of `object`; a
`bool` is an instance of `int` (Python's `bool` subclasses `int`); a
record instance is an instance of exactly its own class (the generated
classes have no subclasses). -/
def isinst : PyVal → PyType → Bool
  | _, .tobj => true
  | .vobj c _, .record n => c = n
  | .vdict _, .tdict => true
  | .vlist _, .tlist => true
  | .vint _, .tint => true
  | .vbool _, .tint => true
  | .vbool _, .tbool => true
  | .vfloat _, .tfloat => true
  | .vstr _, .tstr => true
  | _, _ => false

/-- Python `issubclass(t, SchemaBasedObject)` for the values `type_obj`
takes: true exactly for the dynamically created record classes. -/
def is_schema_based : PyType → Bool
  | .record _ => true
  | _ => false

/-- Errors the embedded operations raise.  `fuelOut` is the fuel-
exhaustion marker of the embedding, never a behaviour of the source. -/
inductive PyErr where
  | valueError (msg : String) : PyErr
  | documentError (msg : String) : PyErr
  | noValidOneOf (msg : String) : PyErr
  | keyError (msg : String) : PyErr
  | attributeError (msg : String) : PyErr
  | typeError (msg : String) : PyErr
  | assertionError (msg : String) : PyErr
  | fuelOut : PyErr
deriving DecidableEq, Repr

/-- Association-list lookup (Python `d[k]` / `k in d` on dicts keyed by
strings, first match). -/
def alookup {α : Type} (k : String) : List (String × α) → Option α
  | [] => none
  | (k0, v) :: rest => if k0 = k then some v else alookup k rest

/-- Python dict assignment `d[k] = v`: replace in place if the key is
present (keeping its position), append otherwise. -/
def setk {α : Type} (l : List (String × α)) (k : String) (v : α) : List (String × α) :=
  match l with
  | [] => [(k, v)]
  | (k0, v0) :: rest => if k0 = k then (k, v) :: rest else (k0, v0) :: setk rest k v

/-- Deep embedding of the constructor closures built by the factory
chain: `simple` is `lambda raw_value: raw_value`
(`SimpleTypeInfoFactory`), `record cls` is `custom_class_constructor`
(`CustomTypeInfoFactory`), `array` is `array_constructor`
(`ArrayTypeInfoFactory`), `mapd` is the dict-comprehension constructor
(`DictTypeInfoFactory`), `oneOf` is the candidate loop
(`OneOfTypeInfoFactory`), each candidate carrying its `type_obj` and
constructor. -/
inductive CtorD where
  | simple : CtorD
  | record (cls : String) : CtorD
  | array (elem : CtorD) : CtorD
  | mapd (elem : CtorD) : CtorD
  | oneOf (options : List (PyType × CtorD)) : CtorD

/-- `SchemaBasedTypeInfo` from the source: display string, runtime
representation type, constructor, required flag.  The source's default
`constructor = self.type_obj` is never used (every creation site passes
a constructor explicitly), so it is not modelled. -/
structure SchemaBasedTypeInfo where
  type_str : String
  type_obj : PyType
  constructor : CtorD
  required : Bool

/-- Class attributes installed on a dynamically created record class:
`_legal_property_name_to_original`, `_property_name_to_type`,
`_additional_properties_type` (set by `on_type_defined`) and
`_additional_properties_allowed` (set by `build_type`). -/
structure ClassInfo where
  legal_property_name_to_original : List (String × String)
  property_name_to_type : List (String × SchemaBasedTypeInfo)
  additional_properties_type : Option SchemaBasedTypeInfo
  additional_properties_allowed : Bool

/-- The environment of dynamically created classes, keyed by class
name (one build session creates at most one record class per name). -/
abbrev ClassEnv : Type := List (String × ClassInfo)

/-- Python `sorted(type_options, key=lambda o: 0 if issubclass(o.type_obj,
SchemaBasedObject) else 1)`: a stable sort on a two-valued key, i.e. the
record-class candidates first, then the rest, each group keeping its
declaration order. -/
def sortOptions (opts : List (PyType × CtorD)) : List (PyType × CtorD) :=
  opts.filter (fun o => is_schema_based o.1) ++ opts.filter (fun o => !is_schema_based o.1)

/-- Shape of the one-level-deeper constructor evaluator handed to each
step function below; the fuel ladder `runCtor` ties the knot.  Fuel
bounds only the nesting depth of record construction, mirroring the
call depth of the Python closures. -/
abbrev CtorFun : Type := CtorD → PyVal → Except PyErr PyVal

/-- The renaming step of `SchemaBasedObject.__init__`: a key found in
`_legal_property_name_to_original` is replaced by its original schema
name. -/
def rename_key (ci : ClassInfo) (k : String) : String :=
  match alookup k ci.legal_property_name_to_original with
  | some orig => orig
  | none => k

/-- The per-key loop of `SchemaBasedObject.__init__`: rename a legalized
key to its original schema name, then dispatch on declared properties /
additional-property policy, accumulating `self._properties` via dict
assignment. -/
def initPropsF (rec : CtorFun) (cls : String) (ci : ClassInfo) :
    List (String × PyVal) → List (String × PyVal) → Except PyErr (List (String × PyVal))
  | [], acc => .ok acc
  | (k, v) :: rest, acc =>
      let name := rename_key ci k
      match alookup name ci.property_name_to_type with
      | some ti => do
          let w ← rec ti.constructor v
          initPropsF rec cls ci rest (setk acc name w)
      | none =>
          if ci.additional_properties_allowed then
            match ci.additional_properties_type with
            | some ti => do
                let w ← rec ti.constructor v
                initPropsF rec cls ci rest (setk acc name w)
            | none => initPropsF rec cls ci rest (setk acc name v)
          else
            .error (.valueError ("additional property " ++ name ++
              " is not allowed for constructing objects of class " ++ cls))

/-- `SchemaBasedObject.__init__` behind `new_class(**kvs)`: the upstream
`OAS30Validator(self._schema).validate(properties)` call is the external
collaborator, modelled as accepting; then the per-key loop runs. -/
def constructObjectF (rec : CtorFun) (env : ClassEnv) (cls : String)
    (kvs : List (String × PyVal)) : Except PyErr PyVal :=
  match alookup cls env with
  | none => .error (.attributeError ("class " ++ cls ++ " has no attribute tables"))
  | some ci => do
      let props ← initPropsF rec cls ci kvs []
      .ok (.vobj cls props)

/-- `[sub_type.constructor(x) for x in raw_list]` of `array_constructor`. -/
def runCtorListF (rec : CtorFun) (elem : CtorD) : List PyVal → Except PyErr (List PyVal)
  | [] => .ok []
  | x :: rest => do
      let y ← rec elem x
      let ys ← runCtorListF rec elem rest
      .ok (y :: ys)

/-- The dict comprehension of `DictTypeInfoFactory`'s constructor
(`str(key)` is the identity on the string keys of the model); repeated
keys overwrite like dict insertion. -/
def runCtorValsF (rec : CtorFun) (elem : CtorD) :
    List (String × PyVal) → List (String × PyVal) → Except PyErr (List (String × PyVal))
  | [], acc => .ok acc
  | (k, v) :: rest, acc => do
      let w ← rec elem v
      runCtorValsF rec elem rest (setk acc k w)

/-- The candidate loop of the `oneOf` constructor: over the stably
sorted candidates, a candidate is attempted when
`issubclass(o.type_obj, SchemaBasedObject) and isinstance(raw, dict)
or isinstance(raw, o.type_obj)`; a `NoValidOneOfOptionException` from an
attempt moves to the next candidate, any other outcome is returned; an
exhausted loop raises the union-exhausted error. -/
def oneOfLoopF (rec : CtorFun) : List (PyType × CtorD) → PyVal → Except PyErr PyVal
  | [], _ => .error (.noValidOneOf "couldn\x27t construct OneOf object from the given value")
  | (t, c) :: rest, raw =>
      if is_schema_based t && isinst raw .tdict || isinst raw t then
        match rec c raw with
        | .error (.noValidOneOf _) => oneOfLoopF rec rest raw
        | r => r
      else oneOfLoopF rec rest raw

/-- One level of the constructor evaluator, mirroring the closures in
the source.  The record case is `custom_class_constructor`: an instance
of the class passes through unchanged; a dict is handed to
`SchemaBasedObject.__init__`; anything else raises the conversion
`ValueError` (whose Python text also interpolates `str(type(...))` and
`str(...)`; the dynamic tail is omitted here). -/
def runCtorF (env : ClassEnv) (rec : CtorFun) : CtorD → PyVal → Except PyErr PyVal
  | .simple, raw => .ok raw
  | .record cls, raw =>
      if isinst raw (.record cls) then .ok raw
      else
        match raw with
        | .vdict kvs => constructObjectF rec env cls kvs
        | _ => .error (.valueError ("while trying to convert to the class \x22" ++ cls ++
            "\x22, expected either a raw dict of properties, or an instance of the class itself"))
  | .array elem, raw =>
      match raw with
      | .vlist xs => do
          let ys ← runCtorListF rec elem xs
          .ok (.vlist ys)
      | _ => .error (.valueError
          "while converting a list of raw items to a list of typed items,expected a list of items")
  | .mapd elem, raw =>
      match raw with
      | .vdict kvs => do
          let ys ← runCtorValsF rec elem kvs []
          .ok (.vdict ys)
      | _ => .error (.attributeError "items")
  | .oneOf opts, raw => oneOfLoopF rec (sortOptions opts) raw

/-- The constructor evaluator: each recursion level consumes one unit of
fuel, so `fuel` bounds the nesting depth of the evaluated closures;
`PyErr.fuelOut` (never a source behaviour) marks exhaustion. -/
def runCtor (env : ClassEnv) : Nat → CtorD → PyVal → Except PyErr PyVal
  | 0, _, _ => .error .fuelOut
  | fuel + 1, c, raw => runCtorF env (runCtor env fuel) c raw

mutual

/-- `to_simple` from the source: recursively export an object /
dict / list tree back to plain values (`get_all_properties` of an
instance is its `_properties` bag). -/
def to_simple : PyVal → PyVal
  | .vobj _ props => .vdict (to_simple_pairs props)
  | .vdict kvs => .vdict (to_simple_pairs kvs)
  | .vlist xs => .vlist (to_simple_list xs)
  | v => v

/-- List part of `to_simple`. -/
def to_simple_list : List PyVal → List PyVal
  | [] => []
  | x :: rest => to_simple x :: to_simple_list rest

/-- Key-value part of `to_simple`. -/
def to_simple_pairs : List (String × PyVal) → List (String × PyVal)
  | [] => []
  | (k, v) :: rest => (k, to_simple v) :: to_simple_pairs rest

end

mutual

/-- Boolean equality on values, standing in for the equality of Python's
`hash((name, str(schema)))` node identities (`str` is injective on
parsed trees; hash collisions are abstracted away).  Only reflexivity
and the definitional behaviour are used. -/
def pyValBEq : PyVal → PyVal → Bool
  | .vnone, .vnone => true
  | .vbool a, .vbool b => a == b
  | .vint a, .vint b => a == b
  | .vfloat a, .vfloat b => a == b
  | .vstr a, .vstr b => a == b
  | .vlist xs, .vlist ys => pyValListBEq xs ys
  | .vdict xs, .vdict ys => pyValPairsBEq xs ys
  | .vobj c xs, .vobj d ys => c == d && pyValPairsBEq xs ys
  | _, _ => false

/-- List part of `pyValBEq`. -/
def pyValListBEq : List PyVal → List PyVal → Bool
  | [], [] => true
  | x :: xs, y :: ys => pyValBEq x y && pyValListBEq xs ys
  | _, _ => false

/-- Key-value part of `pyValBEq`. -/
def pyValPairsBEq : List (String × PyVal) → List (String × PyVal) → Bool
  | [], [] => true
  | (k, v) :: xs, (k2, w) :: ys => k == k2 && pyValBEq v w && pyValPairsBEq xs ys
  | _, _ => false

end

mutual

/-- Node size of a value tree, the measure used for the termination
bound of the type builder. -/
def sizeS : PyVal → Nat
  | .vlist xs => 1 + sizeL xs
  | .vdict kvs => 1 + sizeP kvs
  | .vobj _ props => 1 + sizeP props
  | _ => 1

/-- List part of `sizeS`. -/
def sizeL : List PyVal → Nat
  | [] => 0
  | x :: rest => sizeS x + sizeL rest

/-- Key-value part of `sizeS`: each entry also counts its key. -/
def sizeP : List (String × PyVal) → Nat
  | [] => 0
  | (_, v) :: rest => 1 + sizeS v + sizeP rest

end

/-- Distinct keys of a modelled Python dict (keys of a real Python dict
are always distinct). -/
def nodupKeys {α : Type} : List (String × α) → Bool
  | [] => true
  | (k, _) :: rest => rest.all (fun kv => kv.1 != k) && nodupKeys rest

/-- Keys that some record class of the environment legalizes to a
different original name: `SchemaBasedObject.__init__` silently renames
such a key, the one source of round-trip loss. -/
def properAlias (env : ClassEnv) (k : String) : Bool :=
  env.any (fun ce => ce.2.legal_property_name_to_original.any (fun p => p.1 == k && p.2 != k))

mutual

/-- A raw input tree fit for a loss-free round trip: a plain parsed
tree (no record instances, distinct mapping keys, as any parsed
document satisfies) none of whose mapping keys is a proper legalized
alias for the environment. -/
def plainForExport (env : ClassEnv) : PyVal → Bool
  | .vlist xs => plainListForExport env xs
  | .vdict kvs =>
      nodupKeys kvs && kvs.all (fun kv => !properAlias env kv.1) && plainPairsForExport env kvs
  | .vobj _ _ => false
  | _ => true

/-- List part of `plainForExport`. -/
def plainListForExport (env : ClassEnv) : List PyVal → Bool
  | [] => true
  | x :: rest => plainForExport env x && plainListForExport env rest

/-- Key-value part of `plainForExport`. -/
def plainPairsForExport (env : ClassEnv) : List (String × PyVal) → Bool
  | [] => true
  | (_, v) :: rest => plainForExport env v && plainPairsForExport env rest

end

/-- Python `value is None` (identity with the unique `None` object). -/
def isNone : PyVal → Bool
  | .vnone => true
  | _ => false

/-- `property_setter` installed by `CustomTypeInfoFactory.on_type_defined`:
look up the declared type of the bound property in the class tables,
accept `None` for a non-required property or any value whose runtime
representation matches `type_obj`, reject everything else with a
`ValueError` (whose Python text also interpolates
`str(property_type.type_obj)`; the dynamic part is omitted), and on
success assign into the `_properties` bag. -/
def property_setter (ci : ClassInfo) (bound_property_name : String)
    (inst_props : List (String × PyVal)) (value : PyVal) :
    Except PyErr (List (String × PyVal)) :=
  match alookup bound_property_name ci.property_name_to_type with
  | none => .error (.keyError bound_property_name)
  | some property_type =>
      if isNone value && !property_type.required || isinst value property_type.type_obj then
        .ok (setk inst_props bound_property_name value)
      else
        .error (.valueError ("expected type for property \x22" ++ bound_property_name ++ "\x22"))

/-- Python `keyword.kwlist` (Python 3.7+, the interpreter the package
targets). -/
def kwlist : List String :=
  ["False", "None", "True", "and", "as", "assert", "async", "await", "break",
   "class", "continue", "def", "del", "elif", "else", "except", "finally",
   "for", "from", "global", "if", "import", "in", "is", "lambda", "nonlocal",
   "not", "or", "pass", "raise", "return", "try", "while", "with", "yield"]

/-- Python regex word character `\w` (ASCII scope: letters, digits and
the underscore; the embedding covers ASCII property names). -/
def word_char (c : Char) : Bool := c.isAlphanum || c = '_'

/-- `ill_character_map.get(c, 'ILL')` from `make_legal`. -/
def ill_map (c : Char) : List Char := if c = '$' then "dollar".toList else "ILL".toList

mutual

/-- `re.sub(r'\W+', repl, s)`: replace each maximal run of non-word
characters by `repl` (this function is entered outside a run). -/
def subst_ill (repl : List Char) : List Char → List Char
  | [] => []
  | c :: rest =>
      if word_char c then c :: subst_ill repl rest
      else repl ++ subst_ill_run repl rest

/-- `re.sub(r'\W+', ...)` inside a maximal non-word run (the
replacement for the run has been emitted already). -/
def subst_ill_run (repl : List Char) : List Char → List Char
  | [] => []
  | c :: rest =>
      if word_char c then c :: subst_ill repl rest
      else subst_ill_run repl rest

end

/-- `make_legal` from the source, on the character list of the name.
`re.match(r'\d.+', s)` holds when the first character is a digit and a
second character follows; `re.match(r'\W.+', s)` when the first
character is a non-word character and a second follows;
`re.match(r'.+\W', s)` when some non-word character occurs at index one
or later (the regex dot is modelled as matching any character; Python
excludes a newline).  The final `re.sub` replaces every maximal
non-word run by `_<ill>_` where `<ill>` is looked up from the first
character of the current name (on an empty input Python would raise an
`IndexError` there; the embedding returns the empty name). -/
def make_legal_chars (s0 : List Char) : List Char :=
  let s1 := match s0 with
    | c :: d :: rest => if c.isDigit then "ILL_".toList ++ c :: d :: rest else c :: d :: rest
    | l => l
  let s2 := match s1 with
    | c :: d :: rest => if ! word_char c then ill_map c ++ '_' :: d :: rest else c :: d :: rest
    | l => l
  let s3 := match s2 with
    | c :: rest =>
        if rest.any (fun x => ! word_char x) then (c :: rest).dropLast ++ '_' :: ill_map c
        else c :: rest
    | [] => []
  match s3 with
  | c :: rest => subst_ill ('_' :: ill_map c ++ ['_']) (c :: rest)
  | [] => []

/-- `make_legal` from the source: the character-level pass above plus
the trailing-underscore escape for Python keywords. -/
def make_legal (property_name : String) : String :=
  let r := String.mk (make_legal_chars property_name.toList)
  if kwlist.contains r then r ++ "_" else r

/-- The two dialects of `specification_type_to_interface_class`. -/
inductive Dialect where
  | openapi : Dialect
  | json_schema : Dialect
deriving DecidableEq, Repr

/-- Python `v[k]` for a string key: a `KeyError` when the key is
missing, a `TypeError` when the value is not a mapping. -/
def pyGetItem (v : PyVal) (k : String) : Except PyErr PyVal :=
  match v with
  | .vdict kvs =>
      match alookup k kvs with
      | some w => .ok w
      | none => .error (.keyError k)
  | _ => .error (.typeError "object is not subscriptable")

/-- Python `v.keys()` (an `AttributeError` off a non-dict). -/
def pyKeys (v : PyVal) : Except PyErr (List String) :=
  match v with
  | .vdict kvs => .ok (kvs.map Prod.fst)
  | _ => .error (.attributeError "keys")

/-- Python iteration `for x in v`: a list yields its elements, a dict
its keys, a string its characters; anything else is not iterable. -/
def pyIter (v : PyVal) : Except PyErr (List PyVal) :=
  match v with
  | .vlist xs => .ok xs
  | .vdict kvs => .ok (kvs.map (fun kv => PyVal.vstr kv.1))
  | .vstr s => .ok (s.toList.map (fun c => PyVal.vstr (String.mk [c])))
  | _ => .error (.typeError "object is not iterable")

/-- Python substring test `needle in hay` on character lists. -/
def charsContain (needle : List Char) : List Char → Bool
  | [] => needle.isEmpty
  | c :: rest => List.isPrefixOf needle (c :: rest) || charsContain needle rest

/-- Python `property_name in required_properties` where
`required_properties = schema.get('required', [])`: membership for a
list, key membership for a dict, substring for a string, a `TypeError`
otherwise. -/
def requiredContains (required : PyVal) (k : String) : Except PyErr Bool :=
  match required with
  | .vlist l => .ok (l.any (fun x => pyValBEq x (.vstr k)))
  | .vdict kvs => .ok (kvs.any (fun kv => kv.1 == k))
  | .vstr s => .ok (charsContain k.toList s.toList)
  | _ => .error (.typeError "argument is not iterable")

/-- `SpecificationInterface.parse_schema_name`: a full match of the
dialect's reference pattern (`#/components/schemas/([^/]+)` or
`#/definitions/([^/]+)`) returns the capture, anything else raises
`DocumentError`. -/
def parse_schema_name (dia : Dialect) (schema_ref_str : String) : Except PyErr String :=
  let pat := match dia with
    | .openapi => "#/components/schemas/"
    | .json_schema => "#/definitions/"
  if List.isPrefixOf pat.toList schema_ref_str.toList then
    let rest := String.mk (schema_ref_str.toList.drop pat.toList.length)
    if rest.toList.length > 0 && rest.toList.all (fun c => c != '/') then .ok rest
    else .error (.documentError ("invalid schema reference string: " ++ schema_ref_str))
  else .error (.documentError ("invalid schema reference string: " ++ schema_ref_str))

/-- `get_schema_names` of the two interfaces: the OpenAPI variant reads
the keys of `components.schemas`; the JSON-Schema variant reads the keys
of `definitions` and adds the virtual `RootObject` (a set union in
Python, so deduplicated; only membership and the deduplicated content
are ever consumed). -/
def get_schema_names (dia : Dialect) (doc : PyVal) : Except PyErr (List String) :=
  match dia with
  | .openapi => do
      let cs ← pyGetItem doc "components"
      let ss ← pyGetItem cs "schemas"
      pyKeys ss
  | .json_schema => do
      let ds ← pyGetItem doc "definitions"
      let ks ← pyKeys ds
      .ok (if ks.contains "RootObject" then ks else ks ++ ["RootObject"])

/-- `get_schema` of the two interfaces; the JSON-Schema variant answers
the document root for the virtual `RootObject`. -/
def get_schema (dia : Dialect) (doc : PyVal) (name : String) : Except PyErr PyVal :=
  match dia with
  | .openapi => do
      let cs ← pyGetItem doc "components"
      let ss ← pyGetItem cs "schemas"
      pyGetItem ss name
  | .json_schema =>
      if name = "RootObject" then .ok doc
      else do
        let ds ← pyGetItem doc "definitions"
        pyGetItem ds name

/-- `schema_exists`. -/
def schema_exists (dia : Dialect) (doc : PyVal) (name : String) : Except PyErr Bool := do
  let ns ← get_schema_names dia doc
  .ok (ns.contains name)

/-- A node identity: `hash((name, str(schema)))` — the pair itself in
the model (`str` is injective on parsed trees; hash collisions are
abstracted away). -/
abbrev Ident : Type := Option String × PyVal

/-- Equality of node identities. -/
def identBEq (a b : Ident) : Bool :=
  (match a.1, b.1 with
   | none, none => true
   | some x, some y => x == y
   | _, _ => false) && pyValBEq a.2 b.2

/-- Membership in the resolving set (`_schemas_that_are_being_parsed`). -/
def resolvingHas (res : List Ident) (i : Ident) : Bool :=
  res.any (fun j => identBEq j i)

/-- One instrumented record per `build_and_define_type` call: the call's
identity, the resolving set and the (mirrored Python) stack of enclosing
build identities at entry, and whether the factory chain was restricted
to `[SimpleTypeInfoFactory]`. -/
structure TraceEntry where
  ident : Ident
  resolvingAtEntry : List Ident
  stackAtEntry : List Ident
  simpleOnly : Bool

/-- Mutable state of one `SchemaBasedTypeBuilder` session: the
name-to-type registry, the created record classes, the resolving set,
and the instrumentation trace (the last is ghost state: nothing reads
it). -/
structure BState where
  schema_name_to_type_info : List (String × SchemaBasedTypeInfo)
  classes : ClassEnv
  schemas_being_parsed : List Ident
  trace : List TraceEntry

/-- Fresh builder state. -/
def initState : BState := ⟨[], [], [], []⟩

/-- Shape of the one-frame-deeper `build_and_define_type` handed to the
step functions; the fuel ladder `buildAndDefine` ties the knot.  Fuel
bounds only the nesting depth of build frames. -/
abbrev BuildFun : Type :=
  PyVal → Option String → Bool → BState → List Ident →
    Except PyErr (SchemaBasedTypeInfo × BState)

/-- `self.schema_name_to_type_info[name] = type_info` when a name was
supplied (dict assignment: a later definition of the same name
overwrites in place). -/
def registerIfNamed (name : Option String) (ti : SchemaBasedTypeInfo) (st : BState) : BState :=
  match name with
  | some n => { st with schema_name_to_type_info := setk st.schema_name_to_type_info n ti }
  | none => st

/-- `get_type`: answer from the registry, otherwise fetch the schema
and drive `build_and_define_type`, then read the registry entry. -/
def getTypeF (dia : Dialect) (doc : PyVal) (recB : BuildFun) (schema_name : String)
    (st : BState) (stack : List Ident) : Except PyErr (SchemaBasedTypeInfo × BState) :=
  match alookup schema_name st.schema_name_to_type_info with
  | some ti => .ok (ti, st)
  | none => do
      let schema ← get_schema dia doc schema_name
      let r ← recB schema (some schema_name) true st stack
      match alookup schema_name r.2.schema_name_to_type_info with
      | some ti => .ok (ti, r.2)
      | none => .error (.keyError schema_name)

/-- Python `str(x)` for the scalar interpolations in error messages. -/
def pyScalarStr : PyVal → String
  | .vstr s => s
  | .vint n => toString n
  | .vbool true => "True"
  | .vbool false => "False"
  | .vnone => "None"
  | .vfloat _ => "float"
  | _ => "value"

/-- `SimpleTypeInfoFactory.build_type`: map the declared `type` keyword
to a primitive representation with the identity constructor; `object`
becomes an untyped mapping, an absent (or `None`-valued) keyword an
unconstrained value, any other keyword raises `DocumentError` (an
unhashable keyword value would raise `TypeError` at the dict-membership
test; a non-dict schema raises `AttributeError` at `self.schema.get`).
The Python message also interpolates the schema; the dynamic tail is
omitted. -/
def simple_build_type (schema : PyVal) (required : Bool) : Except PyErr SchemaBasedTypeInfo :=
  match schema with
  | .vdict kvs =>
      match alookup "type" kvs with
      | none => .ok { type_str := "Any", type_obj := .tobj, constructor := .simple,
                      required := required }
      | some t =>
          if pyValBEq t (.vstr "object") then
            .ok { type_str := "Dict[str, Any]", type_obj := .tdict, constructor := .simple,
                  required := required }
          else
            match t with
            | .vnone => .ok { type_str := "Any", type_obj := .tobj, constructor := .simple,
                              required := required }
            | .vstr "string" => .ok { type_str := "str", type_obj := .tstr,
                                      constructor := .simple, required := required }
            | .vstr "integer" => .ok { type_str := "int", type_obj := .tint,
                                       constructor := .simple, required := required }
            | .vstr "number" => .ok { type_str := "float", type_obj := .tfloat,
                                      constructor := .simple, required := required }
            | .vstr "boolean" => .ok { type_str := "bool", type_obj := .tbool,
                                       constructor := .simple, required := required }
            | .vlist _ => .error (.typeError "unhashable type")
            | .vdict _ => .error (.typeError "unhashable type")
            | other => .error (.documentError
                ("invalid type \x22" ++ pyScalarStr other ++ "\x22 in schema"))
  | _ => .error (.attributeError "get")

/-- `RefTypeInfoFactory.build_type`: a dict schema carrying `$ref`
parses the reference, fails with `DocumentError` when the referenced
name does not exist, otherwise resolves it through the builder and
copies the referenced descriptor with the current context's required
flag; any other schema declines. -/
def ref_build_type (dia : Dialect) (doc : PyVal) (recB : BuildFun) (schema : PyVal)
    (required : Bool) (st : BState) (stack : List Ident) :
    Except PyErr (Option SchemaBasedTypeInfo × BState) :=
  match schema with
  | .vdict kvs =>
      match alookup "$ref" kvs with
      | some (.vstr ref_string) => do
          let schema_name ← parse_schema_name dia ref_string
          let ex ← schema_exists dia doc schema_name
          if ex then do
            let r ← getTypeF dia doc recB schema_name st stack
            .ok (some { type_str := r.1.type_str, type_obj := r.1.type_obj,
                        constructor := r.1.constructor, required := required }, r.2)
          else .error (.documentError ("unresolved schema reference: \x22" ++ ref_string ++ "\x22"))
      | some _ => .error (.typeError "expected string or bytes-like object")
      | none => .ok (none, st)
  | _ => .ok (none, st)

/-- The acceptance test and descriptor of `CustomTypeInfoFactory.build_type`:
a named dict schema with `type: object` and a `properties` key yields a
fresh record class (required is hard-coded to `True` at this creation
site). -/
def custom_build_type (schema : PyVal) (name : Option String) : Option SchemaBasedTypeInfo :=
  match name, schema with
  | some n, .vdict kvs =>
      match alookup "type" kvs with
      | some t =>
          if pyValBEq t (.vstr "object") && (alookup "properties" kvs).isSome then
            some { type_str := n, type_obj := .record n, constructor := .record n,
                   required := true }
          else none
      | none => none
  | _, _ => none

/-- The `_additional_properties_allowed` flag `CustomTypeInfoFactory.build_type`
installs: cleared exactly when `schema.get('additionalProperties', True)
is False` and no `patternProperties` key is present. -/
def custom_additional_allowed (schema : PyVal) : Bool :=
  match schema with
  | .vdict kvs =>
      !((match alookup "additionalProperties" kvs with
         | some (.vbool false) => true
         | _ => false) && (alookup "patternProperties" kvs).isNone)
  | _ => true

/-- `try_build_additional_property_type`: on a `type: object` dict
schema, a dict-valued `patternProperties` is rewrapped as a synthetic
`oneOf` over its values, else a dict-valued `additionalProperties` is
used directly; otherwise no additional-property type is built. -/
def try_build_additional_property_type (recB : BuildFun) (schema : PyVal)
    (st : BState) (stack : List Ident) :
    Except PyErr (Option SchemaBasedTypeInfo × BState) :=
  match schema with
  | .vdict kvs =>
      if (match alookup "type" kvs with
          | some t => pyValBEq t (.vstr "object")
          | none => false) then
        match alookup "patternProperties" kvs with
        | some (.vdict patkvs) => do
            let sub_schema : PyVal := .vdict [("oneOf", .vlist (patkvs.map Prod.snd))]
            let r ← recB sub_schema none true st stack
            .ok (some r.1, r.2)
        | _ =>
            match alookup "additionalProperties" kvs with
            | some (.vdict apkvs) => do
                let r ← recB (.vdict apkvs) none true st stack
                .ok (some r.1, r.2)
            | _ => .ok (none, st)
      else .ok (none, st)
  | _ => .ok (none, st)

/-- The property loop of `CustomTypeInfoFactory.on_type_defined`:
for each declared property in order, record `make_legal(name) → name`
in the legal-name map, resolve the property schema through the builder
with its required flag, and record the descriptor under the original
name. -/
def custom_props_fold (recB : BuildFun) (requiredv : PyVal) :
    List (String × PyVal) → List (String × String) →
    List (String × SchemaBasedTypeInfo) → BState → List Ident →
    Except PyErr (List (String × String) × List (String × SchemaBasedTypeInfo) × BState)
  | [], legalMap, propMap, st, _ => .ok (legalMap, propMap, st)
  | (property_name, property_schema) :: rest, legalMap, propMap, st, stack => do
      let legal := make_legal property_name
      let legalMap2 := setk legalMap legal property_name
      let req ← requiredContains requiredv property_name
      let r ← recB property_schema none req st stack
      custom_props_fold recB requiredv rest legalMap2 (setk propMap property_name r.1) r.2 stack

/-- `CustomTypeInfoFactory.on_type_defined`: after the shell class is
registered, build the additional-property type, then the legal-name map
and per-property descriptors, and install the four class attribute
tables (the class is only ever read after this completes, so installing
the finished tables at once is equivalent to Python's incremental
attribute assignment). -/
def custom_on_type_defined (recB : BuildFun) (schema : PyVal) (n : String)
    (st : BState) (stack : List Ident) : Except PyErr BState := do
  let ra ← try_build_additional_property_type recB schema st stack
  match schema with
  | .vdict kvs =>
      match alookup "properties" kvs with
      | some (.vdict propkvs) => do
          let requiredv := match alookup "required" kvs with
            | some v => v
            | none => .vlist []
          let rf ← custom_props_fold recB requiredv propkvs [] [] ra.2 stack
          let ci : ClassInfo := ClassInfo.mk rf.1 rf.2.1 ra.1 (custom_additional_allowed schema)
          .ok { rf.2.2 with classes := setk rf.2.2.classes n ci }
      | some _ => .error (.attributeError "items")
      | none => .error (.keyError "properties")
  | _ => .error (.attributeError "get")

/-- The per-option loop of `OneOfTypeInfoFactory.build_type`. -/
def build_sub_types (recB : BuildFun) :
    List PyVal → BState → List Ident →
    Except PyErr (List SchemaBasedTypeInfo × BState)
  | [], st, _ => .ok ([], st)
  | s :: rest, st, stack => do
      let r ← recB s none true st stack
      let rr ← build_sub_types recB rest r.2 stack
      .ok (r.1 :: rr.1, rr.2)

/-- `OneOfTypeInfoFactory.build_type`: a dict schema carrying `oneOf`
builds one descriptor per listed option (iterating the value as Python
would) and wraps them in the union constructor; the union's
representation type is `object`. -/
def one_of_build_type (recB : BuildFun) (schema : PyVal) (required : Bool)
    (st : BState) (stack : List Ident) :
    Except PyErr (Option SchemaBasedTypeInfo × BState) :=
  match schema with
  | .vdict kvs =>
      match alookup "oneOf" kvs with
      | some ov => do
          let subs ← pyIter ov
          let r ← build_sub_types recB subs st stack
          .ok (some { type_str := "Union[" ++
                        String.intercalate ", " (r.1.map (fun o => o.type_str)) ++ "]",
                      type_obj := .tobj,
                      constructor := .oneOf (r.1.map (fun o => (o.type_obj, o.constructor))),
                      required := required }, r.2)
      | none => .ok (none, st)
  | _ => .ok (none, st)

/-- `ArrayTypeInfoFactory.build_type`: a dict schema with `type: array`
resolves `items` (a `KeyError` when absent) as the element type and
wraps it in the list constructor. -/
def array_build_type (recB : BuildFun) (schema : PyVal) (required : Bool)
    (st : BState) (stack : List Ident) :
    Except PyErr (Option SchemaBasedTypeInfo × BState) :=
  match schema with
  | .vdict kvs =>
      match alookup "type" kvs with
      | some t =>
          if pyValBEq t (.vstr "array") then do
            let items ← (match alookup "items" kvs with
              | some v => Except.ok v
              | none => .error (.keyError "items"))
            let r ← recB items none true st stack
            .ok (some { type_str := "List[" ++ r.1.type_str ++ "]", type_obj := .tlist,
                        constructor := .array r.1.constructor, required := required }, r.2)
          else .ok (none, st)
      | none => .ok (none, st)
  | _ => .ok (none, st)

/-- `DictTypeInfoFactory.build_type`: a `type: object` dict schema with
a buildable additional-property type becomes a string-keyed map of that
element type; otherwise the factory declines. -/
def dict_build_type (recB : BuildFun) (schema : PyVal) (required : Bool)
    (st : BState) (stack : List Ident) :
    Except PyErr (Option SchemaBasedTypeInfo × BState) :=
  match schema with
  | .vdict kvs =>
      if (match alookup "type" kvs with
          | some t => pyValBEq t (.vstr "object")
          | none => false) then do
        let ra ← try_build_additional_property_type recB schema st stack
        match ra.1 with
        | some ti => .ok (some { type_str := "Dict[str, " ++ ti.type_str ++ "]",
                                 type_obj := .tdict, constructor := .mapd ti.constructor,
                                 required := required }, ra.2)
        | none => .ok (none, ra.2)
      else .ok (none, st)
  | _ => .ok (none, st)

/-- The factory chain of `build_and_define_type` in its fixed order,
first acceptance winning: registration of a named result happens before
the accepting factory's `on_type_defined` hook runs (only
`CustomTypeInfoFactory` has a non-trivial hook). -/
def runChainF (dia : Dialect) (doc : PyVal) (recB : BuildFun) (schema : PyVal)
    (name : Option String) (required : Bool) (st : BState) (stack : List Ident) :
    Except PyErr (SchemaBasedTypeInfo × BState) := do
  let r1 ← ref_build_type dia doc recB schema required st stack
  match r1.1 with
  | some ti => .ok (ti, registerIfNamed name ti r1.2)
  | none =>
  match custom_build_type schema name with
  | some ti => do
      let stb := registerIfNamed name ti r1.2
      let stc ← custom_on_type_defined recB schema ti.type_str stb stack
      .ok (ti, stc)
  | none => do
  let r3 ← one_of_build_type recB schema required r1.2 stack
  match r3.1 with
  | some ti => .ok (ti, registerIfNamed name ti r3.2)
  | none => do
  let r4 ← array_build_type recB schema required r3.2 stack
  match r4.1 with
  | some ti => .ok (ti, registerIfNamed name ti r4.2)
  | none => do
  let r5 ← dict_build_type recB schema required r4.2 stack
  match r5.1 with
  | some ti => .ok (ti, registerIfNamed name ti r5.2)
  | none => do
  let ti ← simple_build_type schema required
  .ok (ti, registerIfNamed name ti r5.2)

/-- The body of `build_and_define_type` below its entry assertion: take
the node identity, restrict to `[SimpleTypeInfoFactory]` when the
identity is in the resolving set (recording a trace entry either way),
otherwise add the identity and run the full chain; at exit remove the
identity if it is (still) present.  `stack` mirrors the Python call
stack of enclosing `build_and_define_type` identities (ghost data for
the trace). -/
def buildAndDefineCore (dia : Dialect) (doc : PyVal) (recB : BuildFun) (schema : PyVal)
    (name : Option String) (required : Bool) (st : BState) (stack : List Ident) :
    Except PyErr (SchemaBasedTypeInfo × BState) := do
  let ident : Ident := (name, schema)
  let reentrant := resolvingHas st.schemas_being_parsed ident
  let st1 : BState := { st with
    trace := st.trace ++ [⟨ident, st.schemas_being_parsed, stack, reentrant⟩],
    schemas_being_parsed :=
      if reentrant then st.schemas_being_parsed else ident :: st.schemas_being_parsed }
  let r ←
    if reentrant then do
      let ti ← simple_build_type schema required
      Except.ok (ti, registerIfNamed name ti st1)
    else runChainF dia doc recB schema name required st1 (ident :: stack)
  let st3 : BState :=
    if resolvingHas r.2.schemas_being_parsed ident then
      { r.2 with schemas_being_parsed :=
          r.2.schemas_being_parsed.filter (fun j => !identBEq j ident) }
    else r.2
  .ok (r.1, st3)

/-- One frame of `build_and_define_type`: the entry assertion (`name
is None or name not in registry`), then the body. -/
def buildAndDefineF (dia : Dialect) (doc : PyVal) (recB : BuildFun) (schema : PyVal)
    (name : Option String) (required : Bool) (st : BState) (stack : List Ident) :
    Except PyErr (SchemaBasedTypeInfo × BState) :=
  match name with
  | some n =>
      if (alookup n st.schema_name_to_type_info).isSome then
        .error (.assertionError ("type with name " ++ n ++ " already defined"))
      else buildAndDefineCore dia doc recB schema name required st stack
  | none => buildAndDefineCore dia doc recB schema name required st stack

/-- `build_and_define_type` as a fuel ladder: each nested build frame
consumes one unit of fuel, so fuel bounds the frame-nesting depth;
`PyErr.fuelOut` (never a source behaviour) marks exhaustion. -/
def buildAndDefine (dia : Dialect) (doc : PyVal) :
    Nat → PyVal → Option String → Bool → BState → List Ident →
    Except PyErr (SchemaBasedTypeInfo × BState)
  | 0, _, _, _, _, _ => .error .fuelOut
  | fuel + 1, schema, name, required, st, stack =>
      buildAndDefineF dia doc (buildAndDefine dia doc fuel) schema name required st stack

/-- `get_type` driven from the outside with a fuel budget and an empty
enclosing stack. -/
def get_type (dia : Dialect) (doc : PyVal) (fuel : Nat) (schema_name : String)
    (st : BState) : Except PyErr (SchemaBasedTypeInfo × BState) :=
  getTypeF dia doc (buildAndDefine dia doc fuel) schema_name st []

/-- Fallback descriptor for total extraction helpers. -/
instance : Inhabited SchemaBasedTypeInfo :=
  ⟨{ type_str := "", type_obj := .tobj, constructor := .simple, required := true }⟩

/-- Class environment of a finished build (empty when the build fails). -/
def built_env (dia : Dialect) (doc : PyVal) (fuel : Nat) (name : String) : ClassEnv :=
  match get_type dia doc fuel name initState with
  | .ok (_, st) => st.classes
  | .error _ => []

/-- Descriptor of a finished build (the fallback when the build fails). -/
def built_ti (dia : Dialect) (doc : PyVal) (fuel : Nat) (name : String) : SchemaBasedTypeInfo :=
  match get_type dia doc fuel name initState with
  | .ok (ti, _) => ti
  | .error _ => default

/-- Trace of a finished build. -/
def built_trace (dia : Dialect) (doc : PyVal) (fuel : Nat) (name : String) : List TraceEntry :=
  match get_type dia doc fuel name initState with
  | .ok (_, st) => st.trace
  | .error _ => []

/-- The example document of the specification: an object schema `Item`
with a required array-of-strings property `tags` (OpenAPI layout). -/
def doc_item : PyVal := .vdict [("components", .vdict [("schemas", .vdict [
  ("Item", .vdict [
    ("type", .vstr "object"),
    ("properties", .vdict [("tags", .vdict [("type", .vstr "array"),
      ("items", .vdict [("type", .vstr "string")])])]),
    ("required", .vlist [.vstr "tags"])])])])]

/-- A self-referential named object schema (JSON-Schema layout): a
property of `A` references `A` itself. -/
def doc_selfref : PyVal := .vdict [("definitions", .vdict [
  ("A", .vdict [("type", .vstr "object"),
    ("properties", .vdict [("self", .vdict [("$ref", .vstr "#/definitions/A")])])])])]

/-- A `oneOf` whose single candidate is the primitive-represented
`type: object` schema (its `type_obj` is `dict`, not a record class). -/
def doc_oneof_dict : PyVal := .vdict [("definitions", .vdict [
  ("A", .vdict [("oneOf", .vlist [.vdict [("type", .vstr "object")]])])])]

/-- The sub-schema `X = oneOf [$ref B]` shared by `doc_reenter`. -/
def schema_x : PyVal := .vdict [("oneOf", .vlist [.vdict [("$ref", .vstr "#/definitions/B")]])]

/-- A document on which the same unnamed node `X` is re-entered twice
below one unfinished outer resolution of `X`: resolving `A` resolves
`A.a = X`, which resolves `B`, whose properties `p` and `q` are both
the node `X` again. -/
def doc_reenter : PyVal := .vdict [("definitions", .vdict [
  ("A", .vdict [("type", .vstr "object"), ("properties", .vdict [("a", schema_x)])]),
  ("B", .vdict [("type", .vstr "object"),
    ("properties", .vdict [("p", schema_x), ("q", schema_x)])])])]

/-- An object schema one of whose property names (`class`) legalizes to
a different accessor name (`class_`). -/
def doc_alias : PyVal := .vdict [("components", .vdict [("schemas", .vdict [
  ("C", .vdict [("type", .vstr "object"),
    ("properties", .vdict [("class", .vdict [("type", .vstr "integer")])])])])])]

/-- An object schema with two distinct property names (`a!`, `a?`)
legalizing to the same identifier `a_ILL`. -/
def doc_collide : PyVal := .vdict [("components", .vdict [("schemas", .vdict [
  ("D", .vdict [("type", .vstr "object"), ("properties", .vdict [
     ("a!", .vdict [("type", .vstr "integer")]),
     ("a?", .vdict [("type", .vstr "string")])])])])])]

/-- A schema with an unrecognized primitive `type` keyword. -/
def doc_badtype : PyVal := .vdict [("definitions", .vdict [
  ("A", .vdict [("type", .vstr "foo")])])]

/-- A schema referencing a name that does not exist in the document. -/
def doc_badref : PyVal := .vdict [("definitions", .vdict [
  ("A", .vdict [("$ref", .vstr "#/definitions/Missing")])])]

/-- Legal-name-to-original map of a class of a finished build. -/
def built_legal_map (dia : Dialect) (doc : PyVal) (fuel : Nat) (name cls : String) :
    List (String × String) :=
  match alookup cls (built_env dia doc fuel name) with
  | some ci => ci.legal_property_name_to_original
  | none => []

/-- The three message shapes of the three `DocumentError` raise sites
(`parse_schema_name`, `RefTypeInfoFactory.build_type`,
`SimpleTypeInfoFactory.build_type`). -/
def doc_err_shape (m : String) : Prop :=
  (∃ s, m = "invalid schema reference string: " ++ s) ∨
  (∃ r, m = "unresolved schema reference: \x22" ++ r ++ "\x22") ∨
  (∃ t, m = "invalid type \x22" ++ t ++ "\x22 in schema")

/-- A result raises `DocumentError` only with one of the three message
shapes. -/
def doc_err_only {α : Type} (r : Except PyErr α) : Prop :=
  ∀ m, r = .error (.documentError m) → doc_err_shape m

/-- The deduplicated schema names of a document (empty when the name
enumeration itself fails). -/
def docNames (dia : Dialect) (doc : PyVal) : List String :=
  match get_schema_names dia doc with
  | .ok l => l.dedup
  | .error _ => []

/-- The schema body a name resolves to (a placeholder when the lookup
fails; for names of `docNames` it never does). -/
def schemaOfName (dia : Dialect) (doc : PyVal) (m : String) : PyVal :=
  match get_schema dia doc m with
  | .ok s => s
  | .error _ => .vnone

/-- The build identity of a named schema. -/
def identOfName (dia : Dialect) (doc : PyVal) (m : String) : Ident :=
  (some m, schemaOfName dia doc m)

/-- A document name is unavailable for a fresh full build: already
registered, or its identity is in the resolving set. -/
def navail (dia : Dialect) (doc : PyVal) (st : BState) (m : String) : Bool :=
  (alookup m st.schema_name_to_type_info).isSome ||
  resolvingHas st.schemas_being_parsed (identOfName dia doc m)

/-- Document names still available for a fresh full build, excluding
any name whose identity is the identity `excl` the current frame is
about to claim. -/
def availNames (dia : Dialect) (doc : PyVal) (st : BState) (excl : Ident) : List String :=
  (docNames dia doc).filter (fun m =>
    !navail dia doc st m && !identBEq excl (identOfName dia doc m))

/-- Number of available names. -/
def availCount (dia : Dialect) (doc : PyVal) (st : BState) (excl : Ident) : Nat :=
  (availNames dia doc st excl).length

/-- Fuel sufficient for one `build_and_define_type` frame (its own unit
included): each named sub-build spends one available name, each
structural sub-build shrinks the schema. -/
def frameMeasure (dia : Dialect) (doc : PyVal) (st : BState) (name : Option String)
    (schema : PyVal) : Nat :=
  availCount dia doc st (name, schema) * (sizeS doc + 2) + sizeS schema

/-- Fuel sufficient for any `get_type` call on a fresh session. -/
def c4Bound (dia : Dialect) (doc : PyVal) : Nat :=
  (docNames dia doc).length * (sizeS doc + 2) + sizeS doc + 1

/-- Builder states only evolve monotonically along successful calls:
registered names stay registered and unavailable names stay
unavailable (removal from the resolving set happens only together with
registration). -/
def evolves (dia : Dialect) (doc : PyVal) (s s2 : BState) : Prop :=
  (∀ m, (alookup m s.schema_name_to_type_info).isSome = true →
    (alookup m s2.schema_name_to_type_info).isSome = true) ∧
  (∀ m, navail dia doc s m = true → navail dia doc s2 m = true)

/-- A build step whose every successful call evolves the state
monotonically. -/
def BEvolves (dia : Dialect) (doc : PyVal) (f : BuildFun) : Prop :=
  ∀ schema name required st stack r, f schema name required st stack = Except.ok r →
    evolves dia doc st r.2

/-- One frame obeyed the resolving-set guard: it was restricted to the
simple fallback exactly when its identity was in the resolving set at
entry. -/
def trace_guard (e : TraceEntry) : Bool :=
  e.simpleOnly == resolvingHas e.resolvingAtEntry e.ident

/-- Every recorded frame of the session obeyed the resolving-set
guard. -/
def traceOk (st : BState) : Bool :=
  st.trace.all trace_guard

/-- A build step preserves `traceOk`: from a guard-obeying state every
successful call leaves a guard-obeying state. -/
def BPres (f : BuildFun) : Prop :=
  ∀ schema name required st stack r, traceOk st = true →
    f schema name required st stack = Except.ok r → traceOk r.2 = true

theorem alookup_mem {α : Type} {k : String} {v : α} :
    ∀ {l : List (String × α)}, alookup k l = some v → (k, v) ∈ l := by
  intro l
  induction l with
  | nil => intro h; simp [alookup] at h
  | cons kv rest ih =>
      intro h
      obtain ⟨k0, v0⟩ := kv
      by_cases hk : k0 = k
      · subst hk
        simp [alookup] at h
        subst h
        exact List.mem_cons_self _ _
      · simp [alookup, hk] at h
        exact List.mem_cons_of_mem _ (ih h)

theorem setk_fresh {α : Type} {k : String} {v : α} :
    ∀ {l : List (String × α)}, l.all (fun kv => kv.1 != k) = true →
      setk l k v = l ++ [(k, v)] := by
  intro l
  induction l with
  | nil => intro _; rfl
  | cons kv rest ih =>
      intro h
      obtain ⟨k0, v0⟩ := kv
      simp [List.all_cons] at h
      simp [setk, h.1]
      exact ih (by simpa using h.2)

theorem to_simple_pairs_append (a b : List (String × PyVal)) :
    to_simple_pairs (a ++ b) = to_simple_pairs a ++ to_simple_pairs b := by
  induction a with
  | nil => rfl
  | cons kv rest ih =>
      obtain ⟨k, v⟩ := kv
      simp [to_simple_pairs, ih]

mutual

theorem to_simple_plain (env : ClassEnv) :
    ∀ v, plainForExport env v = true → to_simple v = v
  | .vnone, _ => rfl
  | .vbool _, _ => rfl
  | .vint _, _ => rfl
  | .vfloat _, _ => rfl
  | .vstr _, _ => rfl
  | .vlist xs, h => by
      simp only [plainForExport] at h
      simp only [to_simple, to_simple_plain_list env xs h]
  | .vdict kvs, h => by
      simp only [plainForExport, Bool.and_eq_true] at h
      simp only [to_simple, to_simple_plain_pairs env kvs h.2]

theorem to_simple_plain_list (env : ClassEnv) :
    ∀ xs, plainListForExport env xs = true → to_simple_list xs = xs
  | [], _ => rfl
  | x :: rest, h => by
      simp only [plainListForExport, Bool.and_eq_true] at h
      simp only [to_simple_list, to_simple_plain env x h.1,
        to_simple_plain_list env rest h.2]

theorem to_simple_plain_pairs (env : ClassEnv) :
    ∀ kvs, plainPairsForExport env kvs = true → to_simple_pairs kvs = kvs
  | [], _ => rfl
  | (k, v) :: rest, h => by
      simp only [plainPairsForExport, Bool.and_eq_true] at h
      simp only [to_simple_pairs, to_simple_plain env v h.1,
        to_simple_plain_pairs env rest h.2]

end

theorem plain_not_record (env : ClassEnv) (v : PyVal) (cls : String)
    (h : plainForExport env v = true) : isinst v (.record cls) = false := by
  cases v <;> simp_all [isinst, plainForExport]

theorem runCtorListF_roundtrip (env : ClassEnv) (rec : CtorFun)
    (IH : ∀ c v r, plainForExport env v = true → rec c v = .ok r → to_simple r = v)
    (elem : CtorD) :
    ∀ xs ys, plainListForExport env xs = true → runCtorListF rec elem xs = .ok ys →
      to_simple_list ys = xs := by
  intro xs
  induction xs with
  | nil =>
      intro ys _ h
      simp only [runCtorListF] at h
      cases h
      rfl
  | cons x rest ih =>
      intro ys hp h
      simp only [plainListForExport, Bool.and_eq_true] at hp
      simp only [runCtorListF] at h
      cases hx : rec elem x with
      | error e =>
          rw [hx] at h
          simp only [Except.instMonad, Except.bind] at h
          exact Except.noConfusion h
      | ok y =>
          rw [hx] at h
          cases hrest : runCtorListF rec elem rest with
          | error e =>
              rw [hrest] at h
              simp only [Except.instMonad, Except.bind] at h
              exact Except.noConfusion h
          | ok ys0 =>
              rw [hrest] at h
              simp only [Except.instMonad, Except.bind] at h
              cases h
              simp only [to_simple_list, IH elem x y hp.1 hx, ih ys0 hp.2 hrest]

theorem no_alias_lookup (env : ClassEnv) (cls : String) (ci : ClassInfo) (k orig : String)
    (hmem : alookup cls env = some ci)
    (hna : properAlias env k = false)
    (hl : alookup k ci.legal_property_name_to_original = some orig) : orig = k := by
  by_contra hne
  have h1 : (k, orig) ∈ ci.legal_property_name_to_original := alookup_mem hl
  have h2 : (cls, ci) ∈ env := alookup_mem hmem
  have hpa : properAlias env k = true := by
    simp only [properAlias, List.any_eq_true]
    refine ⟨(cls, ci), h2, ⟨(k, orig), h1, ?_⟩⟩
    show (k == k && orig != k) = true
    simp [hne]
  rw [hpa] at hna
  exact Bool.noConfusion hna

theorem runCtorValsF_roundtrip (env : ClassEnv) (rec : CtorFun)
    (IH : ∀ c v r, plainForExport env v = true → rec c v = .ok r → to_simple r = v)
    (elem : CtorD) :
    ∀ kvs acc res,
      plainPairsForExport env kvs = true →
      nodupKeys kvs = true →
      kvs.all (fun kv => acc.all (fun ac => ac.1 != kv.1)) = true →
      runCtorValsF rec elem kvs acc = .ok res →
      to_simple_pairs res = to_simple_pairs acc ++ kvs := by
  intro kvs
  induction kvs with
  | nil =>
      intro acc res _ _ _ h
      simp only [runCtorValsF] at h
      cases h
      simp
  | cons kv rest ih =>
      intro acc res hp hn hd h
      obtain ⟨k, v⟩ := kv
      simp only [plainPairsForExport, Bool.and_eq_true] at hp
      simp only [nodupKeys, Bool.and_eq_true] at hn
      simp only [List.all_cons, Bool.and_eq_true] at hd
      simp only [runCtorValsF] at h
      cases hx : rec elem v with
      | error e =>
          rw [hx] at h
          simp only [Except.instMonad, Except.bind] at h
          exact Except.noConfusion h
      | ok w =>
          rw [hx] at h
          simp only [Except.instMonad, Except.bind] at h
          have hfresh : setk acc k w = acc ++ [(k, w)] := setk_fresh hd.1
          rw [hfresh] at h
          have hd2 : rest.all (fun kv => (acc ++ [(k, w)]).all (fun ac => ac.1 != kv.1)) = true := by
            refine List.all_eq_true.mpr ?_
            intro kv2 hkv2
            refine List.all_eq_true.mpr ?_
            intro ac hac
            rcases List.mem_append.mp hac with hh | hh
            · exact List.all_eq_true.mp (List.all_eq_true.mp hd.2 kv2 hkv2) ac hh
            · have hob : ac = (k, w) := List.mem_singleton.mp hh
              subst hob
              have hnk : (kv2.1 != k) = true := List.all_eq_true.mp hn.1 kv2 hkv2
              simp only [bne_iff_ne] at hnk ⊢
              exact Ne.symm hnk
          have := ih (acc ++ [(k, w)]) res hp.2 hn.2 hd2 h
          rw [this, to_simple_pairs_append]
          simp [to_simple_pairs, IH elem v w hp.1 hx]

theorem rename_key_no_alias (env : ClassEnv) (cls : String) (ci : ClassInfo) (k : String)
    (hmem : alookup cls env = some ci) (hna : properAlias env k = false) :
    rename_key ci k = k := by
  unfold rename_key
  cases hl : alookup k ci.legal_property_name_to_original with
  | none => rfl
  | some orig => exact no_alias_lookup env cls ci k orig hmem hna hl

theorem initPropsF_roundtrip (env : ClassEnv) (rec : CtorFun)
    (IH : ∀ c v r, plainForExport env v = true → rec c v = .ok r → to_simple r = v)
    (cls : String) (ci : ClassInfo) (hmem : alookup cls env = some ci) :
    ∀ kvs acc res,
      plainPairsForExport env kvs = true →
      nodupKeys kvs = true →
      kvs.all (fun kv => !properAlias env kv.1) = true →
      kvs.all (fun kv => acc.all (fun ac => ac.1 != kv.1)) = true →
      initPropsF rec cls ci kvs acc = .ok res →
      to_simple_pairs res = to_simple_pairs acc ++ kvs := by
  intro kvs
  induction kvs with
  | nil =>
      intro acc res _ _ _ _ h
      simp only [initPropsF] at h
      cases h
      simp
  | cons kv rest ih =>
      intro acc res hp hn ha hd h
      obtain ⟨k, v⟩ := kv
      simp only [plainPairsForExport, Bool.and_eq_true] at hp
      simp only [nodupKeys, Bool.and_eq_true] at hn
      simp only [List.all_cons, Bool.and_eq_true] at ha hd
      have hna : properAlias env k = false := by
        have := ha.1
        simp only [Bool.not_eq_true'] at this
        exact this
      have hren : rename_key ci k = k := rename_key_no_alias env cls ci k hmem hna
      simp only [initPropsF, hren] at h
      -- freshness step shared by the three success branches
      have hd2 : ∀ w : PyVal,
          rest.all (fun kv => (acc ++ [(k, w)]).all (fun ac => ac.1 != kv.1)) = true := by
        intro w
        refine List.all_eq_true.mpr ?_
        intro kv2 hkv2
        refine List.all_eq_true.mpr ?_
        intro ac hac
        rcases List.mem_append.mp hac with hh | hh
        · exact List.all_eq_true.mp (List.all_eq_true.mp hd.2 kv2 hkv2) ac hh
        · have hob : ac = (k, w) := List.mem_singleton.mp hh
          subst hob
          have hnk : (kv2.1 != k) = true := List.all_eq_true.mp hn.1 kv2 hkv2
          simp only [bne_iff_ne] at hnk ⊢
          exact Ne.symm hnk
      split at h
      case _ ti hdp =>
          cases hx : rec ti.constructor v with
          | error e =>
              rw [hx] at h
              simp only [Except.instMonad, Except.bind] at h
              exact Except.noConfusion h
          | ok w =>
              rw [hx] at h
              simp only [Except.instMonad, Except.bind] at h
              rw [setk_fresh hd.1] at h
              have := ih (acc ++ [(k, w)]) res hp.2 hn.2
                (List.all_eq_true.mpr fun x hx2 =>
                  List.all_eq_true.mp ha.2 x hx2) (hd2 w) h
              rw [this, to_simple_pairs_append]
              simp [to_simple_pairs, IH ti.constructor v w hp.1 hx]
      case _ hdp =>
          split at h
          case isTrue hall =>
              split at h
              case _ ti hapt =>
                  cases hx : rec ti.constructor v with
                  | error e =>
                      rw [hx] at h
                      simp only [Except.instMonad, Except.bind] at h
                      exact Except.noConfusion h
                  | ok w =>
                      rw [hx] at h
                      simp only [Except.instMonad, Except.bind] at h
                      rw [setk_fresh hd.1] at h
                      have := ih (acc ++ [(k, w)]) res hp.2 hn.2
                        (List.all_eq_true.mpr fun x hx2 =>
                          List.all_eq_true.mp ha.2 x hx2) (hd2 w) h
                      rw [this, to_simple_pairs_append]
                      simp [to_simple_pairs, IH ti.constructor v w hp.1 hx]
              case _ hapt =>
                  rw [setk_fresh hd.1] at h
                  have := ih (acc ++ [(k, v)]) res hp.2 hn.2
                    (List.all_eq_true.mpr fun x hx2 =>
                      List.all_eq_true.mp ha.2 x hx2) (hd2 v) h
                  rw [this, to_simple_pairs_append]
                  simp [to_simple_pairs, to_simple_plain env v hp.1]
          case isFalse hall =>
              exact Except.noConfusion h

theorem constructObjectF_roundtrip (env : ClassEnv) (rec : CtorFun)
    (IH : ∀ c v r, plainForExport env v = true → rec c v = .ok r → to_simple r = v)
    (cls : String) (kvs : List (String × PyVal)) (r : PyVal)
    (hp : plainForExport env (.vdict kvs) = true)
    (h : constructObjectF rec env cls kvs = .ok r) :
    to_simple r = .vdict kvs := by
  simp only [constructObjectF] at h
  split at h
  case _ => exact Except.noConfusion h
  case _ ci hci =>
      cases hi : initPropsF rec cls ci kvs [] with
      | error e =>
          rw [hi] at h
          simp only [Except.instMonad, Except.bind] at h
          exact Except.noConfusion h
      | ok props =>
          rw [hi] at h
          simp only [Except.instMonad, Except.bind] at h
          cases h
          simp only [plainForExport, Bool.and_eq_true] at hp
          have hres := initPropsF_roundtrip env rec IH cls ci hci kvs [] props
            hp.2 hp.1.1 hp.1.2
            (List.all_eq_true.mpr fun _ _ => rfl) hi
          simp only [to_simple, hres, to_simple_pairs, List.nil_append]

theorem oneOfLoopF_roundtrip (env : ClassEnv) (rec : CtorFun)
    (IH : ∀ c v r, plainForExport env v = true → rec c v = .ok r → to_simple r = v) :
    ∀ opts raw r, plainForExport env raw = true →
      oneOfLoopF rec opts raw = .ok r → to_simple r = raw := by
  intro opts
  induction opts with
  | nil =>
      intro raw r _ h
      exact Except.noConfusion h
  | cons o rest ih =>
      intro raw r hp h
      obtain ⟨t, c⟩ := o
      simp only [oneOfLoopF] at h
      split at h
      · split at h
        · exact ih raw r hp h
        · exact IH c raw r hp h
      · exact ih raw r hp h

theorem runCtor_roundtrip (env : ClassEnv) :
    ∀ fuel c v r, plainForExport env v = true → runCtor env fuel c v = .ok r →
      to_simple r = v := by
  intro fuel
  induction fuel with
  | zero =>
      intro c v r _ h
      exact Except.noConfusion h
  | succ f ihf =>
      intro c v r hp h
      cases c with
      | simple =>
          simp only [runCtor, runCtorF] at h
          cases h
          exact to_simple_plain env v hp
      | record cls =>
          simp only [runCtor, runCtorF] at h
          rw [plain_not_record env v cls hp] at h
          simp only [Bool.false_eq_true, if_false] at h
          split at h
          case _ kvs => exact constructObjectF_roundtrip env _ ihf cls kvs r hp h
          case _ => exact Except.noConfusion h
      | array elem =>
          simp only [runCtor, runCtorF] at h
          split at h
          case _ xs =>
              cases hl : runCtorListF (runCtor env f) elem xs with
              | error e =>
                  rw [hl] at h
                  simp only [Except.instMonad, Except.bind] at h
                  exact Except.noConfusion h
              | ok ys =>
                  rw [hl] at h
                  simp only [Except.instMonad, Except.bind] at h
                  cases h
                  simp only [plainForExport] at hp
                  simp only [to_simple,
                    runCtorListF_roundtrip env _ ihf elem xs ys hp hl]
          case _ => exact Except.noConfusion h
      | mapd elem =>
          simp only [runCtor, runCtorF] at h
          split at h
          case _ kvs =>
              cases hl : runCtorValsF (runCtor env f) elem kvs [] with
              | error e =>
                  rw [hl] at h
                  simp only [Except.instMonad, Except.bind] at h
                  exact Except.noConfusion h
              | ok ys =>
                  rw [hl] at h
                  simp only [Except.instMonad, Except.bind] at h
                  cases h
                  simp only [plainForExport, Bool.and_eq_true] at hp
                  have := runCtorValsF_roundtrip env _ ihf elem kvs [] ys
                    hp.2 hp.1.1 (List.all_eq_true.mpr fun _ _ => rfl) hl
                  simp only [to_simple, this, to_simple_pairs, List.nil_append]
          case _ => exact Except.noConfusion h
      | oneOf opts =>
          simp only [runCtor, runCtorF] at h
          exact oneOfLoopF_roundtrip env _ ihf (sortOptions opts) v r hp h

theorem alookup_setk {α : Type} (k : String) (v : α) :
    ∀ l : List (String × α), alookup k (setk l k v) = some v := by
  intro l
  induction l with
  | nil => simp [setk, alookup]
  | cons kv rest ih =>
      obtain ⟨k0, v0⟩ := kv
      by_cases hk : k0 = k
      · subst hk
        simp [setk, alookup]
      · simp [setk, alookup, hk, ih]

theorem record_ok_shape (env : ClassEnv) (fuel : Nat) (cls : String) (raw r : PyVal)
    (h : runCtor env fuel (.record cls) raw = .ok r) :
    ∃ ps, r = .vobj cls ps := by
  cases fuel with
  | zero => exact Except.noConfusion h
  | succ f =>
      simp only [runCtor, runCtorF] at h
      split at h
      · rename_i hins
        cases h
        cases raw with
        | vobj c ps =>
            simp only [isinst, decide_eq_true_eq] at hins
            subst hins
            exact ⟨ps, rfl⟩
        | vnone => simp [isinst] at hins
        | vbool b => simp [isinst] at hins
        | vint n => simp [isinst] at hins
        | vfloat q => simp [isinst] at hins
        | vstr s => simp [isinst] at hins
        | vlist xs => simp [isinst] at hins
        | vdict kvs => simp [isinst] at hins
      · split at h
        · rename_i kvs hni
          simp only [constructObjectF] at h
          split at h
          · exact Except.noConfusion h
          · rename_i ci hci
            cases hi : initPropsF (runCtor env f) cls ci kvs [] with
            | error e =>
                rw [hi] at h
                simp only [Except.instMonad, Except.bind] at h
                exact Except.noConfusion h
            | ok props =>
                rw [hi] at h
                simp only [Except.instMonad, Except.bind] at h
                cases h
                exact ⟨props, rfl⟩
        · exact Except.noConfusion h

/-- Claim C1 (amended).  For every Record Type and every plain raw
property mapping accepted by its constructor whose keys (recursively)
contain no legalized alias differing from its original property name,
exporting the constructed record back to a plain tree is the identity:
`to_simple (construct d) = d`, recursively through nested records,
arrays and maps. -/
theorem c1_export_construct_roundtrip (env : ClassEnv) (fuel : Nat) (cls : String)
    (d : List (String × PyVal)) (r : PyVal)
    (hplain : plainForExport env (.vdict d) = true)
    (hok : runCtor env fuel (.record cls) (.vdict d) = .ok r) :
    to_simple r = .vdict d :=
  runCtor_roundtrip env fuel (.record cls) (.vdict d) r hplain hok

/-- Witness for C1: the record type `Item` built from the
specification's example document round-trips `{"tags": ["a", "b"]}`. -/
theorem c1_export_construct_roundtrip_witness :
    plainForExport (built_env .openapi doc_item 20 "Item")
      (.vdict [("tags", .vlist [.vstr "a", .vstr "b"])]) = true ∧
    to_simple (PyVal.vobj "Item" [("tags", .vlist [.vstr "a", .vstr "b"])]) =
      .vdict [("tags", .vlist [.vstr "a", .vstr "b"])] :=
  ⟨rfl, c1_export_construct_roundtrip (built_env .openapi doc_item 20 "Item") 20 "Item"
    [("tags", .vlist [.vstr "a", .vstr "b"])]
    (.vobj "Item" [("tags", .vlist [.vstr "a", .vstr "b"])]) rfl rfl⟩

/-- Counterexample to C1 as stated: the record type `C` built from
`doc_alias` declares the property `class`, whose accessor name is the
legalized `class_`.  The raw mapping `{"class_": 5}` is accepted by the
constructor (the upstream validator validates against the never-set
`_schema = {}`, which accepts everything), but the per-key loop renames
the key, so the export is `{"class": 5}`, not the input — the round
trip is not loss-free for every accepted input. -/
theorem c1_counterexample :
    runCtor (built_env .openapi doc_alias 20 "C") 20 (.record "C")
        (.vdict [("class_", .vint 5)]) = .ok (.vobj "C" [("class", .vint 5)]) ∧
    to_simple (PyVal.vobj "C" [("class", .vint 5)]) = .vdict [("class", .vint 5)] ∧
    PyVal.vdict [("class", .vint 5)] ≠ PyVal.vdict [("class_", .vint 5)] :=
  ⟨rfl, rfl, by simp⟩

/-- Claim C10.  A value that is already an instance of a Record Type
passes through that type's coercion constructor unchanged (no
re-validation: the instance branch returns before
`SchemaBasedObject.__init__` runs), and consequently the constructor is
idempotent: an accepted result is accepted again, unchanged, at any
positive fuel. -/
theorem c10_coercion_idempotent (env : ClassEnv) (fuel f2 : Nat) (cls : String)
    (props : List (String × PyVal)) (raw r : PyVal) :
    (runCtor env (fuel + 1) (.record cls) (.vobj cls props) = .ok (.vobj cls props)) ∧
    (runCtor env fuel (.record cls) raw = .ok r →
      runCtor env (f2 + 1) (.record cls) r = .ok r) := by
  constructor
  · simp [runCtor, runCtorF, isinst]
  · intro h
    obtain ⟨ps, rfl⟩ := record_ok_shape env fuel cls raw r h
    simp [runCtor, runCtorF, isinst]

/-- Claim C9.  Assigning through a declared property's named accessor
raises a `ValueError` exactly when the assigned value's runtime
representation does not match the declared representation type and the
absent-value exception (None assigned to a non-required property) does
not apply; on success the property's entry in the bag is replaced by
the assigned value. -/
theorem c9_setter_validates (ci : ClassInfo) (name : String) (ti : SchemaBasedTypeInfo)
    (props : List (String × PyVal)) (value : PyVal)
    (hdecl : alookup name ci.property_name_to_type = some ti) :
    ((∃ m, property_setter ci name props value = .error (.valueError m)) ↔
      (isinst value ti.type_obj = false ∧ ¬(isNone value = true ∧ ti.required = false))) ∧
    ((isinst value ti.type_obj = true ∨ (isNone value = true ∧ ti.required = false)) →
      property_setter ci name props value = .ok (setk props name value) ∧
      alookup name (setk props name value) = some value) := by
  constructor
  · cases hI : isinst value ti.type_obj <;> cases hN : isNone value <;>
      cases hR : ti.required <;>
      simp [property_setter, hdecl, hI, hN, hR]
  · intro hacc
    refine ⟨?_, alookup_setk name value props⟩
    rcases hacc with hI | ⟨hN, hR⟩
    · simp [property_setter, hdecl, hI]
    · simp [property_setter, hdecl, hN, hR]

/-- Witness for C9: assigning the matching value 5 to the declared
integer property `n` succeeds and updates the bag; the mismatched
string is rejected. -/
theorem c9_setter_validates_witness :
    (property_setter
        (ClassInfo.mk [("n", "n")]
          [("n", { type_str := "int", type_obj := .tint, constructor := .simple,
                   required := true })] none true)
        "n" [("n", .vint 1)] (.vint 5) = .ok [("n", .vint 5)]) ∧
    alookup "n" [("n", PyVal.vint 5)] = some (PyVal.vint 5) := by
  have h := c9_setter_validates
    (ClassInfo.mk [("n", "n")]
      [("n", { type_str := "int", type_obj := .tint, constructor := .simple,
               required := true })] none true)
    "n" (SchemaBasedTypeInfo.mk "int" .tint .simple true) [("n", .vint 1)] (.vint 5) rfl
  have h2 := h.2 (Or.inl rfl)
  exact ⟨h2.1, h2.2⟩

theorem runCtorListF_ok_pointwise (rec : CtorFun) (elem : CtorD) :
    ∀ xs ys, runCtorListF rec elem xs = .ok ys →
      ys.length = xs.length ∧
      ∀ i (h1 : i < xs.length) (h2 : i < ys.length),
        rec elem (xs.get ⟨i, h1⟩) = .ok (ys.get ⟨i, h2⟩) := by
  intro xs
  induction xs with
  | nil =>
      intro ys h
      simp only [runCtorListF] at h
      cases h
      exact ⟨rfl, fun i h1 _ => absurd h1 (Nat.not_lt_zero i)⟩
  | cons x rest ih =>
      intro ys h
      simp only [runCtorListF] at h
      cases hx : rec elem x with
      | error e =>
          rw [hx] at h
          simp only [Except.instMonad, Except.bind] at h
          exact Except.noConfusion h
      | ok y =>
          rw [hx] at h
          cases hrest : runCtorListF rec elem rest with
          | error e =>
              rw [hrest] at h
              simp only [Except.instMonad, Except.bind] at h
              exact Except.noConfusion h
          | ok ys0 =>
              rw [hrest] at h
              simp only [Except.instMonad, Except.bind] at h
              cases h
              obtain ⟨hlen, hpt⟩ := ih ys0 hrest
              refine ⟨by simp [hlen], ?_⟩
              intro i h1 h2
              cases i with
              | zero => simpa using hx
              | succ j =>
                  simp only [List.get_cons_succ]
                  exact hpt j (Nat.lt_of_succ_lt_succ h1) (Nat.lt_of_succ_lt_succ h2)

/-- Claim C7.  The array constructor raises a `ValueError` on any
non-list value, and on a list returns exactly the element constructor
mapped over the entries; a successful mapping preserves length and
sends the i-th input to the i-th output through the element
constructor. -/
theorem c7_array_constructor (env : ClassEnv) (fuel : Nat) (elem : CtorD)
    (raw : PyVal) (xs ys : List PyVal) :
    ((∀ zs, raw ≠ .vlist zs) →
      runCtor env (fuel + 1) (.array elem) raw =
        .error (.valueError
          "while converting a list of raw items to a list of typed items,expected a list of items")) ∧
    (runCtor env (fuel + 1) (.array elem) (.vlist xs) =
      (runCtorListF (runCtor env fuel) elem xs).map PyVal.vlist) ∧
    (runCtorListF (runCtor env fuel) elem xs = .ok ys →
      ys.length = xs.length ∧
      ∀ i (h1 : i < xs.length) (h2 : i < ys.length),
        runCtor env fuel elem (xs.get ⟨i, h1⟩) = .ok (ys.get ⟨i, h2⟩)) := by
  refine ⟨?_, ?_, runCtorListF_ok_pointwise (runCtor env fuel) elem xs ys⟩
  · intro hnl
    cases raw with
    | vlist zs => exact absurd rfl (hnl zs)
    | vnone => rfl
    | vbool b => rfl
    | vint n => rfl
    | vfloat q => rfl
    | vstr s => rfl
    | vdict kvs => rfl
    | vobj c ps => rfl
  · simp only [runCtor, runCtorF]
    cases hl : runCtorListF (runCtor env fuel) elem xs with
    | error e => rfl
    | ok ys0 => rfl

/-- Witness for C7: constructing from the non-list 7 fails with the
value error; mapping the identity element constructor over a two-item
list preserves the items pointwise. -/
theorem c7_array_constructor_witness :
    runCtor [] 3 (.array .simple) (.vint 7) =
      .error (.valueError
        "while converting a list of raw items to a list of typed items,expected a list of items") ∧
    ([PyVal.vstr "a", PyVal.vstr "b"].length = [PyVal.vstr "a", PyVal.vstr "b"].length) := by
  have h := c7_array_constructor [] 2 .simple (.vint 7)
    [PyVal.vstr "a", PyVal.vstr "b"] [PyVal.vstr "a", PyVal.vstr "b"]
  exact ⟨h.1 (fun zs hh => PyVal.noConfusion hh), rfl⟩

theorem custom_flag_char (kvs : List (String × PyVal)) :
    custom_additional_allowed (.vdict kvs) = false ↔
      (alookup "additionalProperties" kvs = some (.vbool false) ∧
       alookup "patternProperties" kvs = none) := by
  simp only [custom_additional_allowed, Bool.not_eq_false', Bool.and_eq_true,
    Option.isNone_iff_eq_none]
  constructor
  · rintro ⟨h1, h2⟩
    refine ⟨?_, h2⟩
    split at h1
    · rename_i heq
      exact heq
    · exact Bool.noConfusion h1
  · rintro ⟨h1, h2⟩
    rw [h1, h2]
    simp

/-- Claim C5.  For a raw input key that is not a declared property
(after legal-name renaming): with `additionalProperties: false` and no
`patternProperties` the installed policy flag is cleared and
construction raises a `ValueError` naming the offending key and the
record's class; with a typed additional-properties policy the key's
value passes through the additional-properties element constructor and
is retained; otherwise it is retained untouched.  The last two
conjuncts tie the installed class tables to the schema:
`try_build_additional_property_type` yields nothing when neither
`patternProperties` nor `additionalProperties` is dict-valued, and
`on_type_defined` installs exactly its result together with the
`custom_additional_allowed` flag. -/
theorem c5_additional_properties (rec : CtorFun) (cls k : String)
    (ci : ClassInfo) (v : PyVal) (rest acc : List (String × PyVal)) (schema : PyVal)
    (hundecl : alookup (rename_key ci k) ci.property_name_to_type = none) :
    (∀ kvs, schema = .vdict kvs →
      (custom_additional_allowed schema = false ↔
        (alookup "additionalProperties" kvs = some (.vbool false) ∧
         alookup "patternProperties" kvs = none))) ∧
    (ci.additional_properties_allowed = false →
      initPropsF rec cls ci ((k, v) :: rest) acc =
        .error (.valueError ("additional property " ++ rename_key ci k ++
          " is not allowed for constructing objects of class " ++ cls))) ∧
    (ci.additional_properties_allowed = true →
      ∀ ti w, ci.additional_properties_type = some ti →
        rec ti.constructor v = .ok w →
        initPropsF rec cls ci ((k, v) :: rest) acc =
          initPropsF rec cls ci rest (setk acc (rename_key ci k) w)) ∧
    (ci.additional_properties_allowed = true →
      ci.additional_properties_type = none →
      initPropsF rec cls ci ((k, v) :: rest) acc =
        initPropsF rec cls ci rest (setk acc (rename_key ci k) v)) ∧
    (∀ kvs recB st stack, schema = .vdict kvs →
      (∀ pk, alookup "patternProperties" kvs = some pk → ∀ pkvs, pk ≠ .vdict pkvs) →
      (∀ ak, alookup "additionalProperties" kvs = some ak → ∀ akvs, ak ≠ .vdict akvs) →
      try_build_additional_property_type recB schema st stack = .ok (none, st)) ∧
    (∀ recB n st stack st2, custom_on_type_defined recB schema n st stack = .ok st2 →
      ∃ apt st1 legalMap propMap,
        try_build_additional_property_type recB schema st stack = .ok (apt, st1) ∧
        alookup n st2.classes =
          some (ClassInfo.mk legalMap propMap apt (custom_additional_allowed schema))) := by
  refine ⟨?_, ?_, ?_, ?_, ?_, ?_⟩
  · intro kvs hs
    subst hs
    exact custom_flag_char kvs
  · intro hall
    simp [initPropsF, hundecl, hall]
  · intro hall ti w hapt hw
    simp [initPropsF, hundecl, hall, hapt, hw, Except.instMonad, Except.bind]
  · intro hall hapt
    simp [initPropsF, hundecl, hall, hapt]
  · intro kvs recB st stack hs hpat hadd
    subst hs
    simp only [try_build_additional_property_type]
    split
    · split
      · rename_i patkvs hpk
        exact absurd rfl (hpat _ hpk patkvs)
      · split
        · rename_i apkvs hak
          exact absurd rfl (hadd _ hak apkvs)
        · rfl
    · rfl
  · intro recB n st stack st2 h
    simp only [custom_on_type_defined] at h
    cases ht : try_build_additional_property_type recB schema st stack with
    | error e =>
        rw [ht] at h
        simp only [Except.instMonad, Except.bind] at h
        exact Except.noConfusion h
    | ok aptst =>
        obtain ⟨apt, st1⟩ := aptst
        rw [ht] at h
        simp only [Except.instMonad, Except.bind] at h
        refine ⟨apt, st1, ?_⟩
        cases schema with
        | vdict kvs =>
            cases hpl : alookup "properties" kvs with
            | none =>
                simp only [hpl] at h
                exact Except.noConfusion h
            | some pv =>
                cases pv with
                | vdict propkvs =>
                    simp only [hpl] at h
                    cases hf : custom_props_fold recB
                        (match alookup "required" kvs with
                         | some w => w
                         | none => .vlist []) propkvs [] [] st1 stack with
                    | error e =>
                        simp only [hf] at h
                        exact Except.noConfusion h
                    | ok r =>
                        obtain ⟨legalMap, propMap, st3⟩ := r
                        simp only [hf] at h
                        cases h
                        exact ⟨legalMap, propMap, rfl, alookup_setk n _ st3.classes⟩
                | vnone =>
                    simp only [hpl] at h
                    exact Except.noConfusion h
                | vbool b =>
                    simp only [hpl] at h
                    exact Except.noConfusion h
                | vint m =>
                    simp only [hpl] at h
                    exact Except.noConfusion h
                | vfloat q =>
                    simp only [hpl] at h
                    exact Except.noConfusion h
                | vstr s =>
                    simp only [hpl] at h
                    exact Except.noConfusion h
                | vlist xs =>
                    simp only [hpl] at h
                    exact Except.noConfusion h
                | vobj c2 ps =>
                    simp only [hpl] at h
                    exact Except.noConfusion h
        | vnone => exact Except.noConfusion h
        | vbool b => exact Except.noConfusion h
        | vint m => exact Except.noConfusion h
        | vfloat q => exact Except.noConfusion h
        | vstr s => exact Except.noConfusion h
        | vlist xs => exact Except.noConfusion h
        | vobj c2 ps => exact Except.noConfusion h

/-- Witness for C5: a record class with the additional-properties
policy disallowed rejects the undeclared key `x`, naming the key and
the class. -/
theorem c5_additional_properties_witness :
    initPropsF (runCtor [] 5) "S" (ClassInfo.mk [] [] none false)
        [("x", .vint 1)] [] =
      .error (.valueError
        "additional property x is not allowed for constructing objects of class S") :=
  (c5_additional_properties (runCtor [] 5) "S" "x" (ClassInfo.mk [] [] none false)
    (.vint 1) [] [] .vnone rfl).2.1 rfl

/-- Claim C2 (amended).  The union constructor tries the candidates in
object-representation-first, then declaration order (a stable two-group
sort); a candidate is attempted exactly when it is a record class and
the raw value is a dict, or the raw value is an instance of the
candidate's representation type (so a raw dict is also attempted
against non-record candidates of `dict` or `object` representation);
the first attempted candidate not raising the union-exhausted error
decides the result, and if every attempted candidate raises it the
constructor raises `NoValidOneOfOptionException`. -/
theorem c2_one_of_constructor (env : ClassEnv) (fuel : Nat) (opts : List (PyType × CtorD))
    (raw : PyVal) (pre post : List (PyType × CtorD)) (o : PyType × CtorD) :
    (sortOptions opts).Perm opts ∧
    sortOptions opts = opts.filter (fun o2 => is_schema_based o2.1) ++
      opts.filter (fun o2 => !is_schema_based o2.1) ∧
    runCtor env (fuel + 1) (.oneOf opts) raw =
      oneOfLoopF (runCtor env fuel) (sortOptions opts) raw ∧
    (∀ sopts : List (PyType × CtorD),
      (∀ o2 ∈ sopts, (is_schema_based o2.1 && isinst raw .tdict || isinst raw o2.1) = true →
        ∃ m, runCtor env fuel o2.2 raw = .error (.noValidOneOf m)) →
      oneOfLoopF (runCtor env fuel) sopts raw =
        .error (.noValidOneOf "couldn\x27t construct OneOf object from the given value")) ∧
    ((∀ o2 ∈ pre, (is_schema_based o2.1 && isinst raw .tdict || isinst raw o2.1) = true →
        ∃ m, runCtor env fuel o2.2 raw = .error (.noValidOneOf m)) →
      (is_schema_based o.1 && isinst raw .tdict || isinst raw o.1) = true →
      (∀ m, runCtor env fuel o.2 raw ≠ .error (.noValidOneOf m)) →
      oneOfLoopF (runCtor env fuel) (pre ++ o :: post) raw = runCtor env fuel o.2 raw) := by
  refine ⟨List.filter_append_perm _ opts, rfl, rfl, ?_, ?_⟩
  · intro sopts
    induction sopts with
    | nil => intro _; rfl
    | cons o2 rest ih =>
        intro hall
        obtain ⟨t, c⟩ := o2
        simp only [oneOfLoopF]
        by_cases hc : (is_schema_based t && isinst raw .tdict || isinst raw t) = true
        · obtain ⟨m, hm⟩ := hall (t, c) (List.mem_cons_self _ _) hc
          rw [hc, hm]
          exact ih (fun o3 h3 => hall o3 (List.mem_cons_of_mem _ h3))
        · rw [Bool.of_not_eq_true hc]
          exact ih (fun o3 h3 => hall o3 (List.mem_cons_of_mem _ h3))
  · intro hpre ho hne
    induction pre with
    | nil =>
        obtain ⟨t, c⟩ := o
        simp only [List.nil_append, oneOfLoopF]
        rw [ho]
        simp only [if_true]
    | cons o2 rest ih =>
        obtain ⟨t2, c2⟩ := o2
        simp only [List.cons_append, oneOfLoopF]
        by_cases hc2 : (is_schema_based t2 && isinst raw .tdict || isinst raw t2) = true
        · obtain ⟨m, hm⟩ := hpre (t2, c2) (List.mem_cons_self _ _) hc2
          rw [hc2, hm]
          simp only [if_true]
          exact ih (fun o3 h3 => hpre o3 (List.mem_cons_of_mem _ h3))
        · rw [Bool.of_not_eq_true hc2]
          simp only [Bool.false_eq_true, if_false]
          exact ih (fun o3 h3 => hpre o3 (List.mem_cons_of_mem _ h3))

/-- Witness for C2: with one record candidate (class `R`, never
matching) and one integer candidate, the integer 3 is attempted only
against the integer candidate and is returned by it. -/
theorem c2_one_of_constructor_witness :
    oneOfLoopF (runCtor [] 3) ([(PyType.record "R", CtorD.record "R")] ++
      (PyType.tint, CtorD.simple) :: []) (.vint 3) = runCtor [] 3 .simple (.vint 3) :=
  (c2_one_of_constructor [] 3 [] (.vint 3) [(PyType.record "R", CtorD.record "R")] []
    (.tint, .simple)).2.2.2.2
    (fun o2 h2 => by
      simp only [List.mem_singleton] at h2
      subst h2
      intro hcond
      exact absurd hcond (by simp [is_schema_based, isinst]))
    (by simp [is_schema_based, isinst])
    (fun m hm => Except.noConfusion (hm.symm.trans rfl))

/-- Counterexample to C2 as stated: the union type built from
`doc_oneof_dict` has the single primitive-representation candidate
`Dict[str, Any]` (its `type_obj` is `dict`, not a record class).  The
claim says a raw dict is only attempted against object-representation
candidates, which would exhaust this union on input `{}`; the code
attempts the dict-representation candidate and returns `{}`. -/
theorem c2_counterexample :
    runCtor (built_env .json_schema doc_oneof_dict 20 "A") 20
        (built_ti .json_schema doc_oneof_dict 20 "A").constructor (.vdict []) =
      .ok (.vdict []) ∧
    (built_ti .json_schema doc_oneof_dict 20 "A").constructor =
      .oneOf [(.tdict, .simple)] ∧
    is_schema_based .tdict = false :=
  ⟨rfl, rfl, rfl⟩

theorem alookup_setk_ne {α : Type} (k k2 : String) (v : α) (hne : k2 ≠ k) :
    ∀ l, alookup k (setk l k2 v) = alookup k l := by
  intro l
  induction l with
  | nil => simp [setk, alookup, hne]
  | cons kv rest ih =>
      obtain ⟨k0, v0⟩ := kv
      by_cases hk : k0 = k2
      · subst hk
        simp [setk, alookup, hne]
      · simp [setk, alookup, hk, ih]

theorem custom_props_fold_preserves_legal (recB : BuildFun) (requiredv : PyVal)
    (key n : String) :
    ∀ (propkvs : List (String × PyVal)) lm pm st stack lm2 pm2 st2,
      custom_props_fold recB requiredv propkvs lm pm st stack = .ok (lm2, pm2, st2) →
      alookup key lm = some n →
      (∀ p ∈ propkvs, make_legal p.1 = key → p.1 = n) →
      alookup key lm2 = some n := by
  intro propkvs
  induction propkvs with
  | nil =>
      intro lm pm st stack lm2 pm2 st2 h hk _
      simp only [custom_props_fold] at h
      cases h
      exact hk
  | cons p rest ih =>
      intro lm pm st stack lm2 pm2 st2 h hk hinj
      obtain ⟨p1, psch⟩ := p
      simp only [custom_props_fold] at h
      cases hreq : requiredContains requiredv p1 with
      | error e =>
          rw [hreq] at h
          simp only [Except.instMonad, Except.bind] at h
          exact Except.noConfusion h
      | ok req =>
          rw [hreq] at h
          simp only [Except.instMonad, Except.bind] at h
          cases hrec : recB psch none req st stack with
          | error e =>
              rw [hrec] at h
              simp only [Except.instMonad, Except.bind] at h
              exact Except.noConfusion h
          | ok tist =>
              obtain ⟨ti, st1⟩ := tist
              rw [hrec] at h
              simp only [Except.instMonad, Except.bind] at h
              refine ih _ _ _ _ _ _ _ h ?_
                (fun p hp hl => hinj p (List.mem_cons_of_mem _ hp) hl)
              by_cases hcol : make_legal p1 = key
              · have : p1 = n := hinj (p1, psch) (List.mem_cons_self _ _) hcol
                subst this
                rw [hcol, alookup_setk]
              · rw [alookup_setk_ne key (make_legal p1) p1 hcol, hk]

theorem custom_props_fold_legal (recB : BuildFun) (requiredv : PyVal) (n : String) :
    ∀ (propkvs : List (String × PyVal)) lm pm st stack lm2 pm2 st2,
      custom_props_fold recB requiredv propkvs lm pm st stack = .ok (lm2, pm2, st2) →
      n ∈ propkvs.map Prod.fst →
      (∀ p ∈ propkvs, make_legal p.1 = make_legal n → p.1 = n) →
      alookup (make_legal n) lm2 = some n := by
  intro propkvs
  induction propkvs with
  | nil =>
      intro lm pm st stack lm2 pm2 st2 _ hmem _
      simp at hmem
  | cons p rest ih =>
      intro lm pm st stack lm2 pm2 st2 h hmem hinj
      obtain ⟨p1, psch⟩ := p
      simp only [custom_props_fold] at h
      cases hreq : requiredContains requiredv p1 with
      | error e =>
          rw [hreq] at h
          simp only [Except.instMonad, Except.bind] at h
          exact Except.noConfusion h
      | ok req =>
          rw [hreq] at h
          simp only [Except.instMonad, Except.bind] at h
          cases hrec : recB psch none req st stack with
          | error e =>
              rw [hrec] at h
              simp only [Except.instMonad, Except.bind] at h
              exact Except.noConfusion h
          | ok tist =>
              obtain ⟨ti, st1⟩ := tist
              rw [hrec] at h
              simp only [Except.instMonad, Except.bind] at h
              by_cases hp1 : p1 = n
              · subst hp1
                refine custom_props_fold_preserves_legal recB requiredv
                  (make_legal p1) p1 rest _ _ _ _ _ _ _ h (alookup_setk _ _ _)
                  (fun p hp hl => hinj p (List.mem_cons_of_mem _ hp) hl)
              · rcases List.mem_map.mp hmem with ⟨q, hq, hq1⟩
                rcases List.mem_cons.mp hq with hq0 | hqr
                · exact absurd (by rw [hq0] at hq1; exact hq1) hp1
                · exact ih _ _ _ _ _ _ _ h (List.mem_map.mpr ⟨q, hqr, hq1⟩)
                    (fun p hp hl => hinj p (List.mem_cons_of_mem _ hp) hl)

theorem custom_props_fold_legal_suffix (recB : BuildFun) (requiredv : PyVal) (n : String) :
    ∀ (pre : List (String × PyVal)) (v : PyVal) (post : List (String × PyVal))
      lm pm st stack lm2 pm2 st2,
      custom_props_fold recB requiredv (pre ++ (n, v) :: post) lm pm st stack
        = .ok (lm2, pm2, st2) →
      (∀ p ∈ post, make_legal p.1 = make_legal n → p.1 = n) →
      alookup (make_legal n) lm2 = some n := by
  intro pre
  induction pre with
  | nil =>
      intro v post lm pm st stack lm2 pm2 st2 h hlater
      simp only [List.nil_append, custom_props_fold] at h
      cases hreq : requiredContains requiredv n with
      | error e =>
          rw [hreq] at h
          simp only [Except.instMonad, Except.bind] at h
          exact Except.noConfusion h
      | ok req =>
          rw [hreq] at h
          simp only [Except.instMonad, Except.bind] at h
          cases hrec : recB v none req st stack with
          | error e =>
              rw [hrec] at h
              simp only [Except.instMonad, Except.bind] at h
              exact Except.noConfusion h
          | ok tist =>
              rw [hrec] at h
              simp only [Except.instMonad, Except.bind] at h
              exact custom_props_fold_preserves_legal recB requiredv (make_legal n) n
                post _ _ _ _ _ _ _ h (alookup_setk _ _ _) hlater
  | cons q pre2 ih =>
      intro v post lm pm st stack lm2 pm2 st2 h hlater
      obtain ⟨q1, qsch⟩ := q
      simp only [List.cons_append, custom_props_fold] at h
      cases hreq : requiredContains requiredv q1 with
      | error e =>
          rw [hreq] at h
          simp only [Except.instMonad, Except.bind] at h
          exact Except.noConfusion h
      | ok req =>
          rw [hreq] at h
          simp only [Except.instMonad, Except.bind] at h
          cases hrec : recB qsch none req st stack with
          | error e =>
              rw [hrec] at h
              simp only [Except.instMonad, Except.bind] at h
              exact Except.noConfusion h
          | ok tist =>
              rw [hrec] at h
              simp only [Except.instMonad, Except.bind] at h
              exact ih _ _ _ _ _ _ _ _ _ h hlater

/-- Claim C6 (amended).  Property-name legalization is deterministic
(it is a pure function of the name), and the record's
legal-name-to-original mapping is a left inverse of legalization —
`alookup (make_legal n) = some n` — for every property name n of the
schema none of whose later properties legalizes to the same
identifier: the per-property loop assigns `make_legal(name) → name` in
order, so a later colliding assignment (and only a later one)
overwrites n's entry, and when two distinct names collide the map
holds only the later one. -/
theorem c6_legalization (recB : BuildFun) (requiredv : PyVal) (n : String)
    (pre : List (String × PyVal)) (v : PyVal) (post : List (String × PyVal))
    (lm2 : List (String × String)) (pm2 : List (String × SchemaBasedTypeInfo))
    (st st2 : BState) (stack : List Ident)
    (hfold : custom_props_fold recB requiredv (pre ++ (n, v) :: post) [] [] st stack
      = .ok (lm2, pm2, st2))
    (hlater : ∀ p ∈ post, make_legal p.1 = make_legal n → p.1 = n) :
    (∀ s1 s2 : String, s1 = s2 → make_legal s1 = make_legal s2) ∧
    alookup (make_legal n) lm2 = some n :=
  ⟨fun _ _ h12 => by rw [h12],
   custom_props_fold_legal_suffix recB requiredv n pre v post [] [] st stack lm2 pm2 st2
     hfold hlater⟩

/-- Witness for C6: in the property map `{a!, a?}` both names legalize
to `a_ILL`; the later name `a?` collides only with the earlier `a!`,
so the built legal-name map still sends `a_ILL` back to `a?`. -/
theorem c6_legalization_witness :
    make_legal "a!" = make_legal "a?" ∧
    alookup (make_legal "a?") [("a_ILL", "a?")] = some "a?" :=
  ⟨rfl,
   (c6_legalization (fun _ _ _ st _ => .ok (default, st)) (.vlist []) "a?"
     [("a!", .vnone)] .vnone [] [("a_ILL", "a?")] [("a!", default), ("a?", default)]
     initState initState [] rfl
     (fun p hp _ => absurd hp (List.not_mem_nil p))).2⟩

/-- Counterexample to C6 as stated: in `doc_collide` the property names
`a!` and `a?` both legalize to `a_ILL`; the built legal-name map of
class `D` sends `a_ILL` to the later name `a?`, so
`original(legalize("a!"))` is `a?`, not `a!`. -/
theorem c6_counterexample :
    make_legal "a!" = "a_ILL" ∧ make_legal "a?" = "a_ILL" ∧
    alookup (make_legal "a!") (built_legal_map .openapi doc_collide 20 "D" "D") =
      some "a?" ∧
    ("a?" : String) ≠ "a!" :=
  ⟨rfl, rfl, rfl, by decide⟩

theorem doc_err_only_ok {α : Type} (x : α) : doc_err_only (Except.ok x) := by
  intro m hm
  exact Except.noConfusion hm

theorem doc_err_only_not_doc {α : Type} (e : PyErr)
    (h : ∀ m, e ≠ .documentError m) : doc_err_only (α := α) (.error e) := by
  intro m hm
  cases hm
  exact absurd rfl (h m)

theorem doc_err_only_bind {α β : Type} (e : Except PyErr α) (f : α → Except PyErr β)
    (he : doc_err_only e) (hf : ∀ x, doc_err_only (f x)) : doc_err_only (e >>= f) := by
  intro m hm
  cases e with
  | error e0 =>
      refine he m ?_
      simpa [Bind.bind, Except.bind] using hm
  | ok x =>
      refine hf x m ?_
      simpa [Bind.bind, Except.bind] using hm

theorem doc_err_only_pyGetItem (v : PyVal) (k : String) : doc_err_only (pyGetItem v k) := by
  intro m hm
  unfold pyGetItem at hm
  split at hm
  · split at hm <;> simp_all
  · simp_all

theorem doc_err_only_pyKeys (v : PyVal) : doc_err_only (pyKeys v) := by
  intro m hm
  unfold pyKeys at hm
  split at hm <;> simp_all

theorem doc_err_only_pyIter (v : PyVal) : doc_err_only (pyIter v) := by
  intro m hm
  unfold pyIter at hm
  split at hm <;> simp_all

theorem doc_err_only_requiredContains (v : PyVal) (k : String) :
    doc_err_only (requiredContains v k) := by
  intro m hm
  unfold requiredContains at hm
  split at hm <;> simp_all

theorem doc_err_only_parse (dia : Dialect) (s : String) :
    doc_err_only (parse_schema_name dia s) := by
  intro m hm
  simp only [parse_schema_name] at hm
  split at hm
  · split at hm
    · exact Except.noConfusion hm
    · cases hm
      exact Or.inl ⟨s, rfl⟩
  · cases hm
    exact Or.inl ⟨s, rfl⟩

theorem doc_err_only_get_schema_names (dia : Dialect) (doc : PyVal) :
    doc_err_only (get_schema_names dia doc) := by
  cases dia with
  | openapi =>
      show doc_err_only
        (pyGetItem doc "components" >>= fun cs =>
          pyGetItem cs "schemas" >>= fun ss => pyKeys ss)
      exact doc_err_only_bind _ _ (doc_err_only_pyGetItem _ _)
        (fun cs => doc_err_only_bind _ _ (doc_err_only_pyGetItem _ _)
          (fun ss => doc_err_only_pyKeys _))
  | json_schema =>
      show doc_err_only
        (pyGetItem doc "definitions" >>= fun ds =>
          pyKeys ds >>= fun ks =>
            Except.ok (if ks.contains "RootObject" then ks else ks ++ ["RootObject"]))
      exact doc_err_only_bind _ _ (doc_err_only_pyGetItem _ _)
        (fun ds => doc_err_only_bind _ _ (doc_err_only_pyKeys _)
          (fun ks => doc_err_only_ok _))

theorem doc_err_only_get_schema (dia : Dialect) (doc : PyVal) (name : String) :
    doc_err_only (get_schema dia doc name) := by
  cases dia with
  | openapi =>
      show doc_err_only
        (pyGetItem doc "components" >>= fun cs =>
          pyGetItem cs "schemas" >>= fun ss => pyGetItem ss name)
      exact doc_err_only_bind _ _ (doc_err_only_pyGetItem _ _)
        (fun cs => doc_err_only_bind _ _ (doc_err_only_pyGetItem _ _)
          (fun ss => doc_err_only_pyGetItem _ _))
  | json_schema =>
      show doc_err_only
        (if name = "RootObject" then Except.ok doc
         else pyGetItem doc "definitions" >>= fun ds => pyGetItem ds name)
      split
      · exact doc_err_only_ok _
      · exact doc_err_only_bind _ _ (doc_err_only_pyGetItem _ _)
          (fun ds => doc_err_only_pyGetItem _ _)

theorem doc_err_only_schema_exists (dia : Dialect) (doc : PyVal) (name : String) :
    doc_err_only (schema_exists dia doc name) := by
  unfold schema_exists
  exact doc_err_only_bind _ _ (doc_err_only_get_schema_names _ _)
    (fun ns => doc_err_only_ok _)

theorem doc_err_only_simple (schema : PyVal) (required : Bool) :
    doc_err_only (simple_build_type schema required) := by
  intro m hm
  unfold simple_build_type at hm
  split at hm
  · split at hm
    · exact Except.noConfusion hm
    · split at hm
      · exact Except.noConfusion hm
      · split at hm <;> try exact Except.noConfusion hm
        all_goals try simp_all
        all_goals
          cases hm
          exact Or.inr (Or.inr ⟨_, rfl⟩)
  · simp_all

theorem doc_err_only_getTypeF (dia : Dialect) (doc : PyVal) (recB : BuildFun)
    (name : String) (st : BState) (stack : List Ident)
    (hrec : ∀ s n r st2 sk, doc_err_only (recB s n r st2 sk)) :
    doc_err_only (getTypeF dia doc recB name st stack) := by
  unfold getTypeF
  split
  · exact doc_err_only_ok _
  · refine doc_err_only_bind _ _ (doc_err_only_get_schema _ _ _) (fun schema => ?_)
    refine doc_err_only_bind _ _ (hrec _ _ _ _ _) (fun x => ?_)
    obtain ⟨ti0, st1⟩ := x
    show doc_err_only
      (match alookup name st1.schema_name_to_type_info with
       | some ti => Except.ok (ti, st1)
       | none => Except.error (PyErr.keyError name))
    split
    · exact doc_err_only_ok _
    · exact doc_err_only_not_doc _ (fun m => by simp)

theorem doc_err_only_ref (dia : Dialect) (doc : PyVal) (recB : BuildFun)
    (schema : PyVal) (required : Bool) (st : BState) (stack : List Ident)
    (hrec : ∀ s n r st2 sk, doc_err_only (recB s n r st2 sk)) :
    doc_err_only (ref_build_type dia doc recB schema required st stack) := by
  unfold ref_build_type
  split
  · split
    · refine doc_err_only_bind _ _ (doc_err_only_parse _ _) (fun n => ?_)
      refine doc_err_only_bind _ _ (doc_err_only_schema_exists _ _ _) (fun ex => ?_)
      split
      · refine doc_err_only_bind _ _
          (doc_err_only_getTypeF _ _ _ _ _ _ hrec) (fun x => ?_)
        obtain ⟨rti, st1⟩ := x
        exact doc_err_only_ok _
      · intro m hm
        cases hm
        exact Or.inr (Or.inl ⟨_, rfl⟩)
    · exact doc_err_only_not_doc _ (fun m => by simp)
    · exact doc_err_only_ok _
  · exact doc_err_only_ok _

theorem doc_err_only_try_build (recB : BuildFun) (schema : PyVal)
    (st : BState) (stack : List Ident)
    (hrec : ∀ s n r st2 sk, doc_err_only (recB s n r st2 sk)) :
    doc_err_only (try_build_additional_property_type recB schema st stack) := by
  unfold try_build_additional_property_type
  split
  · split
    · split
      · refine doc_err_only_bind _ _ (hrec _ _ _ _ _) (fun x => ?_)
        obtain ⟨ti, st1⟩ := x
        exact doc_err_only_ok _
      · split
        · refine doc_err_only_bind _ _ (hrec _ _ _ _ _) (fun x => ?_)
          obtain ⟨ti, st1⟩ := x
          exact doc_err_only_ok _
        · exact doc_err_only_ok _
    · exact doc_err_only_ok _
  · exact doc_err_only_ok _

theorem doc_err_only_props_fold (recB : BuildFun) (requiredv : PyVal)
    (hrec : ∀ s n r st2 sk, doc_err_only (recB s n r st2 sk)) :
    ∀ (propkvs : List (String × PyVal)) lm pm st stack,
      doc_err_only (custom_props_fold recB requiredv propkvs lm pm st stack) := by
  intro propkvs
  induction propkvs with
  | nil =>
      intro lm pm st stack
      exact doc_err_only_ok _
  | cons p rest ih =>
      intro lm pm st stack
      obtain ⟨p1, psch⟩ := p
      show doc_err_only
        (requiredContains requiredv p1 >>= fun req =>
          recB psch none req st stack >>= fun x =>
            match x with
            | (ti, st1) => custom_props_fold recB requiredv rest
                (setk lm (make_legal p1) p1) (setk pm p1 ti) st1 stack)
      refine doc_err_only_bind _ _ (doc_err_only_requiredContains _ _) (fun req => ?_)
      refine doc_err_only_bind _ _ (hrec _ _ _ _ _) (fun x => ?_)
      obtain ⟨ti, st1⟩ := x
      exact ih _ _ _ _

theorem doc_err_only_custom_on_defined (recB : BuildFun) (schema : PyVal) (n : String)
    (st : BState) (stack : List Ident)
    (hrec : ∀ s n2 r st2 sk, doc_err_only (recB s n2 r st2 sk)) :
    doc_err_only (custom_on_type_defined recB schema n st stack) := by
  unfold custom_on_type_defined
  refine doc_err_only_bind _ _ (doc_err_only_try_build recB schema st stack hrec)
    (fun x => ?_)
  obtain ⟨apt, st1⟩ := x
  split
  · rename_i kvs
    cases hpl : alookup "properties" kvs with
    | none => exact doc_err_only_not_doc _ (fun m => by simp)
    | some pv =>
        cases pv
        case vdict propkvs =>
            refine doc_err_only_bind _ _
              (doc_err_only_props_fold recB _ hrec _ _ _ _ _) (fun y => ?_)
            obtain ⟨legalMap, propMap, st2⟩ := y
            exact doc_err_only_ok _
        all_goals exact doc_err_only_not_doc _ (fun m => by simp)
  · exact doc_err_only_not_doc _ (fun m => by simp)

theorem doc_err_only_sub_types (recB : BuildFun)
    (hrec : ∀ s n r st2 sk, doc_err_only (recB s n r st2 sk)) :
    ∀ (subs : List PyVal) st stack, doc_err_only (build_sub_types recB subs st stack) := by
  intro subs
  induction subs with
  | nil =>
      intro st stack
      exact doc_err_only_ok _
  | cons s rest ih =>
      intro st stack
      show doc_err_only
        (recB s none true st stack >>= fun x =>
          match x with
          | (ti, st1) => build_sub_types recB rest st1 stack >>= fun y =>
              match y with
              | (tis, st2) => Except.ok (ti :: tis, st2))
      refine doc_err_only_bind _ _ (hrec _ _ _ _ _) (fun x => ?_)
      obtain ⟨ti, st1⟩ := x
      refine doc_err_only_bind _ _ (ih _ _) (fun y => ?_)
      obtain ⟨tis, st2⟩ := y
      exact doc_err_only_ok _

theorem doc_err_only_one_of (recB : BuildFun) (schema : PyVal) (required : Bool)
    (st : BState) (stack : List Ident)
    (hrec : ∀ s n r st2 sk, doc_err_only (recB s n r st2 sk)) :
    doc_err_only (one_of_build_type recB schema required st stack) := by
  unfold one_of_build_type
  split
  · split
    · refine doc_err_only_bind _ _ (doc_err_only_pyIter _) (fun subs => ?_)
      refine doc_err_only_bind _ _ (doc_err_only_sub_types recB hrec _ _ _) (fun y => ?_)
      obtain ⟨options, st1⟩ := y
      exact doc_err_only_ok _
    · exact doc_err_only_ok _
  · exact doc_err_only_ok _

theorem doc_err_only_array (recB : BuildFun) (schema : PyVal) (required : Bool)
    (st : BState) (stack : List Ident)
    (hrec : ∀ s n r st2 sk, doc_err_only (recB s n r st2 sk)) :
    doc_err_only (array_build_type recB schema required st stack) := by
  unfold array_build_type
  split
  · split
    · split
      · refine doc_err_only_bind _ _ ?_ (fun items => ?_)
        · split
          · exact doc_err_only_ok _
          · exact doc_err_only_not_doc _ (fun m => by simp)
        · refine doc_err_only_bind _ _ (hrec _ _ _ _ _) (fun x => ?_)
          obtain ⟨ti, st1⟩ := x
          exact doc_err_only_ok _
      · exact doc_err_only_ok _
    · exact doc_err_only_ok _
  · exact doc_err_only_ok _

theorem doc_err_only_dict (recB : BuildFun) (schema : PyVal) (required : Bool)
    (st : BState) (stack : List Ident)
    (hrec : ∀ s n r st2 sk, doc_err_only (recB s n r st2 sk)) :
    doc_err_only (dict_build_type recB schema required st stack) := by
  unfold dict_build_type
  split
  · split
    · refine doc_err_only_bind _ _ (doc_err_only_try_build recB _ _ _ hrec)
        (fun x => ?_)
      obtain ⟨apt, st1⟩ := x
      cases apt with
      | some ti => exact doc_err_only_ok _
      | none => exact doc_err_only_ok _
    · exact doc_err_only_ok _
  · exact doc_err_only_ok _

theorem traceOk_register (n : Option String) (ti : SchemaBasedTypeInfo) (st : BState) :
    traceOk (registerIfNamed n ti st) = traceOk st := by
  cases n <;> rfl

theorem tracePres_getTypeF (dia : Dialect) (doc : PyVal) (recB : BuildFun)
    (name : String) (st : BState) (stack : List Ident) (hrec : BPres recB)
    (hst : traceOk st = true) (r : SchemaBasedTypeInfo × BState)
    (h : getTypeF dia doc recB name st stack = .ok r) : traceOk r.2 = true := by
  unfold getTypeF at h
  split at h
  · cases h
    exact hst
  · cases hg : get_schema dia doc name with
    | error e =>
        rw [hg] at h
        simp only [Except.instMonad, Except.bind] at h
        exact Except.noConfusion h
    | ok schema =>
        rw [hg] at h
        simp only [Except.instMonad, Except.bind] at h
        cases hb : recB schema (some name) true st stack with
        | error e =>
            rw [hb] at h
            simp only [Except.instMonad, Except.bind] at h
            exact Except.noConfusion h
        | ok r1 =>
            rw [hb] at h
            simp only [Except.instMonad, Except.bind] at h
            have h1 : traceOk r1.2 = true := hrec _ _ _ _ _ _ hst hb
            split at h
            · cases h
              exact h1
            · exact Except.noConfusion h

theorem tracePres_ref (dia : Dialect) (doc : PyVal) (recB : BuildFun)
    (schema : PyVal) (required : Bool) (st : BState) (stack : List Ident)
    (hrec : BPres recB) (hst : traceOk st = true)
    (r : Option SchemaBasedTypeInfo × BState)
    (h : ref_build_type dia doc recB schema required st stack = .ok r) :
    traceOk r.2 = true := by
  unfold ref_build_type at h
  split at h
  · split at h
    · cases hp : parse_schema_name dia _ with
      | error e =>
          rw [hp] at h
          simp only [Except.instMonad, Except.bind] at h
          exact Except.noConfusion h
      | ok schema_name =>
          rw [hp] at h
          simp only [Except.instMonad, Except.bind] at h
          cases hx : schema_exists dia doc schema_name with
          | error e =>
              rw [hx] at h
              simp only [Except.instMonad, Except.bind] at h
              exact Except.noConfusion h
          | ok ex =>
              rw [hx] at h
              simp only [Except.instMonad, Except.bind] at h
              split at h
              · cases hgt : getTypeF dia doc recB schema_name st stack with
                | error e =>
                    rw [hgt] at h
                    simp only [Except.instMonad, Except.bind] at h
                    exact Except.noConfusion h
                | ok r1 =>
                    rw [hgt] at h
                    simp only [Except.instMonad, Except.bind] at h
                    cases h
                    exact tracePres_getTypeF dia doc recB schema_name st stack hrec hst r1 hgt
              · exact Except.noConfusion h
    · exact Except.noConfusion h
    · cases h
      exact hst
  · cases h
    exact hst

theorem tracePres_try_build (recB : BuildFun) (schema : PyVal)
    (st : BState) (stack : List Ident) (hrec : BPres recB) (hst : traceOk st = true)
    (r : Option SchemaBasedTypeInfo × BState)
    (h : try_build_additional_property_type recB schema st stack = .ok r) :
    traceOk r.2 = true := by
  unfold try_build_additional_property_type at h
  split at h
  · split at h
    · split at h
      · rename_i kvs htype pat apkvs hpat
        cases hb : recB (PyVal.vdict [("oneOf", PyVal.vlist (apkvs.map Prod.snd))])
            none true st stack with
        | error e =>
            simp only [hb, Except.instMonad, Except.bind] at h
            exact Except.noConfusion h
        | ok r1 =>
            simp only [hb, Except.instMonad, Except.bind] at h
            cases h
            exact hrec _ _ _ _ _ _ hst hb
      · split at h
        · rename_i kvs htype pat hpat ap apkvs hap
          cases hb : recB (PyVal.vdict apkvs) none true st stack with
          | error e =>
              rw [hb] at h
              simp only [Except.instMonad, Except.bind] at h
              exact Except.noConfusion h
          | ok r1 =>
              rw [hb] at h
              simp only [Except.instMonad, Except.bind] at h
              cases h
              exact hrec _ _ _ _ _ _ hst hb
        · cases h
          exact hst
    · cases h
      exact hst
  · cases h
    exact hst

theorem tracePres_props_fold (recB : BuildFun) (requiredv : PyVal) (hrec : BPres recB) :
    ∀ (props : List (String × PyVal)) (lm : List (String × String))
      (pm : List (String × SchemaBasedTypeInfo)) (st : BState) (stack : List Ident)
      (r : List (String × String) × List (String × SchemaBasedTypeInfo) × BState),
      traceOk st = true →
      custom_props_fold recB requiredv props lm pm st stack = .ok r →
      traceOk r.2.2 = true := by
  intro props
  induction props with
  | nil =>
      intro lm pm st stack r hst h
      unfold custom_props_fold at h
      cases h
      exact hst
  | cons kv rest ih =>
      intro lm pm st stack r hst h
      obtain ⟨pname, pschema⟩ := kv
      unfold custom_props_fold at h
      cases hq : requiredContains requiredv pname with
      | error e =>
          simp only [hq, Except.instMonad, Except.bind] at h
          exact Except.noConfusion h
      | ok req =>
          simp only [hq, Except.instMonad, Except.bind] at h
          cases hb : recB pschema none req st stack with
          | error e =>
              simp only [hb, Except.instMonad, Except.bind] at h
              exact Except.noConfusion h
          | ok r1 =>
              simp only [hb, Except.instMonad, Except.bind] at h
              exact ih _ _ _ _ _ (hrec _ _ _ _ _ _ hst hb) h

theorem tracePres_custom_on_defined (recB : BuildFun) (schema : PyVal) (n : String)
    (st : BState) (stack : List Ident) (hrec : BPres recB) (hst : traceOk st = true)
    (st2 : BState) (h : custom_on_type_defined recB schema n st stack = .ok st2) :
    traceOk st2 = true := by
  unfold custom_on_type_defined at h
  cases ha : try_build_additional_property_type recB schema st stack with
  | error e =>
      simp only [ha, Except.instMonad, Except.bind] at h
      exact Except.noConfusion h
  | ok ra =>
      simp only [ha, Except.instMonad, Except.bind] at h
      have hra : traceOk ra.2 = true := tracePres_try_build recB schema st stack hrec hst ra ha
      split at h
      · split at h
        · rename_i kvs pv propkvs hprop
          cases hf : custom_props_fold recB
              (match alookup "required" kvs with | some v => v | none => .vlist [])
              propkvs [] [] ra.2 stack with
          | error e =>
              simp only [hf, Except.instMonad, Except.bind] at h
              exact Except.noConfusion h
          | ok rf =>
              simp only [hf, Except.instMonad, Except.bind] at h
              cases h
              exact tracePres_props_fold recB _ hrec _ _ _ _ _ _ hra hf
        · exact Except.noConfusion h
        · exact Except.noConfusion h
      · exact Except.noConfusion h

theorem tracePres_sub_types (recB : BuildFun) (hrec : BPres recB) :
    ∀ (subs : List PyVal) (st : BState) (stack : List Ident)
      (r : List SchemaBasedTypeInfo × BState),
      traceOk st = true →
      build_sub_types recB subs st stack = .ok r → traceOk r.2 = true := by
  intro subs
  induction subs with
  | nil =>
      intro st stack r hst h
      unfold build_sub_types at h
      cases h
      exact hst
  | cons s rest ih =>
      intro st stack r hst h
      unfold build_sub_types at h
      cases hb : recB s none true st stack with
      | error e =>
          simp only [hb, Except.instMonad, Except.bind] at h
          exact Except.noConfusion h
      | ok r1 =>
          simp only [hb, Except.instMonad, Except.bind] at h
          cases hr : build_sub_types recB rest r1.2 stack with
          | error e =>
              simp only [hr, Except.instMonad, Except.bind] at h
              exact Except.noConfusion h
          | ok rr =>
              simp only [hr, Except.instMonad, Except.bind] at h
              cases h
              exact ih r1.2 stack rr (hrec _ _ _ _ _ _ hst hb) hr

theorem tracePres_one_of (recB : BuildFun) (schema : PyVal) (required : Bool)
    (st : BState) (stack : List Ident) (hrec : BPres recB) (hst : traceOk st = true)
    (r : Option SchemaBasedTypeInfo × BState)
    (h : one_of_build_type recB schema required st stack = .ok r) :
    traceOk r.2 = true := by
  unfold one_of_build_type at h
  split at h
  · split at h
    · rename_i kvs ov hov
      cases hi : pyIter ov with
      | error e =>
          simp only [hi, Except.instMonad, Except.bind] at h
          exact Except.noConfusion h
      | ok subs =>
          simp only [hi, Except.instMonad, Except.bind] at h
          cases hb : build_sub_types recB subs st stack with
          | error e =>
              simp only [hb, Except.instMonad, Except.bind] at h
              exact Except.noConfusion h
          | ok r1 =>
              simp only [hb, Except.instMonad, Except.bind] at h
              cases h
              exact tracePres_sub_types recB hrec subs st stack r1 hst hb
    · cases h
      exact hst
  · cases h
    exact hst

theorem tracePres_array (recB : BuildFun) (schema : PyVal) (required : Bool)
    (st : BState) (stack : List Ident) (hrec : BPres recB) (hst : traceOk st = true)
    (r : Option SchemaBasedTypeInfo × BState)
    (h : array_build_type recB schema required st stack = .ok r) :
    traceOk r.2 = true := by
  unfold array_build_type at h
  split at h
  · rename_i kvs
    split at h
    · split at h
      · cases hit : alookup "items" kvs with
        | none =>
            simp only [hit, Except.instMonad, Except.bind] at h
            exact Except.noConfusion h
        | some items =>
            simp only [hit, Except.instMonad, Except.bind] at h
            cases hb : recB items none true st stack with
            | error e =>
                simp only [hb, Except.instMonad, Except.bind] at h
                exact Except.noConfusion h
            | ok r1 =>
                simp only [hb, Except.instMonad, Except.bind] at h
                cases h
                exact hrec _ _ _ _ _ _ hst hb
      · cases h
        exact hst
    · cases h
      exact hst
  · cases h
    exact hst

theorem tracePres_dict (recB : BuildFun) (schema : PyVal) (required : Bool)
    (st : BState) (stack : List Ident) (hrec : BPres recB) (hst : traceOk st = true)
    (r : Option SchemaBasedTypeInfo × BState)
    (h : dict_build_type recB schema required st stack = .ok r) :
    traceOk r.2 = true := by
  unfold dict_build_type at h
  split at h
  · rename_i kvs
    split at h
    · cases ha : try_build_additional_property_type recB (PyVal.vdict kvs) st stack with
      | error e =>
          simp only [ha, Except.instMonad, Except.bind] at h
          exact Except.noConfusion h
      | ok ra =>
          simp only [ha, Except.instMonad, Except.bind] at h
          have hra : traceOk ra.2 = true :=
            tracePres_try_build recB (PyVal.vdict kvs) st stack hrec hst ra ha
          split at h
          · cases h
            exact hra
          · cases h
            exact hra
    · cases h
      exact hst
  · cases h
    exact hst

theorem tracePres_runChainF (dia : Dialect) (doc : PyVal) (recB : BuildFun)
    (schema : PyVal) (name : Option String) (required : Bool)
    (st : BState) (stack : List Ident) (hrec : BPres recB) (hst : traceOk st = true)
    (r : SchemaBasedTypeInfo × BState)
    (h : runChainF dia doc recB schema name required st stack = .ok r) :
    traceOk r.2 = true := by
  unfold runChainF at h
  cases h1 : ref_build_type dia doc recB schema required st stack with
  | error e =>
      simp only [h1, Except.instMonad, Except.bind] at h
      exact Except.noConfusion h
  | ok r1 =>
      simp only [h1, Except.instMonad, Except.bind] at h
      have hp1 : traceOk r1.2 = true :=
        tracePres_ref dia doc recB schema required st stack hrec hst r1 h1
      cases hx1 : r1.1 with
      | some ti =>
          simp only [hx1] at h
          cases h
          rw [traceOk_register]
          exact hp1
      | none =>
          simp only [hx1] at h
          cases hc : custom_build_type schema name with
          | some ti =>
              simp only [hc] at h
              cases h2 : custom_on_type_defined recB schema ti.type_str
                  (registerIfNamed name ti r1.2) stack with
              | error e =>
                  simp only [h2, Except.instMonad, Except.bind] at h
                  exact Except.noConfusion h
              | ok stc =>
                  simp only [h2, Except.instMonad, Except.bind] at h
                  cases h
                  refine tracePres_custom_on_defined recB schema ti.type_str
                    (registerIfNamed name ti r1.2) stack hrec ?_ _ h2
                  rw [traceOk_register]
                  exact hp1
          | none =>
              simp only [hc] at h
              cases h3 : one_of_build_type recB schema required r1.2 stack with
              | error e =>
                  simp only [h3, Except.instMonad, Except.bind] at h
                  exact Except.noConfusion h
              | ok r3 =>
                  simp only [h3, Except.instMonad, Except.bind] at h
                  have hp3 : traceOk r3.2 = true :=
                    tracePres_one_of recB schema required r1.2 stack hrec hp1 r3 h3
                  cases hx3 : r3.1 with
                  | some ti =>
                      simp only [hx3] at h
                      cases h
                      rw [traceOk_register]
                      exact hp3
                  | none =>
                      simp only [hx3] at h
                      cases h4 : array_build_type recB schema required r3.2 stack with
                      | error e =>
                          simp only [h4, Except.instMonad, Except.bind] at h
                          exact Except.noConfusion h
                      | ok r4 =>
                          simp only [h4, Except.instMonad, Except.bind] at h
                          have hp4 : traceOk r4.2 = true :=
                            tracePres_array recB schema required r3.2 stack hrec hp3 r4 h4
                          cases hx4 : r4.1 with
                          | some ti =>
                              simp only [hx4] at h
                              cases h
                              rw [traceOk_register]
                              exact hp4
                          | none =>
                              simp only [hx4] at h
                              cases h5 : dict_build_type recB schema required r4.2 stack with
                              | error e =>
                                  simp only [h5, Except.instMonad, Except.bind] at h
                                  exact Except.noConfusion h
                              | ok r5 =>
                                  simp only [h5, Except.instMonad, Except.bind] at h
                                  have hp5 : traceOk r5.2 = true :=
                                    tracePres_dict recB schema required r4.2 stack hrec hp4 r5 h5
                                  cases hx5 : r5.1 with
                                  | some ti =>
                                      simp only [hx5] at h
                                      cases h
                                      rw [traceOk_register]
                                      exact hp5
                                  | none =>
                                      simp only [hx5] at h
                                      cases h6 : simple_build_type schema required with
                                      | error e =>
                                          simp only [h6, Except.instMonad, Except.bind] at h
                                          exact Except.noConfusion h
                                      | ok ti =>
                                          simp only [h6, Except.instMonad, Except.bind] at h
                                          cases h
                                          rw [traceOk_register]
                                          exact hp5

theorem traceOk_exitRemove (r2 : BState) (i : Ident) :
    traceOk (if resolvingHas r2.schemas_being_parsed i then
        { r2 with schemas_being_parsed :=
            r2.schemas_being_parsed.filter (fun j => !identBEq j i) }
      else r2) = traceOk r2 := by
  split <;> rfl

theorem tracePres_core (dia : Dialect) (doc : PyVal) (recB : BuildFun)
    (schema : PyVal) (name : Option String) (required : Bool)
    (st : BState) (stack : List Ident) (hrec : BPres recB) (hst : traceOk st = true)
    (r : SchemaBasedTypeInfo × BState)
    (h : buildAndDefineCore dia doc recB schema name required st stack = .ok r) :
    traceOk r.2 = true := by
  unfold buildAndDefineCore at h
  simp only [Except.instMonad, Except.bind] at h
  cases hre : resolvingHas st.schemas_being_parsed (name, schema) with
  | true =>
      simp only [hre] at h
      cases hs : simple_build_type schema required with
      | error e =>
          simp only [hs] at h
          exact Except.noConfusion h
      | ok v =>
          simp only [hs] at h
          cases h
          rw [traceOk_exitRemove, traceOk_register]
          simp only [traceOk] at hst
          simp [traceOk, trace_guard, hst, hre]
  | false =>
      simp only [hre, Bool.false_eq_true, if_false] at h
      cases hC : runChainF dia doc recB schema name required
          { schema_name_to_type_info := st.schema_name_to_type_info, classes := st.classes,
            schemas_being_parsed := (name, schema) :: st.schemas_being_parsed,
            trace := st.trace ++
              [{ ident := (name, schema), resolvingAtEntry := st.schemas_being_parsed,
                 stackAtEntry := stack, simpleOnly := false }] }
          ((name, schema) :: stack) with
      | error e =>
          simp only [hC] at h
          exact Except.noConfusion h
      | ok v =>
          simp only [hC] at h
          cases h
          rw [traceOk_exitRemove]
          refine tracePres_runChainF dia doc recB schema name required _ _ hrec ?_ v hC
          simp only [traceOk] at hst
          simp [traceOk, trace_guard, hst, hre]

theorem tracePres_F (dia : Dialect) (doc : PyVal) (recB : BuildFun)
    (schema : PyVal) (name : Option String) (required : Bool)
    (st : BState) (stack : List Ident) (hrec : BPres recB) (hst : traceOk st = true)
    (r : SchemaBasedTypeInfo × BState)
    (h : buildAndDefineF dia doc recB schema name required st stack = .ok r) :
    traceOk r.2 = true := by
  unfold buildAndDefineF at h
  split at h
  · split at h
    · exact Except.noConfusion h
    · exact tracePres_core dia doc recB schema _ required st stack hrec hst r h
  · exact tracePres_core dia doc recB schema _ required st stack hrec hst r h

theorem tracePres_ladder (dia : Dialect) (doc : PyVal) :
    ∀ fuel, BPres (buildAndDefine dia doc fuel) := by
  intro fuel
  induction fuel with
  | zero =>
      intro schema name required st stack r _ h
      exact Except.noConfusion h
  | succ n ih =>
      intro schema name required st stack r hst h
      exact tracePres_F dia doc (buildAndDefine dia doc n) schema name required st stack
        ih hst r h

/-- Claim C3.  Corrected form of the resolving-set guard: throughout a
build session a nested `build_and_define_type` frame is restricted to
the Simple fallback exactly when its `(name, schema)` identity is in
the resolving set at its entry — every frame of a completed session's
trace satisfies `trace_guard`.  The claim's stronger reading (the
restriction applies whenever an enclosing resolution of the same node
is unfinished, for every such nested attempt) fails: the exit step
removes the identity even from a restricted frame that did not add it,
so a second re-entry below the same unfinished outer frame recurses
fully. -/
theorem c3_resolving_guard (dia : Dialect) (doc : PyVal) (fuel : Nat) (name : String)
    (r : SchemaBasedTypeInfo × BState)
    (h : get_type dia doc fuel name initState = .ok r) :
    r.2.trace.all trace_guard = true :=
  tracePres_getTypeF dia doc (buildAndDefine dia doc fuel) name initState []
    (tracePres_ladder dia doc fuel) rfl r h

/-- Witness for C3: the `doc_reenter` session completes and every one
of its seven recorded frames obeys the entry-membership guard. -/
theorem c3_resolving_guard_witness :
    ∃ r, get_type .json_schema doc_reenter 30 "A" initState = Except.ok r ∧
      r.2.trace.all trace_guard = true :=
  ⟨_, rfl, c3_resolving_guard .json_schema doc_reenter 30 "A" _ rfl⟩

/-- Counterexample to C3 as stated: in the `doc_reenter` session some
frame's identity is held by an enclosing unfinished frame (it occurs on
the ghost call stack) and yet the frame is not restricted to the Simple
fallback — the second re-entry of the shared node `X` recurses fully,
because the first restricted re-entry removed `X` from the resolving
set on exit. -/
theorem c3_counterexample :
    (built_trace .json_schema doc_reenter 30 "A").any
      (fun e => e.stackAtEntry.any (fun j => identBEq j e.ident) && !e.simpleOnly) = true := rfl

theorem doc_err_only_runChainF (dia : Dialect) (doc : PyVal) (recB : BuildFun)
    (schema : PyVal) (name : Option String) (required : Bool)
    (st : BState) (stack : List Ident)
    (hrec : ∀ s n r st2 sk, doc_err_only (recB s n r st2 sk)) :
    doc_err_only (runChainF dia doc recB schema name required st stack) := by
  unfold runChainF
  refine doc_err_only_bind _ _ (doc_err_only_ref _ _ _ _ _ _ _ hrec) (fun r1 => ?_)
  obtain ⟨o1, st1⟩ := r1
  cases o1 with
  | some ti => exact doc_err_only_ok _
  | none =>
      cases hc : custom_build_type schema name with
      | some ti =>
          simp only []
          refine doc_err_only_bind _ _
            (doc_err_only_custom_on_defined recB _ _ _ _ hrec) (fun stc => doc_err_only_ok _)
      | none =>
          simp only [hc]
          refine doc_err_only_bind _ _ (doc_err_only_one_of _ _ _ _ _ hrec) (fun r3 => ?_)
          obtain ⟨o3, st3⟩ := r3
          cases o3 with
          | some ti => exact doc_err_only_ok _
          | none =>
              refine doc_err_only_bind _ _ (doc_err_only_array _ _ _ _ _ hrec) (fun r4 => ?_)
              obtain ⟨o4, st4⟩ := r4
              cases o4 with
              | some ti => exact doc_err_only_ok _
              | none =>
                  refine doc_err_only_bind _ _ (doc_err_only_dict _ _ _ _ _ hrec)
                    (fun r5 => ?_)
                  obtain ⟨o5, st5⟩ := r5
                  cases o5 with
                  | some ti => exact doc_err_only_ok _
                  | none =>
                      exact doc_err_only_bind _ _ (doc_err_only_simple _ _)
                        (fun ti => doc_err_only_ok _)

theorem doc_err_only_core (dia : Dialect) (doc : PyVal) (recB : BuildFun)
    (schema : PyVal) (name : Option String) (required : Bool)
    (st : BState) (stack : List Ident)
    (hrec : ∀ s n r st2 sk, doc_err_only (recB s n r st2 sk)) :
    doc_err_only (buildAndDefineCore dia doc recB schema name required st stack) := by
  intro m hm
  unfold buildAndDefineCore at hm
  simp only [Except.instMonad, Except.bind] at hm
  cases hre : resolvingHas st.schemas_being_parsed (name, schema) with
  | true =>
      simp only [hre] at hm
      cases hs : simple_build_type schema required with
      | error e =>
          simp only [hs] at hm
          cases hm
          exact doc_err_only_simple schema required m hs
      | ok v =>
          simp only [hs] at hm
          exact Except.noConfusion hm
  | false =>
      simp only [hre, Bool.false_eq_true, if_false] at hm
      cases hC : runChainF dia doc recB schema name required
          { schema_name_to_type_info := st.schema_name_to_type_info, classes := st.classes,
            schemas_being_parsed := (name, schema) :: st.schemas_being_parsed,
            trace := st.trace ++
              [{ ident := (name, schema), resolvingAtEntry := st.schemas_being_parsed,
                 stackAtEntry := stack, simpleOnly := false }] }
          ((name, schema) :: stack) with
      | error e =>
          simp only [hC] at hm
          cases hm
          exact doc_err_only_runChainF dia doc recB schema name required _ _ hrec m hC
      | ok v =>
          simp only [hC] at hm
          exact Except.noConfusion hm

theorem doc_err_only_F (dia : Dialect) (doc : PyVal) (recB : BuildFun)
    (schema : PyVal) (name : Option String) (required : Bool)
    (st : BState) (stack : List Ident)
    (hrec : ∀ s n r st2 sk, doc_err_only (recB s n r st2 sk)) :
    doc_err_only (buildAndDefineF dia doc recB schema name required st stack) := by
  unfold buildAndDefineF
  split
  · split
    · exact doc_err_only_not_doc _ (fun m => by simp)
    · exact doc_err_only_core _ _ _ _ _ _ _ _ hrec
  · exact doc_err_only_core _ _ _ _ _ _ _ _ hrec

theorem doc_err_only_ladder (dia : Dialect) (doc : PyVal) :
    ∀ fuel schema name required st stack,
      doc_err_only (buildAndDefine dia doc fuel schema name required st stack) := by
  intro fuel
  induction fuel with
  | zero =>
      intro schema name required st stack
      exact doc_err_only_not_doc _ (fun m => by simp)
  | succ n ih =>
      intro schema name required st stack
      exact doc_err_only_F dia doc (buildAndDefine dia doc n) schema name required st stack
        (fun s nm r st2 sk => ih s nm r st2 sk)

theorem doc_err_only_get_type (dia : Dialect) (doc : PyVal) (fuel : Nat)
    (name : String) (st : BState) :
    doc_err_only (get_type dia doc fuel name st) := by
  unfold get_type
  exact doc_err_only_getTypeF dia doc _ name st []
    (fun s n r st2 sk => doc_err_only_ladder dia doc fuel s n r st2 sk)

theorem parse_schema_name_shape (dia : Dialect) (s : String) :
    (∃ n, parse_schema_name dia s = .ok n) ∨
      parse_schema_name dia s =
        .error (.documentError ("invalid schema reference string: " ++ s)) := by
  simp only [parse_schema_name]
  split
  · split
    · exact Or.inl ⟨_, rfl⟩
    · exact Or.inr rfl
  · exact Or.inr rfl

/-- Claim C8.  `DocumentError` is raised exactly for malformed or
unresolvable schema structure: (1) every `DocumentError` surfaced by
`get_type` carries one of the three raise-site message shapes
(`doc_err_shape`) - no engine operation raises it in any other case,
and the monadic propagation never retries or swallows it; (2) a
reference string the dialect grammar rejects raises the
invalid-reference `DocumentError`; (3) a parsed reference naming a
schema absent from the document raises the unresolved-reference
`DocumentError`; (4) a declared `type` keyword that is none of
`object`, `string`, `integer`, `number`, `boolean` raises the
invalid-type `DocumentError`. -/
theorem c8_document_error (dia : Dialect) (doc : PyVal) (fuel : Nat) (name : String) (st : BState) :
    doc_err_only (get_type dia doc fuel name st) ∧
    (∀ s, (parse_schema_name dia s).isOk = false →
      parse_schema_name dia s =
        .error (.documentError ("invalid schema reference string: " ++ s))) ∧
    (∀ (recB : BuildFun) (kvs : List (String × PyVal)) (ref_string sname : String)
        (required : Bool) (st2 : BState) (stack : List Ident),
      alookup "$ref" kvs = some (.vstr ref_string) →
      parse_schema_name dia ref_string = .ok sname →
      schema_exists dia doc sname = .ok false →
      ref_build_type dia doc recB (.vdict kvs) required st2 stack =
        .error (.documentError ("unresolved schema reference: \x22" ++ ref_string ++ "\x22"))) ∧
    (∀ (kvs : List (String × PyVal)) (t : String) (required : Bool),
      alookup "type" kvs = some (.vstr t) →
      t ∉ ["object", "string", "integer", "number", "boolean"] →
      simple_build_type (.vdict kvs) required =
        .error (.documentError ("invalid type \x22" ++ t ++ "\x22 in schema"))) := by
  refine ⟨doc_err_only_get_type dia doc fuel name st, ?_, ?_, ?_⟩
  · intro s hfail
    cases parse_schema_name_shape dia s with
    | inl hok =>
        obtain ⟨n, hn⟩ := hok
        rw [hn] at hfail
        simp [Except.isOk, Except.toBool] at hfail
    | inr herr => exact herr
  · intro recB kvs ref_string sname required st2 stack href hparse hex
    unfold ref_build_type
    simp only [href, hparse, hex, Except.instMonad, Except.bind, Bool.false_eq_true, if_false]
  · intro kvs t required htype hnot
    unfold simple_build_type
    simp only [htype, pyValBEq]
    have hob : (t == "object") = false := by
      simp only [List.mem_cons, List.mem_singleton] at hnot
      simp [beq_eq_false_iff_ne]
      intro hc
      exact hnot (Or.inl hc)
    simp only [hob, Bool.false_eq_true, if_false]
    split
    all_goals simp_all [pyScalarStr]


/-- Witness for C8: the invalid-reference, unresolved-reference and
invalid-type raise sites fire on concrete inputs, the unresolved
reference of `doc_badref` propagates unchanged through `get_type`, and
its message has a `doc_err_shape`. -/
theorem c8_document_error_witness :
    get_type .json_schema doc_badref 20 "A" initState =
      .error (.documentError ("unresolved schema reference: \x22#/definitions/Missing\x22")) ∧
    doc_err_shape "unresolved schema reference: \x22#/definitions/Missing\x22" ∧
    parse_schema_name .json_schema "nope" =
      .error (.documentError "invalid schema reference string: nope") ∧
    ref_build_type .json_schema doc_badref (buildAndDefine .json_schema doc_badref 5)
        (.vdict [("$ref", .vstr "#/definitions/Missing")]) true initState [] =
      .error (.documentError ("unresolved schema reference: \x22#/definitions/Missing\x22")) ∧
    simple_build_type (.vdict [("type", .vstr "foo")]) true =
      .error (.documentError ("invalid type \x22foo\x22 in schema")) :=
  ⟨rfl,
   (c8_document_error .json_schema doc_badref 20 "A" initState).1 _ rfl,
   (c8_document_error .json_schema doc_badref 20 "A" initState).2.1 "nope" rfl,
   (c8_document_error .json_schema doc_badref 20 "A" initState).2.2.1
     (buildAndDefine .json_schema doc_badref 5) [("$ref", .vstr "#/definitions/Missing")]
     "#/definitions/Missing" "Missing" true initState [] rfl rfl rfl,
   (c8_document_error .json_schema doc_badref 20 "A" initState).2.2.2
     [("type", .vstr "foo")] "foo" true rfl (by decide)⟩

mutual

theorem pyValBEq_refl : ∀ v, pyValBEq v v = true
  | .vnone => rfl
  | .vbool b => by simp [pyValBEq]
  | .vint n => by simp [pyValBEq]
  | .vfloat q => by simp [pyValBEq]
  | .vstr s => by simp [pyValBEq]
  | .vlist xs => by simp only [pyValBEq]; exact pyValListBEq_refl xs
  | .vdict kvs => by simp only [pyValBEq]; exact pyValPairsBEq_refl kvs
  | .vobj c props => by
      simp only [pyValBEq, pyValPairsBEq_refl props, Bool.and_true]
      simp

theorem pyValListBEq_refl : ∀ xs, pyValListBEq xs xs = true
  | [] => rfl
  | x :: rest => by
      simp only [pyValListBEq, pyValBEq_refl x, pyValListBEq_refl rest, Bool.and_self]

theorem pyValPairsBEq_refl : ∀ kvs, pyValPairsBEq kvs kvs = true
  | [] => rfl
  | (k, v) :: rest => by
      simp only [pyValPairsBEq, pyValBEq_refl v, pyValPairsBEq_refl rest]
      simp

end

theorem identBEq_refl (i : Ident) : identBEq i i = true := by
  obtain ⟨n, s⟩ := i
  cases n <;> simp [identBEq, pyValBEq_refl]

theorem alookup_isSome_setk {α : Type} (m k : String) (v : α) (l : List (String × α))
    (h : (alookup m l).isSome = true) : (alookup m (setk l k v)).isSome = true := by
  by_cases hmk : m = k
  · subst hmk
    rw [alookup_setk]
    rfl
  · rw [alookup_setk_ne m k v (fun he => hmk he.symm)]
    exact h

theorem evolves_refl (dia : Dialect) (doc : PyVal) (s : BState) : evolves dia doc s s :=
  ⟨fun _ h => h, fun _ h => h⟩

theorem evolves_trans {dia : Dialect} {doc : PyVal} {s s2 s3 : BState}
    (h1 : evolves dia doc s s2) (h2 : evolves dia doc s2 s3) : evolves dia doc s s3 :=
  ⟨fun m hm => h2.1 m (h1.1 m hm), fun m hm => h2.2 m (h1.2 m hm)⟩

theorem evolves_register (dia : Dialect) (doc : PyVal) (n : Option String)
    (ti : SchemaBasedTypeInfo) (s : BState) : evolves dia doc s (registerIfNamed n ti s) := by
  cases n with
  | none => exact evolves_refl dia doc s
  | some n0 =>
      constructor
      · intro m hm
        exact alookup_isSome_setk m n0 ti s.schema_name_to_type_info hm
      · intro m hm
        simp only [navail, Bool.or_eq_true] at hm ⊢
        cases hm with
        | inl hr => exact Or.inl (alookup_isSome_setk m n0 ti s.schema_name_to_type_info hr)
        | inr hv => exact Or.inr hv

theorem evolves_classes (dia : Dialect) (doc : PyVal) (s : BState)
    (c : List (String × ClassInfo)) : evolves dia doc s { s with classes := c } :=
  ⟨fun _ h => h, fun _ h => h⟩

theorem resolvingHas_mono_cons (res : List Ident) (i j : Ident)
    (h : resolvingHas res j = true) : resolvingHas (i :: res) j = true := by
  simp only [resolvingHas, List.any_cons, Bool.or_eq_true] at h ⊢
  exact Or.inr h

theorem evolves_entry (dia : Dialect) (doc : PyVal) (s : BState) (t : List TraceEntry)
    (res : List Ident)
    (hres : res = s.schemas_being_parsed ∨ ∃ i, res = i :: s.schemas_being_parsed) :
    evolves dia doc s { s with trace := t, schemas_being_parsed := res } := by
  constructor
  · intro m hm
    exact hm
  · intro m hm
    simp only [navail, Bool.or_eq_true] at hm ⊢
    cases hm with
    | inl hr => exact Or.inl hr
    | inr hv =>
        refine Or.inr ?_
        cases hres with
        | inl he => rw [he]; exact hv
        | inr he =>
            obtain ⟨i, he⟩ := he
            rw [he]
            exact resolvingHas_mono_cons _ _ _ hv

theorem evolves_exitRemove (dia : Dialect) (doc : PyVal) (s : BState) (i : Ident)
    (hreg : ∀ n, i.1 = some n → (alookup n s.schema_name_to_type_info).isSome = true) :
    evolves dia doc s { s with schemas_being_parsed :=
      s.schemas_being_parsed.filter (fun j => !identBEq j i) } := by
  constructor
  · intro m hm
    exact hm
  · intro m hm
    simp only [navail, Bool.or_eq_true] at hm ⊢
    cases hm with
    | inl hr => exact Or.inl hr
    | inr hv =>
        simp only [resolvingHas, List.any_eq_true] at hv
        obtain ⟨j, hjmem, hj⟩ := hv
        by_cases hji : identBEq j i = true
        · refine Or.inl ?_
          obtain ⟨jn, jv⟩ := j
          obtain ⟨inm, iv⟩ := i
          simp only [identBEq, identOfName, Bool.and_eq_true] at hj hji
          cases jn with
          | none => simp at hj
          | some x =>
              cases inm with
              | none => simp at hji
              | some y =>
                  have hxm : x = m := by simpa using hj.1
                  have hxy : x = y := by simpa using hji.1
                  rw [← hxm, hxy]
                  exact hreg y rfl
        · refine Or.inr ?_
          simp only [resolvingHas, List.any_eq_true]
          refine ⟨j, List.mem_filter.mpr ⟨hjmem, by simp [hji]⟩, hj⟩

theorem evolves_getTypeF (dia : Dialect) (doc : PyVal) (recB : BuildFun)
    (name : String) (st : BState) (stack : List Ident) (hrec : BEvolves dia doc recB)
    (r : SchemaBasedTypeInfo × BState)
    (h : getTypeF dia doc recB name st stack = .ok r) : evolves dia doc st r.2 := by
  unfold getTypeF at h
  split at h
  · cases h
    exact evolves_refl dia doc st
  · cases hg : get_schema dia doc name with
    | error e =>
        rw [hg] at h
        simp only [Except.instMonad, Except.bind] at h
        exact Except.noConfusion h
    | ok schema =>
        rw [hg] at h
        simp only [Except.instMonad, Except.bind] at h
        cases hb : recB schema (some name) true st stack with
        | error e =>
            rw [hb] at h
            simp only [Except.instMonad, Except.bind] at h
            exact Except.noConfusion h
        | ok r1 =>
            rw [hb] at h
            simp only [Except.instMonad, Except.bind] at h
            have h1 := hrec _ _ _ _ _ _ hb
            split at h
            · cases h
              exact h1
            · exact Except.noConfusion h

theorem evolves_ref (dia : Dialect) (doc : PyVal) (recB : BuildFun)
    (schema : PyVal) (required : Bool) (st : BState) (stack : List Ident)
    (hrec : BEvolves dia doc recB)
    (r : Option SchemaBasedTypeInfo × BState)
    (h : ref_build_type dia doc recB schema required st stack = .ok r) :
    evolves dia doc st r.2 := by
  unfold ref_build_type at h
  split at h
  · split at h
    · cases hp : parse_schema_name dia _ with
      | error e =>
          rw [hp] at h
          simp only [Except.instMonad, Except.bind] at h
          exact Except.noConfusion h
      | ok schema_name =>
          rw [hp] at h
          simp only [Except.instMonad, Except.bind] at h
          cases hx : schema_exists dia doc schema_name with
          | error e =>
              rw [hx] at h
              simp only [Except.instMonad, Except.bind] at h
              exact Except.noConfusion h
          | ok ex =>
              rw [hx] at h
              simp only [Except.instMonad, Except.bind] at h
              split at h
              · cases hgt : getTypeF dia doc recB schema_name st stack with
                | error e =>
                    rw [hgt] at h
                    simp only [Except.instMonad, Except.bind] at h
                    exact Except.noConfusion h
                | ok r1 =>
                    rw [hgt] at h
                    simp only [Except.instMonad, Except.bind] at h
                    cases h
                    exact evolves_getTypeF dia doc recB schema_name st stack hrec r1 hgt
              · exact Except.noConfusion h
    · exact Except.noConfusion h
    · cases h
      exact evolves_refl dia doc st
  · cases h
    exact evolves_refl dia doc st

theorem evolves_try_build (dia : Dialect) (doc : PyVal) (recB : BuildFun) (schema : PyVal)
    (st : BState) (stack : List Ident) (hrec : BEvolves dia doc recB)
    (r : Option SchemaBasedTypeInfo × BState)
    (h : try_build_additional_property_type recB schema st stack = .ok r) :
    evolves dia doc st r.2 := by
  unfold try_build_additional_property_type at h
  split at h
  · split at h
    · split at h
      · rename_i kvs htype pat apkvs hpat
        cases hb : recB (PyVal.vdict [("oneOf", PyVal.vlist (apkvs.map Prod.snd))])
            none true st stack with
        | error e =>
            simp only [hb, Except.instMonad, Except.bind] at h
            exact Except.noConfusion h
        | ok r1 =>
            simp only [hb, Except.instMonad, Except.bind] at h
            cases h
            exact hrec _ _ _ _ _ _ hb
      · split at h
        · rename_i kvs htype pat hpat ap apkvs hap
          cases hb : recB (PyVal.vdict apkvs) none true st stack with
          | error e =>
              simp only [hb, Except.instMonad, Except.bind] at h
              exact Except.noConfusion h
          | ok r1 =>
              simp only [hb, Except.instMonad, Except.bind] at h
              cases h
              exact hrec _ _ _ _ _ _ hb
        · cases h
          exact evolves_refl dia doc st
    · cases h
      exact evolves_refl dia doc st
  · cases h
    exact evolves_refl dia doc st

theorem evolves_props_fold (dia : Dialect) (doc : PyVal) (recB : BuildFun)
    (requiredv : PyVal) (hrec : BEvolves dia doc recB) :
    ∀ (props : List (String × PyVal)) (lm : List (String × String))
      (pm : List (String × SchemaBasedTypeInfo)) (st : BState) (stack : List Ident)
      (r : List (String × String) × List (String × SchemaBasedTypeInfo) × BState),
      custom_props_fold recB requiredv props lm pm st stack = .ok r →
      evolves dia doc st r.2.2 := by
  intro props
  induction props with
  | nil =>
      intro lm pm st stack r h
      unfold custom_props_fold at h
      cases h
      exact evolves_refl dia doc st
  | cons kv rest ih =>
      intro lm pm st stack r h
      obtain ⟨pname, pschema⟩ := kv
      unfold custom_props_fold at h
      cases hq : requiredContains requiredv pname with
      | error e =>
          simp only [hq, Except.instMonad, Except.bind] at h
          exact Except.noConfusion h
      | ok req =>
          simp only [hq, Except.instMonad, Except.bind] at h
          cases hb : recB pschema none req st stack with
          | error e =>
              simp only [hb, Except.instMonad, Except.bind] at h
              exact Except.noConfusion h
          | ok r1 =>
              simp only [hb, Except.instMonad, Except.bind] at h
              exact evolves_trans (hrec _ _ _ _ _ _ hb) (ih _ _ _ _ _ h)

theorem evolves_custom_on_defined (dia : Dialect) (doc : PyVal) (recB : BuildFun)
    (schema : PyVal) (n : String) (st : BState) (stack : List Ident)
    (hrec : BEvolves dia doc recB)
    (st2 : BState) (h : custom_on_type_defined recB schema n st stack = .ok st2) :
    evolves dia doc st st2 := by
  unfold custom_on_type_defined at h
  cases ha : try_build_additional_property_type recB schema st stack with
  | error e =>
      simp only [ha, Except.instMonad, Except.bind] at h
      exact Except.noConfusion h
  | ok ra =>
      simp only [ha, Except.instMonad, Except.bind] at h
      have hra := evolves_try_build dia doc recB schema st stack hrec ra ha
      split at h
      · split at h
        · rename_i kvs pv propkvs hprop
          cases hf : custom_props_fold recB
              (match alookup "required" kvs with | some v => v | none => .vlist [])
              propkvs [] [] ra.2 stack with
          | error e =>
              simp only [hf, Except.instMonad, Except.bind] at h
              exact Except.noConfusion h
          | ok rf =>
              simp only [hf, Except.instMonad, Except.bind] at h
              cases h
              refine evolves_trans hra (evolves_trans
                (evolves_props_fold dia doc recB _ hrec _ _ _ _ _ _ hf) ?_)
              exact evolves_classes dia doc _ _
        · exact Except.noConfusion h
        · exact Except.noConfusion h
      · exact Except.noConfusion h

theorem evolves_sub_types (dia : Dialect) (doc : PyVal) (recB : BuildFun)
    (hrec : BEvolves dia doc recB) :
    ∀ (subs : List PyVal) (st : BState) (stack : List Ident)
      (r : List SchemaBasedTypeInfo × BState),
      build_sub_types recB subs st stack = .ok r → evolves dia doc st r.2 := by
  intro subs
  induction subs with
  | nil =>
      intro st stack r h
      unfold build_sub_types at h
      cases h
      exact evolves_refl dia doc st
  | cons s rest ih =>
      intro st stack r h
      unfold build_sub_types at h
      cases hb : recB s none true st stack with
      | error e =>
          simp only [hb, Except.instMonad, Except.bind] at h
          exact Except.noConfusion h
      | ok r1 =>
          simp only [hb, Except.instMonad, Except.bind] at h
          cases hr : build_sub_types recB rest r1.2 stack with
          | error e =>
              simp only [hr, Except.instMonad, Except.bind] at h
              exact Except.noConfusion h
          | ok rr =>
              simp only [hr, Except.instMonad, Except.bind] at h
              cases h
              exact evolves_trans (hrec _ _ _ _ _ _ hb) (ih r1.2 stack rr hr)

theorem evolves_one_of (dia : Dialect) (doc : PyVal) (recB : BuildFun) (schema : PyVal)
    (required : Bool) (st : BState) (stack : List Ident) (hrec : BEvolves dia doc recB)
    (r : Option SchemaBasedTypeInfo × BState)
    (h : one_of_build_type recB schema required st stack = .ok r) :
    evolves dia doc st r.2 := by
  unfold one_of_build_type at h
  split at h
  · split at h
    · rename_i kvs ov hov
      cases hi : pyIter ov with
      | error e =>
          simp only [hi, Except.instMonad, Except.bind] at h
          exact Except.noConfusion h
      | ok subs =>
          simp only [hi, Except.instMonad, Except.bind] at h
          cases hb : build_sub_types recB subs st stack with
          | error e =>
              simp only [hb, Except.instMonad, Except.bind] at h
              exact Except.noConfusion h
          | ok r1 =>
              simp only [hb, Except.instMonad, Except.bind] at h
              cases h
              exact evolves_sub_types dia doc recB hrec subs st stack r1 hb
    · cases h
      exact evolves_refl dia doc st
  · cases h
    exact evolves_refl dia doc st

theorem evolves_array (dia : Dialect) (doc : PyVal) (recB : BuildFun) (schema : PyVal)
    (required : Bool) (st : BState) (stack : List Ident) (hrec : BEvolves dia doc recB)
    (r : Option SchemaBasedTypeInfo × BState)
    (h : array_build_type recB schema required st stack = .ok r) :
    evolves dia doc st r.2 := by
  unfold array_build_type at h
  split at h
  · rename_i kvs
    split at h
    · split at h
      · cases hit : alookup "items" kvs with
        | none =>
            simp only [hit, Except.instMonad, Except.bind] at h
            exact Except.noConfusion h
        | some items =>
            simp only [hit, Except.instMonad, Except.bind] at h
            cases hb : recB items none true st stack with
            | error e =>
                simp only [hb, Except.instMonad, Except.bind] at h
                exact Except.noConfusion h
            | ok r1 =>
                simp only [hb, Except.instMonad, Except.bind] at h
                cases h
                exact hrec _ _ _ _ _ _ hb
      · cases h
        exact evolves_refl dia doc st
    · cases h
      exact evolves_refl dia doc st
  · cases h
    exact evolves_refl dia doc st

theorem evolves_dict (dia : Dialect) (doc : PyVal) (recB : BuildFun) (schema : PyVal)
    (required : Bool) (st : BState) (stack : List Ident) (hrec : BEvolves dia doc recB)
    (r : Option SchemaBasedTypeInfo × BState)
    (h : dict_build_type recB schema required st stack = .ok r) :
    evolves dia doc st r.2 := by
  unfold dict_build_type at h
  split at h
  · rename_i kvs
    split at h
    · cases ha : try_build_additional_property_type recB (PyVal.vdict kvs) st stack with
      | error e =>
          simp only [ha, Except.instMonad, Except.bind] at h
          exact Except.noConfusion h
      | ok ra =>
          simp only [ha, Except.instMonad, Except.bind] at h
          have hra := evolves_try_build dia doc recB (PyVal.vdict kvs) st stack hrec ra ha
          split at h
          · cases h
            exact hra
          · cases h
            exact hra
    · cases h
      exact evolves_refl dia doc st
  · cases h
    exact evolves_refl dia doc st

theorem evolves_runChainF (dia : Dialect) (doc : PyVal) (recB : BuildFun)
    (schema : PyVal) (name : Option String) (required : Bool)
    (st : BState) (stack : List Ident) (hrec : BEvolves dia doc recB)
    (r : SchemaBasedTypeInfo × BState)
    (h : runChainF dia doc recB schema name required st stack = .ok r) :
    evolves dia doc st r.2 := by
  unfold runChainF at h
  cases h1 : ref_build_type dia doc recB schema required st stack with
  | error e =>
      simp only [h1, Except.instMonad, Except.bind] at h
      exact Except.noConfusion h
  | ok r1 =>
      simp only [h1, Except.instMonad, Except.bind] at h
      have hp1 := evolves_ref dia doc recB schema required st stack hrec r1 h1
      cases hx1 : r1.1 with
      | some ti =>
          simp only [hx1] at h
          cases h
          exact evolves_trans hp1 (evolves_register dia doc name ti r1.2)
      | none =>
          simp only [hx1] at h
          cases hc : custom_build_type schema name with
          | some ti =>
              simp only [hc] at h
              cases h2 : custom_on_type_defined recB schema ti.type_str
                  (registerIfNamed name ti r1.2) stack with
              | error e =>
                  simp only [h2, Except.instMonad, Except.bind] at h
                  exact Except.noConfusion h
              | ok stc =>
                  simp only [h2, Except.instMonad, Except.bind] at h
                  cases h
                  exact evolves_trans hp1 (evolves_trans
                    (evolves_register dia doc name ti r1.2)
                    (evolves_custom_on_defined dia doc recB schema ti.type_str
                      (registerIfNamed name ti r1.2) stack hrec stc h2))
          | none =>
              simp only [hc] at h
              cases h3 : one_of_build_type recB schema required r1.2 stack with
              | error e =>
                  simp only [h3, Except.instMonad, Except.bind] at h
                  exact Except.noConfusion h
              | ok r3 =>
                  simp only [h3, Except.instMonad, Except.bind] at h
                  have hp3 := evolves_trans hp1
                    (evolves_one_of dia doc recB schema required r1.2 stack hrec r3 h3)
                  cases hx3 : r3.1 with
                  | some ti =>
                      simp only [hx3] at h
                      cases h
                      exact evolves_trans hp3 (evolves_register dia doc name ti r3.2)
                  | none =>
                      simp only [hx3] at h
                      cases h4 : array_build_type recB schema required r3.2 stack with
                      | error e =>
                          simp only [h4, Except.instMonad, Except.bind] at h
                          exact Except.noConfusion h
                      | ok r4 =>
                          simp only [h4, Except.instMonad, Except.bind] at h
                          have hp4 := evolves_trans hp3
                            (evolves_array dia doc recB schema required r3.2 stack hrec r4 h4)
                          cases hx4 : r4.1 with
                          | some ti =>
                              simp only [hx4] at h
                              cases h
                              exact evolves_trans hp4 (evolves_register dia doc name ti r4.2)
                          | none =>
                              simp only [hx4] at h
                              cases h5 : dict_build_type recB schema required r4.2 stack with
                              | error e =>
                                  simp only [h5, Except.instMonad, Except.bind] at h
                                  exact Except.noConfusion h
                              | ok r5 =>
                                  simp only [h5, Except.instMonad, Except.bind] at h
                                  have hp5 := evolves_trans hp4
                                    (evolves_dict dia doc recB schema required r4.2 stack
                                      hrec r5 h5)
                                  cases hx5 : r5.1 with
                                  | some ti =>
                                      simp only [hx5] at h
                                      cases h
                                      exact evolves_trans hp5
                                        (evolves_register dia doc name ti r5.2)
                                  | none =>
                                      simp only [hx5] at h
                                      cases h6 : simple_build_type schema required with
                                      | error e =>
                                          simp only [h6, Except.instMonad, Except.bind] at h
                                          exact Except.noConfusion h
                                      | ok ti =>
                                          simp only [h6, Except.instMonad, Except.bind] at h
                                          cases h
                                          exact evolves_trans hp5
                                            (evolves_register dia doc name ti r5.2)

theorem register_some (n : String) (ti : SchemaBasedTypeInfo) (st : BState) :
    (alookup n (registerIfNamed (some n) ti st).schema_name_to_type_info).isSome = true := by
  show (alookup n (setk st.schema_name_to_type_info n ti)).isSome = true
  rw [alookup_setk]
  rfl

theorem runChain_registers (dia : Dialect) (doc : PyVal) (recB : BuildFun)
    (schema : PyVal) (n : String) (required : Bool)
    (st : BState) (stack : List Ident) (hrec : BEvolves dia doc recB)
    (r : SchemaBasedTypeInfo × BState)
    (h : runChainF dia doc recB schema (some n) required st stack = .ok r) :
    (alookup n r.2.schema_name_to_type_info).isSome = true := by
  unfold runChainF at h
  cases h1 : ref_build_type dia doc recB schema required st stack with
  | error e =>
      simp only [h1, Except.instMonad, Except.bind] at h
      exact Except.noConfusion h
  | ok r1 =>
      simp only [h1, Except.instMonad, Except.bind] at h
      cases hx1 : r1.1 with
      | some ti =>
          simp only [hx1] at h
          cases h
          exact register_some n ti r1.2
      | none =>
          simp only [hx1] at h
          cases hc : custom_build_type schema (some n) with
          | some ti =>
              simp only [hc] at h
              cases h2 : custom_on_type_defined recB schema ti.type_str
                  (registerIfNamed (some n) ti r1.2) stack with
              | error e =>
                  simp only [h2, Except.instMonad, Except.bind] at h
                  exact Except.noConfusion h
              | ok stc =>
                  simp only [h2, Except.instMonad, Except.bind] at h
                  cases h
                  exact (evolves_custom_on_defined dia doc recB schema ti.type_str
                    (registerIfNamed (some n) ti r1.2) stack hrec stc h2).1 n
                    (register_some n ti r1.2)
          | none =>
              simp only [hc] at h
              cases h3 : one_of_build_type recB schema required r1.2 stack with
              | error e =>
                  simp only [h3, Except.instMonad, Except.bind] at h
                  exact Except.noConfusion h
              | ok r3 =>
                  simp only [h3, Except.instMonad, Except.bind] at h
                  cases hx3 : r3.1 with
                  | some ti =>
                      simp only [hx3] at h
                      cases h
                      exact register_some n ti r3.2
                  | none =>
                      simp only [hx3] at h
                      cases h4 : array_build_type recB schema required r3.2 stack with
                      | error e =>
                          simp only [h4, Except.instMonad, Except.bind] at h
                          exact Except.noConfusion h
                      | ok r4 =>
                          simp only [h4, Except.instMonad, Except.bind] at h
                          cases hx4 : r4.1 with
                          | some ti =>
                              simp only [hx4] at h
                              cases h
                              exact register_some n ti r4.2
                          | none =>
                              simp only [hx4] at h
                              cases h5 : dict_build_type recB schema required r4.2 stack with
                              | error e =>
                                  simp only [h5, Except.instMonad, Except.bind] at h
                                  exact Except.noConfusion h
                              | ok r5 =>
                                  simp only [h5, Except.instMonad, Except.bind] at h
                                  cases hx5 : r5.1 with
                                  | some ti =>
                                      simp only [hx5] at h
                                      cases h
                                      exact register_some n ti r5.2
                                  | none =>
                                      simp only [hx5] at h
                                      cases h6 : simple_build_type schema required with
                                      | error e =>
                                          simp only [h6, Except.instMonad,
                                            Except.bind] at h
                                          exact Except.noConfusion h
                                      | ok ti =>
                                          simp only [h6, Except.instMonad,
                                            Except.bind] at h
                                          cases h
                                          exact register_some n ti r5.2

theorem evolves_exitCond (dia : Dialect) (doc : PyVal) (s : BState) (i : Ident)
    (hreg : ∀ n, i.1 = some n → (alookup n s.schema_name_to_type_info).isSome = true) :
    evolves dia doc s (if resolvingHas s.schemas_being_parsed i = true then
        { s with schemas_being_parsed := s.schemas_being_parsed.filter (fun j => !identBEq j i) }
      else s) := by
  split
  · exact evolves_exitRemove dia doc s i hreg
  · exact evolves_refl dia doc s

theorem evolves_core (dia : Dialect) (doc : PyVal) (recB : BuildFun)
    (schema : PyVal) (name : Option String) (required : Bool)
    (st : BState) (stack : List Ident) (hrec : BEvolves dia doc recB)
    (r : SchemaBasedTypeInfo × BState)
    (h : buildAndDefineCore dia doc recB schema name required st stack = .ok r) :
    evolves dia doc st r.2 := by
  unfold buildAndDefineCore at h
  simp only [Except.instMonad, Except.bind] at h
  cases hre : resolvingHas st.schemas_being_parsed (name, schema) with
  | true =>
      simp only [hre] at h
      cases hs : simple_build_type schema required with
      | error e =>
          simp only [hs] at h
          exact Except.noConfusion h
      | ok v =>
          simp only [hs] at h
          cases h
          refine evolves_trans (evolves_entry dia doc st
            (st.trace ++ [(⟨(name, schema), st.schemas_being_parsed, stack,
              true⟩ : TraceEntry)]) st.schemas_being_parsed (Or.inl rfl)) ?_
          refine evolves_trans (evolves_register dia doc name v _) ?_
          refine evolves_exitCond dia doc _ (name, schema) ?_
          intro n hn
          cases name with
          | none => exact Option.noConfusion hn
          | some n0 =>
              cases hn
              exact register_some n v _
  | false =>
      simp only [hre, Bool.false_eq_true, if_false] at h
      cases hC : runChainF dia doc recB schema name required
          { schema_name_to_type_info := st.schema_name_to_type_info, classes := st.classes,
            schemas_being_parsed := (name, schema) :: st.schemas_being_parsed,
            trace := st.trace ++
              [{ ident := (name, schema), resolvingAtEntry := st.schemas_being_parsed,
                 stackAtEntry := stack, simpleOnly := false }] }
          ((name, schema) :: stack) with
      | error e =>
          simp only [hC] at h
          exact Except.noConfusion h
      | ok v =>
          simp only [hC] at h
          cases h
          refine evolves_trans (evolves_entry dia doc st
            (st.trace ++ [(⟨(name, schema), st.schemas_being_parsed, stack,
              false⟩ : TraceEntry)])
            ((name, schema) :: st.schemas_being_parsed)
            (Or.inr ⟨(name, schema), rfl⟩)) ?_
          refine evolves_trans (evolves_runChainF dia doc recB schema name required _ _
            hrec v hC) ?_
          refine evolves_exitCond dia doc _ (name, schema) ?_
          intro n hn
          cases name with
          | none => exact Option.noConfusion hn
          | some n0 =>
              cases hn
              exact runChain_registers dia doc recB schema n required _ _ hrec v hC

theorem evolves_F (dia : Dialect) (doc : PyVal) (recB : BuildFun)
    (schema : PyVal) (name : Option String) (required : Bool)
    (st : BState) (stack : List Ident) (hrec : BEvolves dia doc recB)
    (r : SchemaBasedTypeInfo × BState)
    (h : buildAndDefineF dia doc recB schema name required st stack = .ok r) :
    evolves dia doc st r.2 := by
  unfold buildAndDefineF at h
  split at h
  · split at h
    · exact Except.noConfusion h
    · exact evolves_core dia doc recB schema _ required st stack hrec r h
  · exact evolves_core dia doc recB schema _ required st stack hrec r h

theorem evolves_ladder (dia : Dialect) (doc : PyVal) :
    ∀ fuel, BEvolves dia doc (buildAndDefine dia doc fuel) := by
  intro fuel
  induction fuel with
  | zero =>
      intro schema name required st stack r h
      exact Except.noConfusion h
  | succ n ih =>
      intro schema name required st stack r h
      exact evolves_F dia doc (buildAndDefine dia doc n) schema name required st stack ih r h

theorem filter_mono_length {α : Type} (p q : α → Bool)
    (hpq : ∀ a, p a = true → q a = true) :
    ∀ l : List α, (l.filter p).length ≤ (l.filter q).length := by
  intro l
  induction l with
  | nil => exact Nat.le_refl 0
  | cons a rest ih =>
      simp only [List.filter_cons]
      cases hp : p a with
      | true =>
          rw [hpq a hp]
          simpa using Nat.succ_le_succ ih
      | false =>
          cases hq : q a with
          | true => simpa using Nat.le_succ_of_le ih
          | false => simpa using ih

theorem filter_decrement {α : Type} (p q : α → Bool) (a : α)
    (hpq : ∀ x, p x = true → q x = true) (hqa : q a = true) (hpa : p a = false) :
    ∀ l : List α, a ∈ l → (l.filter p).length + 1 ≤ (l.filter q).length := by
  intro l
  induction l with
  | nil => intro hmem; cases hmem
  | cons b rest ih =>
      intro hmem
      simp only [List.filter_cons]
      cases hmem with
      | head =>
          rw [hpa, hqa]
          simpa using Nat.succ_le_succ (filter_mono_length p q hpq rest)
      | tail _ hmem2 =>
          cases hp : p b with
          | true =>
              rw [hpq b hp]
              simpa using Nat.succ_le_succ (ih hmem2)
          | false =>
              cases hq : q b with
              | true => simpa using Nat.le_succ_of_le (ih hmem2)
              | false => simpa using ih hmem2

theorem availCount_le_names (dia : Dialect) (doc : PyVal) (st : BState) (excl : Ident) :
    availCount dia doc st excl ≤ (docNames dia doc).length :=
  List.length_filter_le _ _

theorem mem_sizeP (k : String) (v : PyVal) :
    ∀ kvs : List (String × PyVal), (k, v) ∈ kvs → sizeS v + 1 ≤ sizeP kvs := by
  intro kvs
  induction kvs with
  | nil => intro hmem; cases hmem
  | cons kv rest ih =>
      intro hmem
      obtain ⟨k0, v0⟩ := kv
      cases hmem with
      | head =>
          simp only [sizeP]
          omega
      | tail _ hmem2 =>
          have := ih hmem2
          simp only [sizeP]
          omega

theorem alookup_sizeP (k : String) (v : PyVal) (kvs : List (String × PyVal))
    (h : alookup k kvs = some v) : sizeS v + 1 ≤ sizeP kvs :=
  mem_sizeP k v kvs (alookup_mem h)

theorem alookup_sizeS (k : String) (v : PyVal) (kvs : List (String × PyVal))
    (h : alookup k kvs = some v) : sizeS v < sizeS (.vdict kvs) := by
  have := alookup_sizeP k v kvs h
  simp only [sizeS]
  omega

theorem mem_sizeL (x : PyVal) :
    ∀ xs : List PyVal, x ∈ xs → sizeS x ≤ sizeL xs := by
  intro xs
  induction xs with
  | nil => intro hmem; cases hmem
  | cons y rest ih =>
      intro hmem
      cases hmem with
      | head => simp only [sizeL]; omega
      | tail _ hmem2 =>
          have := ih hmem2
          simp only [sizeL]
          omega

theorem mapsnd_sizeL : ∀ kvs : List (String × PyVal), sizeL (kvs.map Prod.snd) ≤ sizeP kvs := by
  intro kvs
  induction kvs with
  | nil => exact Nat.le_refl 0
  | cons kv rest ih =>
      obtain ⟨k, v⟩ := kv
      simp only [List.map_cons, sizeL, sizeP]
      omega

theorem sizeS_pos : ∀ v : PyVal, 1 ≤ sizeS v := by
  intro v
  cases v <;> simp only [sizeS] <;> omega

theorem pyIter_size (v : PyVal) (subs : List PyVal) (h : pyIter v = .ok subs) :
    ∀ s ∈ subs, sizeS s ≤ sizeS v := by
  cases v with
  | vlist xs =>
      simp only [pyIter] at h
      cases h
      intro s hs
      have := mem_sizeL s subs hs
      simp only [sizeS]
      omega
  | vdict kvs =>
      simp only [pyIter] at h
      cases h
      intro s hs
      simp only [List.mem_map] at hs
      obtain ⟨kv, _, hkv⟩ := hs
      rw [← hkv]
      simp only [sizeS]
      omega
  | vstr str =>
      simp only [pyIter] at h
      cases h
      intro s hs
      simp only [List.mem_map] at hs
      obtain ⟨c, _, hc⟩ := hs
      rw [← hc]
      simp [sizeS]
  | vnone => exact Except.noConfusion h
  | vbool b => exact Except.noConfusion h
  | vint n => exact Except.noConfusion h
  | vfloat q => exact Except.noConfusion h
  | vobj c props => exact Except.noConfusion h

theorem alookup_two_sizeP (k1 k2 : String) (v1 v2 : PyVal) (hk : k1 ≠ k2) :
    ∀ kvs : List (String × PyVal), alookup k1 kvs = some v1 → alookup k2 kvs = some v2 →
      sizeS v1 + sizeS v2 + 2 ≤ sizeP kvs := by
  intro kvs
  induction kvs with
  | nil => intro h1; exact Option.noConfusion h1
  | cons kv rest ih =>
      intro h1 h2
      obtain ⟨k0, v0⟩ := kv
      by_cases hk01 : k0 = k1
      · subst hk01
        simp only [alookup, if_pos rfl] at h1
        cases h1
        have hne : ¬(k0 = k2) := hk
        simp only [alookup, if_neg hne] at h2
        have := alookup_sizeP k2 v2 rest h2
        simp only [sizeP]
        omega
      · simp only [alookup, if_neg hk01] at h1
        by_cases hk02 : k0 = k2
        · subst hk02
          simp only [alookup, if_pos rfl] at h2
          cases h2
          have := alookup_sizeP k1 v1 rest h1
          simp only [sizeP]
          omega
        · simp only [alookup, if_neg hk02] at h2
          have := ih h1 h2
          simp only [sizeP]
          omega

theorem pyGetItem_size (v : PyVal) (k : String) (w : PyVal) (h : pyGetItem v k = .ok w) :
    sizeS w ≤ sizeS v := by
  cases v with
  | vdict kvs =>
      simp only [pyGetItem] at h
      cases ha : alookup k kvs with
      | none =>
          rw [ha] at h
          exact Except.noConfusion h
      | some w0 =>
          rw [ha] at h
          cases h
          exact Nat.le_of_lt (alookup_sizeS k w kvs ha)
  | vnone => exact Except.noConfusion h
  | vbool b => exact Except.noConfusion h
  | vint n => exact Except.noConfusion h
  | vfloat q => exact Except.noConfusion h
  | vstr s2 => exact Except.noConfusion h
  | vlist xs => exact Except.noConfusion h
  | vobj c props => exact Except.noConfusion h

theorem get_schema_size (dia : Dialect) (doc : PyVal) (m : String) (s : PyVal)
    (h : get_schema dia doc m = .ok s) : sizeS s ≤ sizeS doc := by
  cases dia with
  | openapi =>
      simp only [get_schema] at h
      cases hc : pyGetItem doc "components" with
      | error e =>
          rw [hc] at h
          simp only [Except.instMonad, Except.bind] at h
          exact Except.noConfusion h
      | ok cs =>
          rw [hc] at h
          simp only [Except.instMonad, Except.bind] at h
          cases hs : pyGetItem cs "schemas" with
          | error e =>
              rw [hs] at h
              simp only [Except.instMonad, Except.bind] at h
              exact Except.noConfusion h
          | ok ss =>
              rw [hs] at h
              simp only [Except.instMonad, Except.bind] at h
              have h1 := pyGetItem_size doc "components" cs hc
              have h2 := pyGetItem_size cs "schemas" ss hs
              have h3 := pyGetItem_size ss m s h
              omega
  | json_schema =>
      simp only [get_schema] at h
      split at h
      · cases h
        exact Nat.le_refl _
      · cases hd : pyGetItem doc "definitions" with
        | error e =>
            rw [hd] at h
            simp only [Except.instMonad, Except.bind] at h
            exact Except.noConfusion h
        | ok ds =>
            rw [hd] at h
            simp only [Except.instMonad, Except.bind] at h
            have h1 := pyGetItem_size doc "definitions" ds hd
            have h2 := pyGetItem_size ds m s h
            omega

theorem schema_exists_mem (dia : Dialect) (doc : PyVal) (m : String)
    (h : schema_exists dia doc m = .ok true) : m ∈ docNames dia doc := by
  unfold schema_exists at h
  cases hn : get_schema_names dia doc with
  | error e =>
      rw [hn] at h
      simp only [Except.instMonad, Except.bind] at h
      exact Except.noConfusion h
  | ok ns =>
      rw [hn] at h
      simp only [Except.instMonad, Except.bind] at h
      have hcon : ns.contains m = true := by
        have := congrArg (fun r => match r with
          | Except.ok b => b
          | Except.error _ => false) h
        simpa using this.symm
      unfold docNames
      rw [hn]
      rw [List.mem_dedup]
      exact List.elem_iff.mp hcon

theorem avail_cond_mono (dia : Dialect) (doc : PyVal) (st st1 st2 : BState)
    (name : Option String) (schema : PyVal) (excl2 : Ident)
    (h01 : ∀ m, navail dia doc st m = true → navail dia doc st1 m = true)
    (h12 : ∀ m, navail dia doc st1 m = true → navail dia doc st2 m = true)
    (hmem : (name, schema) ∈ st1.schemas_being_parsed) :
    ∀ m, (!navail dia doc st2 m && !identBEq excl2 (identOfName dia doc m)) = true →
      (!navail dia doc st m && !identBEq (name, schema) (identOfName dia doc m)) = true := by
  intro m hm
  simp only [Bool.and_eq_true, Bool.not_eq_true'] at hm ⊢
  constructor
  · cases hst : navail dia doc st m with
    | false => rfl
    | true =>
        have := h12 m (h01 m hst)
        rw [hm.1] at this
        exact Bool.noConfusion this
  · cases hid : identBEq (name, schema) (identOfName dia doc m) with
    | false => rfl
    | true =>
        have hres : resolvingHas st1.schemas_being_parsed (identOfName dia doc m) = true := by
          simp only [resolvingHas, List.any_eq_true]
          exact ⟨(name, schema), hmem, hid⟩
        have hnav1 : navail dia doc st1 m = true := by
          simp only [navail, Bool.or_eq_true]
          exact Or.inr hres
        have := h12 m hnav1
        rw [hm.1] at this
        exact Bool.noConfusion this

theorem availCount_sub (dia : Dialect) (doc : PyVal) (st st1 st2 : BState)
    (name : Option String) (schema : PyVal) (excl2 : Ident)
    (h01 : ∀ m, navail dia doc st m = true → navail dia doc st1 m = true)
    (h12 : ∀ m, navail dia doc st1 m = true → navail dia doc st2 m = true)
    (hmem : (name, schema) ∈ st1.schemas_being_parsed) :
    availCount dia doc st2 excl2 ≤ availCount dia doc st (name, schema) := by
  unfold availCount availNames
  exact filter_mono_length _ _
    (avail_cond_mono dia doc st st1 st2 name schema excl2 h01 h12 hmem) _

theorem availCount_named (dia : Dialect) (doc : PyVal) (st st1 st2 : BState)
    (name : Option String) (schema : PyVal) (sname : String)
    (h01 : ∀ m, navail dia doc st m = true → navail dia doc st1 m = true)
    (h12 : ∀ m, navail dia doc st1 m = true → navail dia doc st2 m = true)
    (hmem : (name, schema) ∈ st1.schemas_being_parsed)
    (hnav : navail dia doc st2 sname = false)
    (hdoc : sname ∈ docNames dia doc) :
    availCount dia doc st2 (some sname, schemaOfName dia doc sname) + 1 ≤
      availCount dia doc st (name, schema) := by
  unfold availCount availNames
  refine filter_decrement _ _ sname
    (avail_cond_mono dia doc st st1 st2 name schema _ h01 h12 hmem) ?_ ?_ _ hdoc
  · simp only [Bool.and_eq_true, Bool.not_eq_true']
    constructor
    · cases hst : navail dia doc st sname with
      | false => rfl
      | true =>
          have := h12 sname (h01 sname hst)
          rw [hnav] at this
          exact Bool.noConfusion this
    · cases hid : identBEq (name, schema) (identOfName dia doc sname) with
      | false => rfl
      | true =>
          have hres : resolvingHas st1.schemas_being_parsed (identOfName dia doc sname)
              = true := by
            simp only [resolvingHas, List.any_eq_true]
            exact ⟨(name, schema), hmem, hid⟩
          have hnav1 : navail dia doc st1 sname = true := by
            simp only [navail, Bool.or_eq_true]
            exact Or.inr hres
          have := h12 sname hnav1
          rw [hnav] at this
          exact Bool.noConfusion this
  · have : identBEq (some sname, schemaOfName dia doc sname)
        (identOfName dia doc sname) = true := identBEq_refl _
    rw [this]
    simp

theorem noFO_pyGetItem (v : PyVal) (k : String) :
    pyGetItem v k ≠ .error .fuelOut := by
  unfold pyGetItem
  split
  · split <;> simp
  · simp

theorem noFO_pyKeys (v : PyVal) : pyKeys v ≠ .error .fuelOut := by
  unfold pyKeys
  split <;> simp

theorem noFO_pyIter (v : PyVal) : pyIter v ≠ .error .fuelOut := by
  unfold pyIter
  split <;> simp

theorem noFO_requiredContains (v : PyVal) (k : String) :
    requiredContains v k ≠ .error .fuelOut := by
  unfold requiredContains
  split <;> simp

theorem noFO_parse (dia : Dialect) (s : String) :
    parse_schema_name dia s ≠ .error .fuelOut := by
  cases parse_schema_name_shape dia s with
  | inl hok =>
      obtain ⟨n, hn⟩ := hok
      rw [hn]
      simp
  | inr herr =>
      rw [herr]
      simp

theorem noFO_get_schema_names (dia : Dialect) (doc : PyVal) :
    get_schema_names dia doc ≠ .error .fuelOut := by
  cases dia with
  | openapi =>
      simp only [get_schema_names]
      cases hc : pyGetItem doc "components" with
      | error e =>
          simp only [hc, Except.instMonad, Except.bind]
          intro hcontra
          cases hcontra
          exact absurd hc (noFO_pyGetItem doc "components")
      | ok cs =>
          simp only [hc, Except.instMonad, Except.bind]
          cases hs : pyGetItem cs "schemas" with
          | error e =>
              simp only [hs, Except.instMonad, Except.bind]
              intro hcontra
              cases hcontra
              exact absurd hs (noFO_pyGetItem cs "schemas")
          | ok ss =>
              simp only [hs, Except.instMonad, Except.bind]
              intro hcontra
              exact absurd hcontra (noFO_pyKeys ss)
  | json_schema =>
      simp only [get_schema_names]
      cases hd : pyGetItem doc "definitions" with
      | error e =>
          simp only [hd, Except.instMonad, Except.bind]
          intro hcontra
          cases hcontra
          exact absurd hd (noFO_pyGetItem doc "definitions")
      | ok ds =>
          simp only [hd, Except.instMonad, Except.bind]
          cases hk : pyKeys ds with
          | error e =>
              simp only [hk, Except.instMonad, Except.bind]
              intro hcontra
              cases hcontra
              exact absurd hk (noFO_pyKeys ds)
          | ok ks =>
              simp only [hk, Except.instMonad, Except.bind]
              simp

theorem noFO_get_schema (dia : Dialect) (doc : PyVal) (m : String) :
    get_schema dia doc m ≠ .error .fuelOut := by
  cases dia with
  | openapi =>
      simp only [get_schema]
      cases hc : pyGetItem doc "components" with
      | error e =>
          simp only [hc, Except.instMonad, Except.bind]
          intro hcontra
          cases hcontra
          exact absurd hc (noFO_pyGetItem doc "components")
      | ok cs =>
          simp only [hc, Except.instMonad, Except.bind]
          cases hs : pyGetItem cs "schemas" with
          | error e =>
              simp only [hs, Except.instMonad, Except.bind]
              intro hcontra
              cases hcontra
              exact absurd hs (noFO_pyGetItem cs "schemas")
          | ok ss =>
              simp only [hs, Except.instMonad, Except.bind]
              exact noFO_pyGetItem ss m
  | json_schema =>
      simp only [get_schema]
      split
      · simp
      · cases hd : pyGetItem doc "definitions" with
        | error e =>
            simp only [hd, Except.instMonad, Except.bind]
            intro hcontra
            cases hcontra
            exact absurd hd (noFO_pyGetItem doc "definitions")
        | ok ds =>
            simp only [hd, Except.instMonad, Except.bind]
            exact noFO_pyGetItem ds m

theorem noFO_schema_exists (dia : Dialect) (doc : PyVal) (m : String) :
    schema_exists dia doc m ≠ .error .fuelOut := by
  unfold schema_exists
  cases hn : get_schema_names dia doc with
  | error e =>
      simp only [hn, Except.instMonad, Except.bind]
      intro hcontra
      cases hcontra
      exact absurd hn (noFO_get_schema_names dia doc)
  | ok ns =>
      simp only [hn, Except.instMonad, Except.bind]
      simp

theorem noFO_simple (schema : PyVal) (required : Bool) :
    simple_build_type schema required ≠ .error .fuelOut := by
  unfold simple_build_type
  split
  · split
    · simp
    · split
      · simp
      · split <;> simp
  · simp

theorem noFO_getTypeF (dia : Dialect) (doc : PyVal) (recB : BuildFun) (st0 : BState)
    (name : String) (st : BState) (stack : List Ident)
    (hbase : evolves dia doc st0 st) (hmem : name ∈ docNames dia doc)
    (hN : ∀ sname sub req2 st2 sk2, evolves dia doc st0 st2 → sname ∈ docNames dia doc →
      alookup sname st2.schema_name_to_type_info = none →
      get_schema dia doc sname = .ok sub →
      recB sub (some sname) req2 st2 sk2 ≠ .error .fuelOut) :
    getTypeF dia doc recB name st stack ≠ .error .fuelOut := by
  unfold getTypeF
  split
  · simp
  · rename_i hreg
    cases hg : get_schema dia doc name with
    | error e =>
        simp only [hg, Except.instMonad, Except.bind]
        intro hcontra
        cases hcontra
        exact absurd hg (noFO_get_schema dia doc name)
    | ok schema =>
        simp only [hg, Except.instMonad, Except.bind]
        cases hb : recB schema (some name) true st stack with
        | error e =>
            simp only [hb, Except.instMonad, Except.bind]
            intro hcontra
            cases hcontra
            exact absurd hb (hN name schema true st stack hbase hmem hreg hg)
        | ok r1 =>
            simp only [hb, Except.instMonad, Except.bind]
            split <;> simp

theorem noFO_ref (dia : Dialect) (doc : PyVal) (recB : BuildFun) (st0 : BState)
    (schema : PyVal) (required : Bool) (st : BState) (stack : List Ident)
    (hbase : evolves dia doc st0 st)
    (hN : ∀ sname sub req2 st2 sk2, evolves dia doc st0 st2 → sname ∈ docNames dia doc →
      alookup sname st2.schema_name_to_type_info = none →
      get_schema dia doc sname = .ok sub →
      recB sub (some sname) req2 st2 sk2 ≠ .error .fuelOut) :
    ref_build_type dia doc recB schema required st stack ≠ .error .fuelOut := by
  unfold ref_build_type
  split
  · split
    · rename_i kvs ref hrefstr
      cases hp : parse_schema_name dia _ with
      | error e =>
          simp only [hp, Except.instMonad, Except.bind]
          intro hcontra
          cases hcontra
          exact absurd hp (noFO_parse dia _)
      | ok sname =>
          simp only [hp, Except.instMonad, Except.bind]
          cases hx : schema_exists dia doc sname with
          | error e =>
              simp only [hx, Except.instMonad, Except.bind]
              intro hcontra
              cases hcontra
              exact absurd hx (noFO_schema_exists dia doc sname)
          | ok ex =>
              simp only [hx, Except.instMonad, Except.bind]
              cases ex with
              | true =>
                  simp only [if_pos rfl]
                  cases hgt : getTypeF dia doc recB sname st stack with
                  | error e =>
                      simp only [hgt, Except.instMonad, Except.bind]
                      intro hcontra
                      cases hcontra
                      exact absurd hgt (noFO_getTypeF dia doc recB st0 sname st stack
                        hbase (schema_exists_mem dia doc sname hx) hN)
                  | ok r1 =>
                      simp only [hgt, Except.instMonad, Except.bind]
                      simp
              | false => simp
    · simp
    · simp
  · simp

theorem noFO_try_build (dia : Dialect) (doc : PyVal) (recB : BuildFun) (st0 : BState)
    (B : Nat) (schema : PyVal) (st : BState) (stack : List Ident)
    (hbase : evolves dia doc st0 st) (hB : sizeS schema ≤ B)
    (hS : ∀ sub req2 st2 sk2, evolves dia doc st0 st2 → sizeS sub < B →
      recB sub none req2 st2 sk2 ≠ .error .fuelOut) :
    try_build_additional_property_type recB schema st stack ≠ .error .fuelOut := by
  unfold try_build_additional_property_type
  split
  · rename_i kvs
    split
    · rename_i htype
      split
      · rename_i pat apkvs hpat
        have htv : ∃ t, alookup "type" kvs = some t := by
          cases ht : alookup "type" kvs with
          | none => rw [ht] at htype; exact absurd htype (by simp)
          | some t => exact ⟨t, rfl⟩
        obtain ⟨t, ht⟩ := htv
        have hsz : sizeS (PyVal.vdict [("oneOf", PyVal.vlist (apkvs.map Prod.snd))])
            < sizeS (PyVal.vdict kvs) := by
          have h2 := alookup_two_sizeP "type" "patternProperties" t (PyVal.vdict apkvs)
            (by decide) kvs ht hpat
          have h3 := mapsnd_sizeL apkvs
          have h4 := sizeS_pos t
          simp only [sizeS, sizeP, sizeL] at *
          omega
        cases hb : recB (PyVal.vdict [("oneOf", PyVal.vlist (apkvs.map Prod.snd))])
            none true st stack with
        | error e =>
            simp only [hb, Except.instMonad, Except.bind]
            intro hcontra
            cases hcontra
            exact absurd hb (hS _ true st stack hbase (Nat.lt_of_lt_of_le hsz hB))
        | ok r1 =>
            simp only [hb, Except.instMonad, Except.bind]
            simp
      · split
        · rename_i pat hpat ap apkvs hap
          have hsz : sizeS (PyVal.vdict apkvs) < sizeS (PyVal.vdict kvs) :=
            alookup_sizeS "additionalProperties" (PyVal.vdict apkvs) kvs hap
          cases hb : recB (PyVal.vdict apkvs) none true st stack with
          | error e =>
              simp only [hb, Except.instMonad, Except.bind]
              intro hcontra
              cases hcontra
              exact absurd hb (hS _ true st stack hbase (Nat.lt_of_lt_of_le hsz hB))
          | ok r1 =>
              simp only [hb, Except.instMonad, Except.bind]
              simp
        · simp
    · simp
  · simp

theorem noFO_props_fold (dia : Dialect) (doc : PyVal) (recB : BuildFun) (st0 : BState)
    (B : Nat) (requiredv : PyVal)
    (hEv : BEvolves dia doc recB)
    (hS : ∀ sub req2 st2 sk2, evolves dia doc st0 st2 → sizeS sub < B →
      recB sub none req2 st2 sk2 ≠ .error .fuelOut) :
    ∀ (props : List (String × PyVal)) (lm : List (String × String))
      (pm : List (String × SchemaBasedTypeInfo)) (st : BState) (stack : List Ident),
      (∀ kv ∈ props, sizeS kv.2 < B) → evolves dia doc st0 st →
      custom_props_fold recB requiredv props lm pm st stack ≠ .error .fuelOut := by
  intro props
  induction props with
  | nil =>
      intro lm pm st stack hsz hbase
      unfold custom_props_fold
      simp
  | cons kv rest ih =>
      intro lm pm st stack hsz hbase
      obtain ⟨pname, pschema⟩ := kv
      unfold custom_props_fold
      cases hq : requiredContains requiredv pname with
      | error e =>
          simp only [hq, Except.instMonad, Except.bind]
          intro hcontra
          cases hcontra
          exact absurd hq (noFO_requiredContains requiredv pname)
      | ok req =>
          simp only [hq, Except.instMonad, Except.bind]
          cases hb : recB pschema none req st stack with
          | error e =>
              simp only [hb, Except.instMonad, Except.bind]
              intro hcontra
              cases hcontra
              exact absurd hb (hS pschema req st stack hbase
                (hsz (pname, pschema) (List.mem_cons_self _ _)))
          | ok r1 =>
              simp only [hb, Except.instMonad, Except.bind]
              exact ih _ _ _ _ (fun kv2 hkv2 => hsz kv2 (List.mem_cons_of_mem _ hkv2))
                (evolves_trans hbase (hEv _ _ _ _ _ _ hb))

theorem noFO_custom_on (dia : Dialect) (doc : PyVal) (recB : BuildFun) (st0 : BState)
    (B : Nat) (schema : PyVal) (n : String) (st : BState) (stack : List Ident)
    (hbase : evolves dia doc st0 st) (hB : sizeS schema ≤ B)
    (hEv : BEvolves dia doc recB)
    (hS : ∀ sub req2 st2 sk2, evolves dia doc st0 st2 → sizeS sub < B →
      recB sub none req2 st2 sk2 ≠ .error .fuelOut) :
    custom_on_type_defined recB schema n st stack ≠ .error .fuelOut := by
  unfold custom_on_type_defined
  cases ha : try_build_additional_property_type recB schema st stack with
  | error e =>
      simp only [ha, Except.instMonad, Except.bind]
      intro hcontra
      cases hcontra
      exact absurd ha (noFO_try_build dia doc recB st0 B schema st stack hbase hB hS)
  | ok ra =>
      simp only [ha, Except.instMonad, Except.bind]
      have hra : evolves dia doc st0 ra.2 :=
        evolves_trans hbase (evolves_try_build dia doc recB schema st stack hEv ra ha)
      split
      · rename_i kvs
        split
        · rename_i pv propkvs hprop
          cases hf : custom_props_fold recB
              (match alookup "required" kvs with | some v => v | none => .vlist [])
              propkvs [] [] ra.2 stack with
          | error e =>
              simp only [hf, Except.instMonad, Except.bind]
              intro hcontra
              cases hcontra
              refine absurd hf (noFO_props_fold dia doc recB st0 B _ hEv hS
                propkvs [] [] ra.2 stack ?_ hra)
              intro kv hkv
              have h1 := mem_sizeP kv.1 kv.2 propkvs (by cases kv; exact hkv)
              have h2 := alookup_sizeS "properties" (PyVal.vdict propkvs) kvs hprop
              have h3 : sizeS (PyVal.vdict kvs) ≤ B := hB
              simp only [sizeS] at h2 h3 ⊢
              omega
          | ok rf =>
              simp only [hf, Except.instMonad, Except.bind]
              simp
        · simp
        · simp
      · simp

theorem noFO_sub_types (dia : Dialect) (doc : PyVal) (recB : BuildFun) (st0 : BState)
    (B : Nat)
    (hEv : BEvolves dia doc recB)
    (hS : ∀ sub req2 st2 sk2, evolves dia doc st0 st2 → sizeS sub < B →
      recB sub none req2 st2 sk2 ≠ .error .fuelOut) :
    ∀ (subs : List PyVal) (st : BState) (stack : List Ident),
      (∀ s ∈ subs, sizeS s < B) → evolves dia doc st0 st →
      build_sub_types recB subs st stack ≠ .error .fuelOut := by
  intro subs
  induction subs with
  | nil =>
      intro st stack hsz hbase
      unfold build_sub_types
      simp
  | cons s rest ih =>
      intro st stack hsz hbase
      unfold build_sub_types
      cases hb : recB s none true st stack with
      | error e =>
          simp only [hb, Except.instMonad, Except.bind]
          intro hcontra
          cases hcontra
          exact absurd hb (hS s true st stack hbase (hsz s (List.mem_cons_self _ _)))
      | ok r1 =>
          simp only [hb, Except.instMonad, Except.bind]
          cases hr : build_sub_types recB rest r1.2 stack with
          | error e =>
              simp only [hr, Except.instMonad, Except.bind]
              intro hcontra
              cases hcontra
              exact absurd hr (ih r1.2 stack
                (fun s2 hs2 => hsz s2 (List.mem_cons_of_mem _ hs2))
                (evolves_trans hbase (hEv _ _ _ _ _ _ hb)))
          | ok rr =>
              simp only [hr, Except.instMonad, Except.bind]
              simp

theorem noFO_one_of (dia : Dialect) (doc : PyVal) (recB : BuildFun) (st0 : BState)
    (B : Nat) (schema : PyVal) (required : Bool) (st : BState) (stack : List Ident)
    (hbase : evolves dia doc st0 st) (hB : sizeS schema ≤ B)
    (hEv : BEvolves dia doc recB)
    (hS : ∀ sub req2 st2 sk2, evolves dia doc st0 st2 → sizeS sub < B →
      recB sub none req2 st2 sk2 ≠ .error .fuelOut) :
    one_of_build_type recB schema required st stack ≠ .error .fuelOut := by
  unfold one_of_build_type
  split
  · rename_i kvs
    split
    · rename_i ov hov
      cases hi : pyIter ov with
      | error e =>
          simp only [hi, Except.instMonad, Except.bind]
          intro hcontra
          cases hcontra
          exact absurd hi (noFO_pyIter ov)
      | ok subs =>
          simp only [hi, Except.instMonad, Except.bind]
          cases hb : build_sub_types recB subs st stack with
          | error e =>
              simp only [hb, Except.instMonad, Except.bind]
              intro hcontra
              cases hcontra
              refine absurd hb (noFO_sub_types dia doc recB st0 B hEv hS subs st stack
                ?_ hbase)
              intro s hs
              have h1 := pyIter_size ov subs hi s hs
              have h2 := alookup_sizeS "oneOf" ov kvs hov
              omega
          | ok r1 =>
              simp only [hb, Except.instMonad, Except.bind]
              simp
    · simp
  · simp

theorem noFO_array (dia : Dialect) (doc : PyVal) (recB : BuildFun) (st0 : BState)
    (B : Nat) (schema : PyVal) (required : Bool) (st : BState) (stack : List Ident)
    (hbase : evolves dia doc st0 st) (hB : sizeS schema ≤ B)
    (hS : ∀ sub req2 st2 sk2, evolves dia doc st0 st2 → sizeS sub < B →
      recB sub none req2 st2 sk2 ≠ .error .fuelOut) :
    array_build_type recB schema required st stack ≠ .error .fuelOut := by
  unfold array_build_type
  split
  · rename_i kvs
    split
    · split
      · cases hit : alookup "items" kvs with
        | none =>
            simp only [hit, Except.instMonad, Except.bind]
            simp
        | some items =>
            simp only [hit, Except.instMonad, Except.bind]
            cases hb : recB items none true st stack with
            | error e =>
                simp only [hb, Except.instMonad, Except.bind]
                intro hcontra
                cases hcontra
                refine absurd hb (hS items true st stack hbase ?_)
                have h1 := alookup_sizeS "items" items kvs hit
                omega
            | ok r1 =>
                simp only [hb, Except.instMonad, Except.bind]
                simp
      · simp
    · simp
  · simp

theorem noFO_dict (dia : Dialect) (doc : PyVal) (recB : BuildFun) (st0 : BState)
    (B : Nat) (schema : PyVal) (required : Bool) (st : BState) (stack : List Ident)
    (hbase : evolves dia doc st0 st) (hB : sizeS schema ≤ B)
    (hS : ∀ sub req2 st2 sk2, evolves dia doc st0 st2 → sizeS sub < B →
      recB sub none req2 st2 sk2 ≠ .error .fuelOut) :
    dict_build_type recB schema required st stack ≠ .error .fuelOut := by
  unfold dict_build_type
  split
  · rename_i kvs
    split
    · cases ha : try_build_additional_property_type recB (PyVal.vdict kvs) st stack with
      | error e =>
          simp only [ha, Except.instMonad, Except.bind]
          intro hcontra
          cases hcontra
          exact absurd ha (noFO_try_build dia doc recB st0 B (PyVal.vdict kvs) st stack
            hbase hB hS)
      | ok ra =>
          simp only [ha, Except.instMonad, Except.bind]
          split <;> simp
    · simp
  · simp

theorem noFO_runChainF (dia : Dialect) (doc : PyVal) (recB : BuildFun) (st0 : BState)
    (B : Nat) (schema : PyVal) (name : Option String) (required : Bool)
    (st : BState) (stack : List Ident)
    (hbase : evolves dia doc st0 st) (hB : sizeS schema ≤ B)
    (hEv : BEvolves dia doc recB)
    (hS : ∀ sub req2 st2 sk2, evolves dia doc st0 st2 → sizeS sub < B →
      recB sub none req2 st2 sk2 ≠ .error .fuelOut)
    (hN : ∀ sname sub req2 st2 sk2, evolves dia doc st0 st2 → sname ∈ docNames dia doc →
      alookup sname st2.schema_name_to_type_info = none →
      get_schema dia doc sname = .ok sub →
      recB sub (some sname) req2 st2 sk2 ≠ .error .fuelOut) :
    runChainF dia doc recB schema name required st stack ≠ .error .fuelOut := by
  unfold runChainF
  cases h1 : ref_build_type dia doc recB schema required st stack with
  | error e =>
      simp only [h1, Except.instMonad, Except.bind]
      intro hcontra
      cases hcontra
      exact absurd h1 (noFO_ref dia doc recB st0 schema required st stack hbase hN)
  | ok r1 =>
      simp only [h1, Except.instMonad, Except.bind]
      have hb1 : evolves dia doc st0 r1.2 :=
        evolves_trans hbase (evolves_ref dia doc recB schema required st stack hEv r1 h1)
      cases hx1 : r1.1 with
      | some ti => simp
      | none =>
          cases hc : custom_build_type schema name with
          | some ti =>
              cases h2 : custom_on_type_defined recB schema ti.type_str
                  (registerIfNamed name ti r1.2) stack with
              | error e =>
                  simp only [h2, Except.instMonad, Except.bind]
                  intro hcontra
                  cases hcontra
                  refine absurd h2 (noFO_custom_on dia doc recB st0 B schema ti.type_str
                    (registerIfNamed name ti r1.2) stack ?_ hB hEv hS)
                  exact evolves_trans hb1 (evolves_register dia doc name ti r1.2)
              | ok stc =>
                  simp only [h2, Except.instMonad, Except.bind]
                  simp
          | none =>
              cases h3 : one_of_build_type recB schema required r1.2 stack with
              | error e =>
                  simp only [h3, Except.instMonad, Except.bind]
                  intro hcontra
                  cases hcontra
                  exact absurd h3 (noFO_one_of dia doc recB st0 B schema required r1.2
                    stack hb1 hB hEv hS)
              | ok r3 =>
                  simp only [h3, Except.instMonad, Except.bind]
                  have hb3 : evolves dia doc st0 r3.2 := evolves_trans hb1
                    (evolves_one_of dia doc recB schema required r1.2 stack hEv r3 h3)
                  cases hx3 : r3.1 with
                  | some ti => simp
                  | none =>
                      cases h4 : array_build_type recB schema required r3.2 stack with
                      | error e =>
                          simp only [h4, Except.instMonad, Except.bind]
                          intro hcontra
                          cases hcontra
                          exact absurd h4 (noFO_array dia doc recB st0 B schema required
                            r3.2 stack hb3 hB hS)
                      | ok r4 =>
                          simp only [h4, Except.instMonad, Except.bind]
                          have hb4 : evolves dia doc st0 r4.2 := evolves_trans hb3
                            (evolves_array dia doc recB schema required r3.2 stack hEv r4 h4)
                          cases hx4 : r4.1 with
                          | some ti => simp
                          | none =>
                              cases h5 : dict_build_type recB schema required r4.2 stack with
                              | error e =>
                                  simp only [h5, Except.instMonad, Except.bind]
                                  intro hcontra
                                  cases hcontra
                                  exact absurd h5 (noFO_dict dia doc recB st0 B schema
                                    required r4.2 stack hb4 hB hS)
                              | ok r5 =>
                                  simp only [h5, Except.instMonad, Except.bind]
                                  cases hx5 : r5.1 with
                                  | some ti => simp
                                  | none =>
                                      cases h6 : simple_build_type schema required with
                                      | error e =>
                                          simp only [h6, Except.instMonad, Except.bind]
                                          intro hcontra
                                          cases hcontra
                                          exact absurd h6 (noFO_simple schema required)
                                      | ok ti =>
                                          simp only [h6, Except.instMonad, Except.bind]
                                          simp

theorem noFO_core_reentrant (dia : Dialect) (doc : PyVal) (recB : BuildFun)
    (schema : PyVal) (name : Option String) (required : Bool)
    (st : BState) (stack : List Ident)
    (hre : resolvingHas st.schemas_being_parsed (name, schema) = true) :
    buildAndDefineCore dia doc recB schema name required st stack ≠ .error .fuelOut := by
  unfold buildAndDefineCore
  simp only [Except.instMonad, Except.bind]
  simp only [hre]
  cases hs : simple_build_type schema required with
  | error e =>
      simp only [hs]
      intro hcontra
      cases hcontra
      exact absurd hs (noFO_simple schema required)
  | ok v =>
      simp only [hs]
      simp

theorem noFO_reentrant (dia : Dialect) (doc : PyVal) (f2 : Nat)
    (schema : PyVal) (name : Option String) (required : Bool)
    (st : BState) (stack : List Ident)
    (hre : resolvingHas st.schemas_being_parsed (name, schema) = true) :
    buildAndDefine dia doc (f2 + 1) schema name required st stack ≠ .error .fuelOut := by
  show buildAndDefineF dia doc (buildAndDefine dia doc f2) schema name required st stack
    ≠ .error .fuelOut
  unfold buildAndDefineF
  split
  · split
    · simp
    · exact noFO_core_reentrant dia doc _ schema _ required st stack hre
  · exact noFO_core_reentrant dia doc _ schema _ required st stack hre

theorem get_schema_schemaOfName (dia : Dialect) (doc : PyVal) (m : String) (s : PyVal)
    (h : get_schema dia doc m = .ok s) : schemaOfName dia doc m = s := by
  unfold schemaOfName
  rw [h]

theorem noFO_core_main (dia : Dialect) (doc : PyVal) (f K0 : Nat)
    (schema : PyVal) (name : Option String) (required : Bool)
    (st : BState) (stack : List Ident)
    (hIH : ∀ schema2 name2 required2 st2 stack2,
      frameMeasure dia doc st2 name2 schema2 < K0 →
      frameMeasure dia doc st2 name2 schema2 < f →
      buildAndDefine dia doc f schema2 name2 required2 st2 stack2 ≠ .error .fuelOut)
    (hK : frameMeasure dia doc st name schema < K0 + 1)
    (hfuel : frameMeasure dia doc st name schema < f + 1) :
    buildAndDefineCore dia doc (buildAndDefine dia doc f) schema name required st stack
      ≠ .error .fuelOut := by
  cases hre : resolvingHas st.schemas_being_parsed (name, schema) with
  | true => exact noFO_core_reentrant dia doc _ schema name required st stack hre
  | false =>
      unfold buildAndDefineCore
      simp only [Except.instMonad, Except.bind]
      simp only [hre, Bool.false_eq_true, if_false]
      cases hC : runChainF dia doc (buildAndDefine dia doc f) schema name required
          { schema_name_to_type_info := st.schema_name_to_type_info, classes := st.classes,
            schemas_being_parsed := (name, schema) :: st.schemas_being_parsed,
            trace := st.trace ++
              [{ ident := (name, schema), resolvingAtEntry := st.schemas_being_parsed,
                 stackAtEntry := stack, simpleOnly := false }] }
          ((name, schema) :: stack) with
      | ok v =>
          simp only [hC]
          simp
      | error e =>
          simp only [hC]
          intro hcontra
          cases hcontra
          -- the entry state
          refine absurd hC (noFO_runChainF dia doc (buildAndDefine dia doc f)
            { schema_name_to_type_info := st.schema_name_to_type_info, classes := st.classes,
              schemas_being_parsed := (name, schema) :: st.schemas_being_parsed,
              trace := st.trace ++
                [{ ident := (name, schema), resolvingAtEntry := st.schemas_being_parsed,
                   stackAtEntry := stack, simpleOnly := false }] }
            (sizeS schema) schema name required _ _ (evolves_refl dia doc _)
            (Nat.le_refl _) (evolves_ladder dia doc f) ?_ ?_)
          · -- hS
            intro sub req2 st2 sk2 hev hsz
            have hA : availCount dia doc st2 (none, sub) ≤
                availCount dia doc st (name, schema) := by
              refine availCount_sub dia doc st _ st2 name schema (none, sub) ?_ hev.2 ?_
              · exact (evolves_entry dia doc st _ _ (Or.inr ⟨(name, schema), rfl⟩)).2
              · exact List.mem_cons_self _ _
            have hmul := Nat.mul_le_mul_right (sizeS doc + 2) hA
            have hM1 : frameMeasure dia doc st2 none sub <
                frameMeasure dia doc st name schema := by
              unfold frameMeasure at *
              omega
            unfold frameMeasure at hM1 hK hfuel
            cases f with
            | zero =>
                have := sizeS_pos schema
                omega
            | succ f2 =>
                refine hIH sub none req2 st2 sk2 ?_ ?_ <;> (unfold frameMeasure; omega)
          · -- hN
            intro sname sub req2 st2 sk2 hev hmem hregnone hget
            have hsub : schemaOfName dia doc sname = sub :=
              get_schema_schemaOfName dia doc sname sub hget
            cases hres : resolvingHas st2.schemas_being_parsed (some sname, sub) with
            | true =>
                cases f with
                | zero =>
                    have h1 := sizeS_pos schema
                    unfold frameMeasure at hfuel
                    omega
                | succ f2 =>
                    exact noFO_reentrant dia doc f2 sub (some sname) req2 st2 sk2 hres
            | false =>
                have hnav : navail dia doc st2 sname = false := by
                  simp only [navail, Bool.or_eq_true, identOfName]
                  rw [hsub, hregnone]
                  simp only [Option.isSome_none]
                  rw [hres]
                  rfl
                have hA : availCount dia doc st2 (some sname, schemaOfName dia doc sname)
                    + 1 ≤ availCount dia doc st (name, schema) := by
                  refine availCount_named dia doc st _ st2 name schema sname ?_ hev.2 ?_
                    hnav hmem
                  · exact (evolves_entry dia doc st _ _ (Or.inr ⟨(name, schema), rfl⟩)).2
                  · exact List.mem_cons_self _ _
                rw [hsub] at hA
                have hmul := Nat.mul_le_mul_right (sizeS doc + 2) hA
                have hsz : sizeS sub ≤ sizeS doc := get_schema_size dia doc sname sub hget
                have hexp : (availCount dia doc st2 (some sname, sub) + 1) *
                    (sizeS doc + 2) = availCount dia doc st2 (some sname, sub) *
                    (sizeS doc + 2) + (sizeS doc + 2) := Nat.succ_mul _ _
                cases f with
                | zero =>
                    have h1 := sizeS_pos schema
                    unfold frameMeasure at hfuel
                    omega
                | succ f2 =>
                    refine hIH sub (some sname) req2 st2 sk2 ?_ ?_ <;>
                      (unfold frameMeasure at *; omega)

theorem bd_noFuelOut (dia : Dialect) (doc : PyVal) :
    ∀ K fuel schema name required st stack,
      frameMeasure dia doc st name schema < K →
      frameMeasure dia doc st name schema < fuel →
      buildAndDefine dia doc fuel schema name required st stack ≠ .error .fuelOut := by
  intro K
  induction K with
  | zero =>
      intro fuel schema name required st stack hK
      exact absurd hK (Nat.not_lt_zero _)
  | succ K0 ih =>
      intro fuel schema name required st stack hK hfuel
      cases fuel with
      | zero => exact absurd hfuel (Nat.not_lt_zero _)
      | succ f =>
          show buildAndDefineF dia doc (buildAndDefine dia doc f) schema name required
            st stack ≠ .error .fuelOut
          unfold buildAndDefineF
          split
          · split
            · simp
            · refine noFO_core_main dia doc f K0 schema _ required st stack ?_ hK hfuel
              intro schema2 name2 required2 st2 stack2 h1 h2
              exact ih f schema2 name2 required2 st2 stack2 h1 h2
          · refine noFO_core_main dia doc f K0 schema _ required st stack ?_ hK hfuel
            intro schema2 name2 required2 st2 stack2 h1 h2
            exact ih f schema2 name2 required2 st2 stack2 h1 h2

/-- Claim C4.  Resolution of any schema name on a fresh session
terminates: with fuel `c4Bound` — a bound computed from the document
alone, `(number of schema names) * (document size + 2) + document size
+ 1` — `get_type` never exhausts its fuel, on every document and every
name, self-referential schemas included.  The nesting depth of
`build_and_define_type` frames is bounded because a named sub-build
claims one still-available document name before recursing (the shell
descriptor is registered before the property map is populated, so an
inner reference to the same name finds the registered entry or the
resolving-set marker instead of rebuilding), and every other sub-build
strictly shrinks the schema node. -/
theorem c4_termination (dia : Dialect) (doc : PyVal) (name : String) (fuel : Nat)
    (hf : c4Bound dia doc ≤ fuel) :
    get_type dia doc fuel name initState ≠ .error .fuelOut := by
  show getTypeF dia doc (buildAndDefine dia doc fuel) name initState [] ≠ .error .fuelOut
  unfold getTypeF
  split
  · simp
  · cases hg : get_schema dia doc name with
    | error e =>
        simp only [hg, Except.instMonad, Except.bind]
        intro hcontra
        cases hcontra
        exact absurd hg (noFO_get_schema dia doc name)
    | ok schema =>
        simp only [hg, Except.instMonad, Except.bind]
        cases hb : buildAndDefine dia doc fuel schema (some name) true initState [] with
        | error e =>
            simp only [hb, Except.instMonad, Except.bind]
            intro hcontra
            cases hcontra
            refine absurd hb (bd_noFuelOut dia doc
              (frameMeasure dia doc initState (some name) schema + 1) fuel schema
              (some name) true initState [] (Nat.lt_succ_self _) ?_)
            have hA := availCount_le_names dia doc initState (some name, schema)
            have hmul := Nat.mul_le_mul_right (sizeS doc + 2) hA
            have hsz := get_schema_size dia doc name schema hg
            unfold frameMeasure
            unfold c4Bound at hf
            omega
        | ok r1 =>
            simp only [hb, Except.instMonad, Except.bind]
            split <;> simp

/-- Witness for C4: the self-referential document `doc_selfref` (whose
schema `A` has a property referencing `A` itself) resolves within the
computed bound — the build does not run out of fuel. -/
theorem c4_termination_witness :
    get_type .json_schema doc_selfref (c4Bound .json_schema doc_selfref) "A" initState
      ≠ .error .fuelOut :=
  c4_termination .json_schema doc_selfref "A" (c4Bound .json_schema doc_selfref)
    (Nat.le_refl _)
